import Mathlib

/-!
# read-excel: a verification development

A shallow embedding of parts of the `read-excel` library (a reader of BIFF8
`.xls` workbooks inside OLE2 compound files) and theorems about them.

Conventions of the embedding:

* a byte is a `Nat` below 256, a byte buffer is a `List Nat`;
* a C++ `double` is its IEEE-754 binary64 bit pattern, a `Nat` below `2 ^ 64`
  (namespace `F64`); the host is little-endian, as the pointer casts of
  `doubleFromRK` assume;
* `uint32_t`, `size_t`, ... are `Nat`, signed integers are `Int`, with the
  wrap-around written out where the code can reach it.
-/

/-! ## IEEE-754 binary64 arithmetic on bit patterns -/

namespace F64

/-- Sign bit (bit 63) of a binary64 pattern. -/
def sign (x : Nat) : Nat := x / 2 ^ 63 % 2

/-- Biased exponent field (bits 52..62). -/
def expField (x : Nat) : Nat := x / 2 ^ 52 % 2 ^ 11

/-- Fraction field (bits 0..51). -/
def frac (x : Nat) : Nat := x % 2 ^ 52

/-- NaN: exponent field all ones, fraction not zero. -/
def isNaN (x : Nat) : Bool := expField x == 2047 && frac x != 0

/-- Infinity: exponent field all ones, fraction zero. -/
def isInf (x : Nat) : Bool := expField x == 2047 && frac x == 0

/-- Integer significand of a finite pattern: `|x| = sig x * 2 ^ exp2 x`. -/
def sig (x : Nat) : Nat := if expField x = 0 then frac x else 2 ^ 52 + frac x

/-- Exponent of the unit in the last place of a finite pattern. -/
def exp2 (x : Nat) : Int := if expField x = 0 then -1074 else (expField x : Int) - 1075

/-- The rational number a finite pattern stands for (`none` for infinities and NaN). -/
def toRat (x : Nat) : Option ℚ :=
  if expField x = 2047 then none
  else some ((if sign x = 1 then -1 else 1) * (sig x : ℚ) * (2 : ℚ) ^ exp2 x)

/-- Binary logarithm by halving, with the recursion bounded by `fuel`. -/
def log2Aux : Nat → Nat → Nat
  | 0, _ => 0
  | fuel + 1, n => if n < 2 then 0 else log2Aux fuel (n / 2) + 1

/-- Floor of the binary logarithm of `n` (`0` for `n = 0`). -/
def log2 (n : Nat) : Nat := log2Aux n n

/-- Floor of the binary logarithm of the positive rational `num / den`. -/
def ilog2 (num den : Nat) : Int :=
  if den ≤ num then (log2 (num / den) : Int)
  else -((log2 ((den - 1) / num) : Int) + 1)

/-- The integer nearest to `num / den`, ties going to the even one. -/
def roundHalfEven (num den : Nat) : Nat :=
  let q := num / den
  let r := num % den
  if 2 * r < den then q
  else if den < 2 * r then q + 1
  else if q % 2 = 0 then q else q + 1

/-- Pattern of the non-negative binary64 value nearest to `num / den`
(round to nearest, ties to even; overflow gives infinity). The significand is
rounded at the exponent `t` of the last place, and a carry out of it runs into
the exponent field, as the format is built to allow. -/
def roundPos (num den : Nat) : Nat :=
  if num = 0 then 0
  else
    let t : Int := max (ilog2 num den) (-1022) - 52
    let m := if 0 ≤ t then roundHalfEven num (den * 2 ^ t.toNat)
             else roundHalfEven (num * 2 ^ (-t).toNat) den
    min ((t + 1074).toNat * 2 ^ 52 + m) (2047 * 2 ^ 52)

/-- Conversion of an unsigned integer to `double`. -/
def ofNat (n : Nat) : Nat := roundPos n 1

/-- A NaN operand made quiet (bit 51 set), the result of an operation on it. -/
def quiet (x : Nat) : Nat := x ||| 2 ^ 51

/-- The NaN an invalid operation produces. IEEE-754 leaves sign and payload to
the implementation; this is the x86-64 one. -/
def defaultNaN : Nat := 0xFFF8000000000000

/-- Division `a / b` of two `double`s in the default rounding mode. -/
def div (a b : Nat) : Nat :=
  let s := (sign a ^^^ sign b) * 2 ^ 63
  if isNaN a then quiet a
  else if isNaN b then quiet b
  else if isInf a then (if isInf b then defaultNaN else s + 2047 * 2 ^ 52)
  else if isInf b then s
  else if sig b = 0 then (if sig a = 0 then defaultNaN else s + 2047 * 2 ^ 52)
  else
    let d : Int := exp2 a - exp2 b
    s + (if 0 ≤ d then roundPos (sig a * 2 ^ d.toNat) (sig b)
         else roundPos (sig a) (sig b * 2 ^ (-d).toNat))

/-- Pattern of the positive normal number `k`, for `e = log2 k ≤ 52`: exponent
field `e + 1023`, significand `k * 2 ^ (52 - e)` with its leading bit carried
into the exponent field. -/
def enc (e k : Nat) : Nat := (e + 1022) * 2 ^ 52 + k * 2 ^ (52 - e)

/-- A `double` put together from its two 32-bit words, as the stores through
`(uint32_t *)&num + 1` (high word) and `(uint32_t *)&num` (low word) do. -/
def ofWords (hi lo : Nat) : Nat := hi * 2 ^ 32 + lo

end F64

/-! ## RK numbers (parser.hpp; the copy in sheet.cpp is the same text) -/

/-- The function `doubleFromRK( uint32_t rk )`: bit 1 of `rk` marks an integer,
bit 0 a value to be divided by 100. -/
def doubleFromRK (rk : Nat) : Nat :=
  let num : Nat :=
    if rk &&& 0x02 ≠ 0 then
      -- num = (double) (rk >> 2);
      F64.ofNat (rk >>> 2)
    else
      -- hi words of IEEE num
      F64.ofWords (rk &&& 0xFFFFFFFC) 0
  if rk &&& 0x01 ≠ 0 then
    -- num /= 100;
    F64.div num (F64.ofNat 100)
  else num

/-! ## Fixed-width integers -/

/-- Value of a little-endian byte sequence. -/
def leValue : List Nat → Nat
  | [] => 0
  | b :: bs => b + 256 * leValue bs

/-- Bytes `offset .. offset + n - 1` of a buffer, as a little-endian number. -/
def leAt (input : List Nat) (offset n : Nat) : Nat := leValue ((input.drop offset).take n)

/-- The `int16_t` whose 16-bit pattern is `x`: patterns from `2 ^ 15` on are negative. -/
def toInt16 (x : Nat) : Int :=
  if x % 2 ^ 16 < 2 ^ 15 then ((x % 2 ^ 16 : Nat) : Int) else ((x % 2 ^ 16 : Nat) : Int) - 2 ^ 16

/-- The `int32_t` whose 32-bit pattern is `x`: patterns from `2 ^ 31` on are negative. -/
def toInt32 (x : Nat) : Int :=
  if x % 2 ^ 32 < 2 ^ 31 then ((x % 2 ^ 32 : Nat) : Int) else ((x % 2 ^ 32 : Nat) : Int) - 2 ^ 32

/-- Narrowing of an `int` to `int16_t` (the value modulo `2 ^ 16`). -/
def narrowInt16 (x : Int) : Int := (x + 2 ^ 15) % 2 ^ 16 - 2 ^ 15

/-- Conversion to `size_t` (64 bits), and arithmetic in it: the value modulo `2 ^ 64`. -/
def toSizeT (x : Int) : Nat := (x % 2 ^ 64).toNat

/-! ## Record data streams -/

namespace Excel

/-- Origin of a `Stream::seek`. -/
inductive SeekType
  | FromBeginning
  | FromCurrent
  | FromEnd
  deriving DecidableEq, Repr

/-- Modelled from the spec: the class `Stream` (stream.hpp), which is not among
the sources. A stream is a byte buffer and a position in it; §4.A and §4.E fix
little-endian sized reads, `seek` from three origins and `pos`. -/
structure Stream where
  data : List Nat
  pos : Nat
  deriving DecidableEq, Repr

namespace Stream

/-- Modelled from the spec: `Stream::read( value, bytes )` of stream.hpp, the
little-endian value of the next `bytes` bytes (§4.A). Where fewer bytes are
left the spec fixes no result and the model has none. -/
def read (s : Stream) (bytes : Nat) : Option (Nat × Stream) :=
  if s.pos + bytes ≤ s.data.length then
    some (leAt s.data s.pos bytes, { s with pos := s.pos + bytes })
  else none

/-- Modelled from the spec: `Stream::seek( offset, type )` of stream.hpp (§4.E:
the absolute position is computed from the origin; a position outside the
stream is an error, here no result). -/
def seek (s : Stream) (offset : Int) (type : SeekType) : Option Stream :=
  let target : Int :=
    match type with
    | .FromBeginning => offset
    | .FromCurrent => (s.pos : Int) + offset
    | .FromEnd => (s.data.length : Int) + offset
  if 0 ≤ target ∧ target ≤ (s.data.length : Int) then some { s with pos := target.toNat }
  else none

end Stream

/-- Modelled from the spec: the class `Record` (record.hpp), which is not among
the sources. By §3 a record is its code, the payload with the CONTINUE records
glued on, and the offsets of the seams. -/
structure Record where
  code : Nat
  data : List Nat
  borders : List Int
  deriving DecidableEq, Repr

/-- The call `record.dataStream()` on a record just built: the payload, read
from its start. -/
def Record.dataStream (r : Record) : Stream := { data := r.data, pos := 0 }

/-! ## Records and their codes (record.hpp) -/

/-- Modelled from the spec: `XL_BOF` of record.hpp, which is not among the sources (§4.G). -/
def XL_BOF : Nat := 0x0809

/-- Modelled from the spec: `XL_EOF` of record.hpp (§4.J). -/
def XL_EOF : Nat := 0x000A

/-- Modelled from the spec: `XL_BOUNDSHEET` of record.hpp (§4.G). -/
def XL_BOUNDSHEET : Nat := 0x0085

/-- Modelled from the spec: `XL_SST` of record.hpp (§4.H). -/
def XL_SST : Nat := 0x00FC

/-- Modelled from the spec: `XL_CONTINUE` of record.hpp (§4.F). -/
def XL_CONTINUE : Nat := 0x003C

/-- Modelled from the spec: `XL_LABELSST` of record.hpp (§4.I). -/
def XL_LABELSST : Nat := 0x00FD

/-- Modelled from the spec: `XL_LABEL` of record.hpp (§4.I). -/
def XL_LABEL : Nat := 0x0204

/-- Modelled from the spec: `XL_RK` of record.hpp (§4.I). -/
def XL_RK : Nat := 0x007E

/-- Modelled from the spec: `XL_RK2` of record.hpp (§4.I). -/
def XL_RK2 : Nat := 0x027E

/-- Modelled from the spec: `XL_MULRK` of record.hpp (§4.I). -/
def XL_MULRK : Nat := 0x00BD

/-- Modelled from the spec: `XL_NUMBER` of record.hpp (§4.I). -/
def XL_NUMBER : Nat := 0x0203

/-- Modelled from the spec: `XL_FORMULA` of record.hpp (§4.I). -/
def XL_FORMULA : Nat := 0x0006

/-- Modelled from the spec: `XL_STRING` of record.hpp (§4.I). -/
def XL_STRING : Nat := 0x0207

/-- Modelled from the spec: `XL_DATEMODE` of record.hpp (§4.J). -/
def XL_DATEMODE : Nat := 0x0022

/-- Modelled from the spec: `XL_FILEPASS` of record.hpp (§4.J). -/
def XL_FILEPASS : Nat := 0x002F

/-- Modelled from the spec: `XL_UNKNOWN` of record.hpp, the code of a record
that could not be read (§4.F). The spec does not give its value; it is taken to
be `0xFFFF`, which is no record type of the format. -/
def XL_UNKNOWN : Nat := 0xFFFF

/-- Modelled from the spec: the raw bytes a stream hands out (stream.hpp), the
next `count` of them; no result where fewer are left. -/
def Stream.readBytes (s : Stream) (count : Nat) : Option (List Nat × Stream) :=
  if s.pos + count ≤ s.data.length then
    some ((s.data.drop s.pos).take count, { s with pos := s.pos + count })
  else none

/-- The record a failed read leaves: code `XL_UNKNOWN`, no payload. -/
def Record.unknown : Record := { code := XL_UNKNOWN, data := [], borders := [] }

/-- Modelled from the spec: the gluing of CONTINUE records in the constructor
`Record( stream )` of record.hpp (§4.F). While the next record has the code
`0x003C` its header is consumed, its payload appended and the place of the seam
pushed onto `borders`; the header of any other record is left in the stream.
A payload that the stream cannot supply makes the record `XL_UNKNOWN`. At most
`fuel` records are glued. -/
def Record.readContinues : Nat → Record → Stream → Record × Stream
  | 0, r, s => (r, s)
  | fuel + 1, r, s =>
    match s.read 2 with
    | none => (r, s)
    | some (code, s1) =>
      if code ≠ XL_CONTINUE then (r, s)
      else
        match s1.read 2 with
        | none => (Record.unknown, s1)
        | some (length, s2) =>
          match s2.readBytes length with
          | none => (Record.unknown, s2)
          | some (payload, s3) =>
            Record.readContinues fuel
              { r with data := r.data ++ payload, borders := r.borders ++ [(r.data.length : Int)] }
              s3

/-- Modelled from the spec: the constructor `Record( stream )` of record.hpp
(§4.F): code and length, 16 bits each, `length` bytes of payload, then the
CONTINUE records that follow. A read that fails gives `XL_UNKNOWN`. The result
is the record and the stream after it. -/
def Record.read (s : Stream) : Record × Stream :=
  match s.read 2 with
  | none => (Record.unknown, s)
  | some (code, s1) =>
    match s1.read 2 with
    | none => (Record.unknown, s1)
    | some (length, s2) =>
      match s2.readBytes length with
      | none => (Record.unknown, s2)
      | some (payload, s3) =>
        Record.readContinues s.data.length { code := code, data := payload, borders := [] } s3

/-- The records a stream holds from its position on, as `Record( stream )`
reads them one after the other, up to and with the first `XL_UNKNOWN`; at most
`fuel` of them. -/
def Stream.records : Nat → Stream → List Record
  | 0, _ => []
  | fuel + 1, s =>
    if (Record.read s).1.code = XL_UNKNOWN then [(Record.read s).1]
    else (Record.read s).1 :: Stream.records fuel (Record.read s).2

/-! ## BIFF strings (string.hpp) -/

/-- The enumeration `BOF::BiffVersion`, of which parser.hpp names `BIFF7` and `BIFF8`. -/
inductive BiffVersion
  | UnknownVersion
  | BIFF7
  | BIFF8
  deriving DecidableEq, Repr

/-- Modelled from the spec: bit 0 of the flags of a string, "wide" (§4.H). -/
def isHighByte (options : Nat) : Bool := options &&& 0x01 != 0

/-- Modelled from the spec: bit 2 of the flags of a string, "farEast" (§4.H). -/
def isExtString (options : Nat) : Bool := options &&& 0x04 != 0

/-- Modelled from the spec: bit 3 of the flags of a string, "richText" (§4.H). -/
def isRichString (options : Nat) : Bool := options &&& 0x08 != 0

/-- Modelled from the spec: the characters of a string (string.hpp, §4.H),
`count` of them. Before each one, if the stream stands on a seam listed in
`borders`, the next byte is a new flags byte and the wideness is read again.
A narrow character is one byte, zero-extended; a wide one is two bytes,
little-endian. -/
def loadChars (borders : List Int) : Nat → Bool → Stream → Option (List Nat × Stream)
  | 0, _, s => some ([], s)
  | count + 1, wide, s =>
    match (if (s.pos : Int) ∈ borders then
        (s.read 1).map (fun r => (isHighByte r.1, r.2))
      else some (wide, s)) with
    | none => none
    | some (wide, s) =>
      match s.read (if wide then 2 else 1) with
      | none => none
      | some (c, s) =>
        match loadChars borders count wide s with
        | none => none
        | some (rest, s) => some (c :: rest, s)

/-- Modelled from the spec: `loadString( stream, borders, lengthFieldSize, ver )`
of string.hpp, which is not among the sources (§4.H): the count of characters
in `lengthFieldSize` bytes, the flags, the count of rich-text runs if the string
is rich, the size of the extension if it is far-east, the characters, then the
runs (4 bytes each) and the extension, which are skipped. The spec has this one
layout, for the strings of the SST record, of the BOUNDSHEET record (§4.G) and
of the LABEL record (§4.I, "the rules of §4.H"), and leaves open what the
version asked for changes (§9): the model follows the layout whatever the
version `_ver`. The result is the string, as the codes of its wide characters,
and the stream after it. -/
def loadString (stream : Stream) (borders : List Int) (lengthFieldSize : Nat)
    (_ver : BiffVersion) : Option (List Nat × Stream) := do
  let (charactersCount, s) ← stream.read lengthFieldSize
  let (options, s) ← s.read 1
  let (formattingRuns, s) ← if isRichString options then s.read 2 else some (0, s)
  let (extStringLength, s) ← if isExtString options then s.read 4 else some (0, s)
  let (chars, s) ← loadChars borders charactersCount (isHighByte options) s
  let s ← s.seek ((formattingRuns * 4 : Nat) : Int) .FromCurrent
  let s ← s.seek ((extStringLength : Nat) : Int) .FromCurrent
  pure (chars, s)

/-! ## BOF and BoundSheet (bof.hpp, sheet.hpp) -/

/-- Modelled from the spec: the class `BOF` (bof.hpp), which is not among the
sources: the BIFF version of the substream (§4.G). -/
structure BOF where
  m_version : BiffVersion
  deriving DecidableEq, Repr

/-- Modelled from the spec: the default constructor `BOF()`: no version yet. -/
def BOF.new : BOF := { m_version := BiffVersion.UnknownVersion }

/-- Modelled from the spec: the version a version word stands for: `0x0600` is
BIFF8 (§4.G); `0x0500`, by the format, BIFF7; nothing else is known. -/
def BOF.convertVersion (word : Nat) : BiffVersion :=
  if word = 0x0600 then BiffVersion.BIFF8
  else if word = 0x0500 then BiffVersion.BIFF7
  else BiffVersion.UnknownVersion

/-- Modelled from the spec: `BOF::parse( record )` of bof.hpp: the 2-byte version
word at the start of the payload (§4.G). -/
def BOF.parse (record : Record) : Option BOF :=
  match record.dataStream.read 2 with
  | none => none
  | some (version, _) => some { m_version := BOF.convertVersion version }

/-- The function `BOF::version()`. -/
def BOF.version (bof : BOF) : BiffVersion := bof.m_version

/-- The enumeration `BoundSheet::SheetType`, as the values of its enumerators:
a cast can give it any other value of its underlying type as well. -/
abbrev SheetType := Nat

/-- The enumerator `BoundSheet::WorkSheet`. -/
def SheetType.WorkSheet : SheetType := 0x0000

/-- The enumerator `BoundSheet::MacroSheet`. -/
def SheetType.MacroSheet : SheetType := 0x0100

/-- The enumerator `BoundSheet::Chart`. -/
def SheetType.Chart : SheetType := 0x0200

/-- The enumerator `BoundSheet::VisualBasicModule`. -/
def SheetType.VisualBasicModule : SheetType := 0x0600

/-- The class `BoundSheet` of sheet.hpp: its data members. -/
structure BoundSheet where
  m_BOFPosition : Int
  m_sheetType : SheetType
  m_sheetName : List Nat
  deriving DecidableEq, Repr

/-- The function `BoundSheet::BOFPosition()`. -/
def BoundSheet.BOFPosition (b : BoundSheet) : Int := b.m_BOFPosition

/-- The function `BoundSheet::sheetType()`. -/
def BoundSheet.sheetType (b : BoundSheet) : SheetType := b.m_sheetType

/-- The function `BoundSheet::sheetName()`. -/
def BoundSheet.sheetName (b : BoundSheet) : List Nat := b.m_sheetName

/-- The function `BoundSheet::convertSheetType( int16_t type )` of sheet.hpp
(sheet.cpp has the same text): `(SheetType) ( type & 0xFF00 )`, on the 16-bit
pattern of `type`. -/
def BoundSheet.convertSheetType (type : Int) : SheetType :=
  (type % 2 ^ 16).toNat &&& 0xFF00

/-- The function `BoundSheet::convertSheetType( int16_t type )` of sheet.cpp:
`(SheetType) ( type & 0xFF00 )`, on the 16-bit pattern of `type`. -/
def BoundSheet.convertSheetTypeOld (type : Int) : SheetType :=
  (type % 2 ^ 16).toNat &&& 0xFF00

/-! ## Formulas (formula.hpp) -/

/-- Modelled from the spec: the enumeration `Formula::ValueType` (formula.hpp),
the kinds of §3. -/
inductive Formula.ValueType
  | UnknownValue
  | DoubleValue
  | StringValue
  | BooleanValue
  | ErrorValue
  deriving DecidableEq, Repr

/-- Modelled from the spec: the error code `Formula::NA` (§4.I). -/
def Formula.NA : Nat := 42

/-- Modelled from the spec: the class `Formula` (formula.hpp), which is not
among the sources: the cell, the kind of the cached result and the result (§3).
The format index, the flags and the tokens are not kept. -/
structure Formula where
  m_row : Nat
  m_column : Nat
  m_valueType : Formula.ValueType
  m_doubleValue : Nat
  m_boolValue : Bool
  m_errorValue : Nat
  m_stringValue : List Nat
  deriving DecidableEq, Repr

/-- Modelled from the spec: the constructor `Formula( record )` of formula.hpp
(§4.I): row, column and format index, 16 bits each, then the 8 bytes of the
result. If its two high bytes are `0xFFFF` the result is no double and its byte
0 tells the kind, its byte 2 holding the boolean or the error code; else the 8
bytes are the double. Of the two tables the spec has for byte 0, this is the one
of its scenarios (§8), which the assertions of test/formula/main.cpp fix:
0 a string, 1 a boolean, 2 an error. -/
def Formula.parse (record : Record) : Option Formula := do
  let s := record.dataStream
  let (row, s) ← s.read 2
  let (column, s) ← s.read 2
  let (_xfIndex, s) ← s.read 2
  let (result, _) ← s.read 8
  let empty : Formula :=
    { m_row := row, m_column := column, m_valueType := Formula.ValueType.UnknownValue,
      m_doubleValue := 0, m_boolValue := false, m_errorValue := 0, m_stringValue := [] }
  if result / 2 ^ 48 % 2 ^ 16 = 0xFFFF then
    let kind := result % 2 ^ 8
    let byte2 := result / 2 ^ 16 % 2 ^ 8
    if kind = 0 then
      pure { empty with m_valueType := Formula.ValueType.StringValue }
    else if kind = 1 then
      pure { empty with m_valueType := Formula.ValueType.BooleanValue, m_boolValue := byte2 != 0 }
    else if kind = 2 then
      pure { empty with m_valueType := Formula.ValueType.ErrorValue, m_errorValue := byte2 }
    else pure empty
  else
    pure { empty with m_valueType := Formula.ValueType.DoubleValue, m_doubleValue := result }

/-- Modelled from the spec: `Formula::valueType()`. -/
def Formula.valueType (f : Formula) : Formula.ValueType := f.m_valueType

/-- Modelled from the spec: `Formula::getRow()`. -/
def Formula.getRow (f : Formula) : Nat := f.m_row

/-- Modelled from the spec: `Formula::getColumn()`. -/
def Formula.getColumn (f : Formula) : Nat := f.m_column

/-- Modelled from the spec: `Formula::getDouble()`, the bit pattern of the double. -/
def Formula.getDouble (f : Formula) : Nat := f.m_doubleValue

/-- Modelled from the spec: `Formula::getBoolean()`. -/
def Formula.getBoolean (f : Formula) : Bool := f.m_boolValue

/-- Modelled from the spec: `Formula::getErrorValue()`. -/
def Formula.getErrorValue (f : Formula) : Nat := f.m_errorValue

/-- Modelled from the spec: `Formula::getString()`. -/
def Formula.getString (f : Formula) : List Nat := f.m_stringValue

/-- Modelled from the spec: `Formula::setString( value )`: the cached string
that the STRING record after the formula holds (§4.I). -/
def Formula.setString (f : Formula) (value : List Nat) : Formula :=
  { f with m_stringValue := value }

/-! ## The cell handlers of the parser (parser.hpp) -/

/-- The calls the parser makes on its `IStorage` sink, each with the values of
the argument expressions at the call site. The parameter types are declared in
storage.hpp, which is not among the sources; `Sheet::setCell`, to which a sink
that fills sheets passes the coordinates on, takes them as `size_t`. -/
inductive Event
  | onCellSharedString (sheetIdx : Nat) (row column : Int) (sstIndex : Int)
  | onCellDouble (sheetIdx : Nat) (row column : Int) (value : Nat)
  | onCellString (sheetIdx : Nat) (row column : Int) (value : List Nat)
  | onCellFormula (sheetIdx : Nat) (formula : Formula)
  | onSharedString (sstSize : Int) (idx : Int) (value : List Nat)
  | onDateMode (mode : Nat)
  | onSheet (idx : Nat) (name : List Nat)
  deriving DecidableEq, Repr

/-- The sheet a cell callback is for; none for the other callbacks. -/
def Event.cellSheet : Event → Option Nat
  | .onCellSharedString i _ _ _ => some i
  | .onCellDouble i _ _ _ => some i
  | .onCellString i _ _ _ => some i
  | .onCellFormula i _ => some i
  | _ => none

/-- The class `Exception` of the parser, by its message. -/
structure Exception where
  what : String
  deriving DecidableEq, Repr

/-- How a run of one of the loading functions ends: it returns, it throws, it
reaches a read or a seek for which the model of the stream has no result, or
the model runs out of fuel. -/
inductive Outcome
  | returned
  | thrown (e : Exception)
  | unspecified
  | outOfFuel
  deriving DecidableEq, Repr

/-- The callbacks `events` made first, then the run `run`. -/
def Outcome.after {α : Type} (events : List Event) (run : List Event × α) : List Event × α :=
  (events ++ run.1, run.2)

namespace Parser

/-- The function `Parser::handleLabelSST`. -/
def handleLabelSST (record : Record) (sheetIdx : Nat) : Option (List Event) := do
  let s := record.dataStream
  -- int16_t row, column, xfIndex; int32_t sstIndex
  let (row, s) ← s.read 2
  let (column, s) ← s.read 2
  let (_xfIndex, s) ← s.read 2
  let (sstIndex, _) ← s.read 4
  pure [Event.onCellSharedString sheetIdx (toInt16 row) (toInt16 column) (toInt32 sstIndex)]

/-- The function `Parser::handleRK`. -/
def handleRK (record : Record) (sheetIdx : Nat) : Option (List Event) := do
  let s := record.dataStream
  let (row, s) ← s.read 2
  let (column, s) ← s.read 2
  let s ← s.seek 2 .FromCurrent
  let (rk, _) ← s.read 4
  pure [Event.onCellDouble sheetIdx (toInt16 row) (toInt16 column) (doubleFromRK (rk % 2 ^ 32))]

/-- The loop of `Parser::handleMULRK`, `for( int16_t i = 0; i < rkCount; ++i )`,
with `remaining` iterations to go from counter `i` on. -/
def handleMULRKLoop (sheetIdx : Nat) (row colFirst : Int) :
    Nat → Int → Stream → Option (List Event)
  | 0, _, _ => some []
  | remaining + 1, i, s => do
    let s ← s.seek 2 .FromCurrent
    let (rk, s) ← s.read 4
    let rest ← handleMULRKLoop sheetIdx row colFirst remaining (i + 1) s
    pure (Event.onCellDouble sheetIdx row (colFirst + i) (doubleFromRK (rk % 2 ^ 32)) :: rest)

/-- The function `Parser::handleMULRK`. -/
def handleMULRK (record : Record) (sheetIdx : Nat) : Option (List Event) := do
  let s := record.dataStream
  -- int16_t row, colFirst, colLast
  let (row, s) ← s.read 2
  let (colFirst, s) ← s.read 2
  let pos : Int := s.pos
  let s ← s.seek (-2) .FromEnd
  let (colLast, s) ← s.read 2
  let s ← s.seek pos .FromBeginning
  let rkCount : Int := narrowInt16 (toInt16 colLast - toInt16 colFirst + 1)
  handleMULRKLoop sheetIdx (toInt16 row) (toInt16 colFirst) rkCount.toNat 0 s

/-- The function `Parser::handleDateMode`. -/
def handleDateMode (r : Record) : Option (List Event) := do
  let (mode, _) ← r.dataStream.read 2
  pure [Event.onDateMode mode]

/-- The function `Parser::parseBoundSheet`. -/
def parseBoundSheet (record : Record) (ver : BiffVersion) : Option BoundSheet := do
  let s := record.dataStream
  -- int32_t pos; int16_t sheetType
  let (pos, s) ← s.read 4
  let (sheetType, s) ← s.read 2
  let (sheetName, _) ← loadString s record.borders 1 ver
  pure { m_BOFPosition := toInt32 pos,
         m_sheetType := BoundSheet.convertSheetType (toInt16 sheetType),
         m_sheetName := sheetName }

/-- The loop of `Parser::parseSST`, `for( int32_t i = 0; i < uniqueStrings; ++i )`,
with `remaining` iterations to go from counter `i` on; `loadString` is called
with its default arguments, a 2-byte length and BIFF8. -/
def parseSSTLoop (borders : List Int) (uniqueStrings : Int) :
    Nat → Int → Stream → Option (List Event)
  | 0, _, _ => some []
  | remaining + 1, i, s => do
    let (value, s) ← loadString s borders 2 BiffVersion.BIFF8
    let rest ← parseSSTLoop borders uniqueStrings remaining (i + 1) s
    pure (Event.onSharedString uniqueStrings i value :: rest)

/-- The function `Parser::parseSST`. A negative `uniqueStrings` makes the
constructor of the vector `sst` fail; the model has no result there. -/
def parseSST (record : Record) : Option (List Event) := do
  let s := record.dataStream
  -- int32_t totalStrings, uniqueStrings
  let (_totalStrings, s) ← s.read 4
  let (uniqueStrings, s) ← s.read 4
  if toInt32 uniqueStrings < 0 then none
  else parseSSTLoop record.borders (toInt32 uniqueStrings) (toInt32 uniqueStrings).toNat 0 s

/-- The function `Parser::handleLabel`: the row, the column, 2 bytes passed
over, then the string, for which `loadString` is asked with a 2-byte length and
`BOF::BIFF7`. -/
def handleLabel (record : Record) (sheetIdx : Nat) : Option (List Event) := do
  let s := record.dataStream
  let (row, s) ← s.read 2
  let (column, s) ← s.read 2
  let s ← s.seek 2 .FromCurrent
  let (data, _) ← loadString s record.borders 2 BiffVersion.BIFF7
  pure [Event.onCellString sheetIdx (toInt16 row) (toInt16 column) data]

/-- The function `Parser::handleNUMBER`; the double is its bit pattern. -/
def handleNUMBER (record : Record) (sheetIdx : Nat) : Option (List Event) := do
  let s := record.dataStream
  let (row, s) ← s.read 2
  let (column, s) ← s.read 2
  let s ← s.seek 2 .FromCurrent
  let (asLongLong, _) ← s.read 8
  pure [Event.onCellDouble sheetIdx (toInt16 row) (toInt16 column) asLongLong]

/-- The function `Parser::handleFORMULA`: the callback and the stream after the
records it has read. -/
def handleFORMULA (record : Record) (stream : Stream) (sheetIdx : Nat) :
    Option (List Event × Stream) :=
  match Formula.parse record with
  | none => none
  | some formula =>
    if formula.valueType = Formula.ValueType.StringValue then
      -- Record stringRecord( stream ); std::vector< int32_t > borders;
      match loadString (Record.read stream).1.dataStream [] 2 BiffVersion.BIFF8 with
      | none => none
      | some (value, _) =>
        some ([Event.onCellFormula sheetIdx (formula.setString value)], (Record.read stream).2)
    else some ([Event.onCellFormula sheetIdx formula], stream)

/-- The message of the exception for an encrypted workbook. -/
def protectedFile : Exception :=
  { what := "This file is protected. Decryption is not implemented yet." }

/-- The message of the exception for a record that could not be read. -/
def wrongFormat : Exception := { what := "Wrong format." }

/-- The message of the exception for a sheet that is not BIFF8. -/
def unsupportedBiff : Exception :=
  { what := "Unsupported BIFF version. BIFF8 is supported only." }

/-- The loop `while( true )` of `Parser::loadGlobals`, at most `fuel` records
long, from the state `bof`, `boundSheets`: the callbacks made, the bound sheets
at the end and how the loop ends. -/
def loadGlobalsLoop : Nat → Stream → BOF → List BoundSheet →
    List Event × List BoundSheet × Outcome
  | 0, _, _, boundSheets => ([], boundSheets, Outcome.outOfFuel)
  | fuel + 1, stream, bof, boundSheets =>
    let r := (Record.read stream).1
    let stream := (Record.read stream).2
    if r.code = XL_BOF then
      match BOF.parse r with
      | none => ([], boundSheets, Outcome.unspecified)
      | some bof => loadGlobalsLoop fuel stream bof boundSheets
    else if r.code = XL_FILEPASS then ([], boundSheets, Outcome.thrown protectedFile)
    else if r.code = XL_SST then
      match parseSST r with
      | none => ([], boundSheets, Outcome.unspecified)
      | some events => Outcome.after events (loadGlobalsLoop fuel stream bof boundSheets)
    else if r.code = XL_BOUNDSHEET then
      match parseBoundSheet r bof.version with
      | none => ([], boundSheets, Outcome.unspecified)
      | some b => loadGlobalsLoop fuel stream bof (boundSheets ++ [b])
    else if r.code = XL_DATEMODE then
      match handleDateMode r with
      | none => ([], boundSheets, Outcome.unspecified)
      | some events => Outcome.after events (loadGlobalsLoop fuel stream bof boundSheets)
    else if r.code = XL_EOF then ([], boundSheets, Outcome.returned)
    else if r.code = XL_UNKNOWN then ([], boundSheets, Outcome.thrown wrongFormat)
    else loadGlobalsLoop fuel stream bof boundSheets

/-- The function `Parser::loadGlobals`, on an empty vector of bound sheets. Each
turn of the loop consumes the header of a record or ends the loop, so the
length of the stream bounds the turns. -/
def loadGlobals (stream : Stream) : List Event × List BoundSheet × Outcome :=
  loadGlobalsLoop (stream.data.length + 1) stream BOF.new []

/-- The loop `while( true )` of `Parser::loadSheet`, at most `fuel` records long. -/
def loadSheetLoop (sheetIdx : Nat) : Nat → Stream → List Event × Outcome
  | 0, _ => ([], Outcome.outOfFuel)
  | fuel + 1, stream =>
    let record := (Record.read stream).1
    let stream := (Record.read stream).2
    if record.code = XL_LABELSST then
      match handleLabelSST record sheetIdx with
      | none => ([], Outcome.unspecified)
      | some events => Outcome.after events (loadSheetLoop sheetIdx fuel stream)
    else if record.code = XL_LABEL then
      match handleLabel record sheetIdx with
      | none => ([], Outcome.unspecified)
      | some events => Outcome.after events (loadSheetLoop sheetIdx fuel stream)
    else if record.code = XL_RK ∨ record.code = XL_RK2 then
      match handleRK record sheetIdx with
      | none => ([], Outcome.unspecified)
      | some events => Outcome.after events (loadSheetLoop sheetIdx fuel stream)
    else if record.code = XL_MULRK then
      match handleMULRK record sheetIdx with
      | none => ([], Outcome.unspecified)
      | some events => Outcome.after events (loadSheetLoop sheetIdx fuel stream)
    else if record.code = XL_NUMBER then
      match handleNUMBER record sheetIdx with
      | none => ([], Outcome.unspecified)
      | some events => Outcome.after events (loadSheetLoop sheetIdx fuel stream)
    else if record.code = XL_FORMULA then
      match handleFORMULA record stream sheetIdx with
      | none => ([], Outcome.unspecified)
      | some (events, stream) => Outcome.after events (loadSheetLoop sheetIdx fuel stream)
    else if record.code = XL_EOF then ([], Outcome.returned)
    else if record.code = XL_UNKNOWN then ([], Outcome.thrown wrongFormat)
    else loadSheetLoop sheetIdx fuel stream

/-- The function `Parser::loadSheet`. -/
def loadSheet (sheetIdx : Nat) (boundSheet : BoundSheet) (stream : Stream) :
    List Event × Outcome :=
  match stream.seek boundSheet.BOFPosition .FromBeginning with
  | none => ([], Outcome.unspecified)
  | some stream =>
    match BOF.parse (Record.read stream).1 with
    | none => ([], Outcome.unspecified)
    | some bof =>
      if bof.version ≠ BiffVersion.BIFF8 then ([], Outcome.thrown unsupportedBiff)
      else loadSheetLoop sheetIdx (stream.data.length + 1) (Record.read stream).2

/-- The loop of `Parser::loadWorkSheets` from index `i` on, `rest` being the
bound sheets from there. A sheet that does not load ends the loop with it.
`loadSheet` starts with a seek from the beginning of the stream, so the
position an earlier sheet left does not count and each sheet is given the
stream as it came. -/
def loadWorkSheetsFrom (stream : Stream) : Nat → List BoundSheet → List Event × Outcome
  | _, [] => ([], Outcome.returned)
  | i, b :: rest =>
    if b.sheetType = SheetType.WorkSheet then
      if (loadSheet i b stream).2 = Outcome.returned then
        Outcome.after (Event.onSheet i b.sheetName :: (loadSheet i b stream).1)
          (loadWorkSheetsFrom stream (i + 1) rest)
      else (Event.onSheet i b.sheetName :: (loadSheet i b stream).1, (loadSheet i b stream).2)
    else loadWorkSheetsFrom stream (i + 1) rest

/-- The function `Parser::loadWorkSheets`. -/
def loadWorkSheets (boundSheets : List BoundSheet) (stream : Stream) : List Event × Outcome :=
  loadWorkSheetsFrom stream 0 boundSheets

end Parser

/-! ## The layout of strings in a record -/

/-- A run of characters of a string that lies in one record, all narrow or all
wide (§4.H). -/
structure Segment where
  wide : Bool
  chars : List Nat
  deriving DecidableEq, Repr

/-- The bytes of wide characters: two each, the low one first. -/
def wideBytes : List Nat → List Nat
  | [] => []
  | c :: cs => c % 256 :: c / 256 :: wideBytes cs

/-- The bytes of a run of characters as §4.H lays them out: a narrow character
is one byte, a wide one is two bytes, the low one first. -/
def charBytes (wide : Bool) (chars : List Nat) : List Nat :=
  if wide then wideBytes chars else chars

/-- The bytes of the characters of a run. -/
def Segment.bytes (g : Segment) : List Nat := charBytes g.wide g.chars

/-- The flags byte of a run: bit 0 says wide. -/
def Segment.flags (g : Segment) : Nat := if g.wide then 1 else 0

/-- The bytes of the runs of a string that come after a seam between records:
each starts with a flags byte of its own (§4.H). -/
def encodeContinued : List Segment → List Nat
  | [] => []
  | g :: gs => g.flags :: g.bytes ++ encodeContinued gs

/-- The characters of a list of runs. -/
def segmentsChars : List Segment → List Nat
  | [] => []
  | g :: gs => g.chars ++ segmentsChars gs

/-- The bytes of a BIFF8 string, neither rich nor far-east, as §4.H lays it out:
the count of its characters in 16 bits, the flags, the characters of the first
run, then the runs after each seam. -/
def encodeString (first : Segment) (rest : List Segment) : List Nat :=
  [(first.chars ++ segmentsChars rest).length % 256,
   (first.chars ++ segmentsChars rest).length / 256, first.flags] ++
    first.bytes ++ encodeContinued rest

/-- The list `borders` has a seam at `start`, where the first of the runs
`segs` begins with its flags byte, none inside that run, and so on for the runs
after it. -/
def SeamsAt (borders : List Int) : Nat → List Segment → Prop
  | _, [] => True
  | start, g :: gs =>
    (start : Int) ∈ borders ∧
    (∀ q ∈ List.range' (start + 1) g.bytes.length, (q : Int) ∉ borders) ∧
    SeamsAt borders (start + 1 + g.bytes.length) gs

/-- A string as it lies in a record: the run of characters after its header and
the runs after each seam between records. -/
structure EncodedString where
  first : Segment
  rest : List Segment
  deriving DecidableEq, Repr

/-- The characters of a string. -/
def EncodedString.chars (e : EncodedString) : List Nat := e.first.chars ++ segmentsChars e.rest

/-- The bytes of a string. -/
def EncodedString.bytes (e : EncodedString) : List Nat := encodeString e.first e.rest

/-- The bytes of strings that lie back to back. -/
def encodeStrings : List EncodedString → List Nat
  | [] => []
  | e :: es => e.bytes ++ encodeStrings es

/-- The strings `es` lie back to back from `start` on and `borders` has its
seams where their runs say: each run after a seam has a character, there is no
seam inside the first run of a string, and the runs after it begin at seams. -/
def StringsAt (borders : List Int) : Nat → List EncodedString → Prop
  | _, [] => True
  | start, e :: es =>
    (∀ g ∈ e.rest, g.chars ≠ []) ∧
    (∀ q ∈ List.range' (start + 3) e.first.bytes.length, (q : Int) ∉ borders) ∧
    SeamsAt borders (start + 3 + e.first.bytes.length) e.rest ∧
    StringsAt borders (start + e.bytes.length) es

/-- The callbacks for the strings `es`, numbered from `i` on. -/
def sharedStringEvents (sstSize : Int) : Nat → List EncodedString → List Event
  | _, [] => []
  | i, e :: es => Event.onSharedString sstSize (i : Int) e.chars :: sharedStringEvents sstSize (i + 1) es

/-! ## Properties of the runs of the parser -/

/-- The state `bof` of the loop of `loadGlobals` after the record `r`. -/
def nextBOF (bof : BOF) (r : Record) : BOF :=
  if r.code = XL_BOF then (BOF.parse r).getD bof else bof

/-- No record of `records` is malformed for the loop of `loadGlobals` that
starts in the state `bof`: the handler of its code has a result on it. -/
def WellFormedGlobals : BOF → List Record → Prop
  | _, [] => True
  | bof, r :: rs =>
    (r.code = XL_BOF → (BOF.parse r).isSome) ∧
    (r.code = XL_SST → (Parser.parseSST r).isSome) ∧
    (r.code = XL_BOUNDSHEET → (Parser.parseBoundSheet r bof.version).isSome) ∧
    (r.code = XL_DATEMODE → (Parser.handleDateMode r).isSome) ∧
    WellFormedGlobals (nextBOF bof r) rs

/-- The index and the name of an `onSheet` callback; none for the other callbacks. -/
def Event.sheetCall : Event → Option (Nat × List Nat)
  | .onSheet i name => some (i, name)
  | _ => none

/-- A run of callbacks keeps the order of the sheets: read from the left, with
`current` the sheet of the last `onSheet` so far, each `onSheet` is for a
greater index than `current` and each cell callback is for the sheet `current`. -/
def sheetOrder : Option Nat → List Event → Bool
  | _, [] => true
  | current, .onSheet j _ :: es =>
    (match current with
      | none => true
      | some i => decide (i < j)) && sheetOrder (some j) es
  | current, e :: es =>
    (match e.cellSheet with
      | none => true
      | some i => decide (current = some i)) && sheetOrder current es

/-- The indices and the names of the bound sheets that are worksheets, by
increasing index. -/
def workSheets (boundSheets : List BoundSheet) : List (Nat × List Nat) :=
  (boundSheets.enum.filter (fun p => p.2.sheetType = SheetType.WorkSheet)).map
    (fun p => (p.1, p.2.sheetName))

/-- The BOUNDSHEET records among `records`, in their order, up to the first EOF
record. -/
def boundSheetRecords (records : List Record) : List Record :=
  (records.takeWhile (fun r => r.code ≠ XL_EOF)).filter (fun r => r.code = XL_BOUNDSHEET)

/-- Two streams have the same bytes left to read. -/
def Stream.SameRest (s t : Stream) : Prop :=
  s.pos ≤ s.data.length ∧ t.pos ≤ t.data.length ∧ s.data.drop s.pos = t.data.drop t.pos

/-- The bytes of a record without CONTINUE records, as §4.F lays them out:
the code and the length of the payload, 16 bits each, then the payload. -/
def Record.bytes (code : Nat) (payload : List Nat) : List Nat :=
  [code % 256, code / 256, payload.length % 256, payload.length / 256] ++ payload

/-- The bytes of records without CONTINUE records, given by code and payload,
that lie back to back. -/
def encodeRecords : List (Nat × List Nat) → List Nat
  | [] => []
  | r :: rs => Record.bytes r.1 r.2 ++ encodeRecords rs

/-- The record of code `r.1` and payload `r.2` is a FORMULA record with a string
to come. -/
def StringFormula (r : Nat × List Nat) : Prop :=
  r.1 = XL_FORMULA ∧
    ∃ f, Formula.parse ⟨r.1, r.2, []⟩ = some f ∧ f.valueType = Formula.ValueType.StringValue

end Excel

/-! ## The header of the compound file (compoundfile/header.hpp) -/

/-- The function `std::strcmp` on two `char` arrays, each read up to its first
NUL (the end of the list standing for one): zero exactly when the two C strings
are equal, else the difference of the first pair of bytes that differ. -/
def strcmp : List Nat → List Nat → Int
  | [], [] => 0
  | [], b :: _ => -(b : Int)
  | a :: _, [] => (a : Int)
  | a :: as, b :: bs =>
    if a ≠ b then (a : Int) - (b : Int)
    else if a = 0 then 0
    else strcmp as bs

/-- A `std::istream` over the bytes of a file: the bytes, the read position and
the fail bit. -/
structure IStream where
  data : List Nat
  pos : Nat
  fail : Bool
  deriving DecidableEq, Repr

namespace IStream

/-- A stream at the start of the given bytes. -/
def ofBytes (bytes : List Nat) : IStream := { data := bytes, pos := 0, fail := false }

/-- The call `stream.read( buf, n )` on a buffer of zeros: the buffer afterwards
and the stream. The bytes at hand are stored; if they are fewer than `n`, the
rest of the buffer stays zero and the fail bit is set. A failed stream reads
nothing. -/
def read (s : IStream) (n : Nat) : List Nat × IStream :=
  if s.fail then (List.replicate n 0, s)
  else
    let got := (s.data.drop s.pos).take n
    (got ++ List.replicate (n - got.length) 0,
      { s with pos := s.pos + got.length, fail := decide (got.length < n) })

/-- The call `stream.seekg( off, std::ios::cur )` with `off` not negative. -/
def seekg (s : IStream) (off : Nat) : IStream :=
  if s.fail then s else { s with pos := s.pos + off }

end IStream

namespace CompoundFile

/-- Modelled from the spec: `readData( stream, value, bytes )` of
compoundfile/utils.hpp, which is not among the sources: the little-endian value
of the next `bytes` bytes (§4.A). Where the stream has failed or holds fewer
bytes the spec fixes no result and the model has none. -/
def readData (s : IStream) (bytes : Nat) : Option (Nat × IStream) :=
  if s.fail = false ∧ s.pos + bytes ≤ s.data.length then
    some (leAt s.data s.pos bytes, { s with pos := s.pos + bytes })
  else none

/-- The enumeration `Excel::Stream::ByteOrder`. -/
inductive ByteOrder
  | LittleEndian
  | BigEndian
  deriving DecidableEq, Repr

/-- The exceptions `Header::load` throws, by their message. -/
structure Exception where
  what : String
  deriving DecidableEq, Repr

/-- The expression `1 << power` on `int`, for an `int16_t` power: defined by the
language when the result is a positive `int`, that is for `0 ≤ power ≤ 30`. -/
def shiftLeftOne (power : Int) : Option Int :=
  if 0 ≤ power ∧ power ≤ 30 then some (2 ^ power.toNat) else none

/-- The class `Header`: its data members. The two sector sizes are `none` where
the shift that computes them is not defined. -/
structure Header where
  m_byteOrder : ByteOrder
  m_sectorSize : Option Int
  m_shortSectorSize : Option Int
  m_sectorsInSAT : Int
  m_dirStreamSecID : Int
  m_streamMinSize : Int
  m_ssatFirstSecID : Int
  m_sectorsInSSAT : Int
  m_msatFirstSecID : Int
  m_sectorsInMSAT : Int
  deriving DecidableEq, Repr

/-- Compound document file identifier, with the NUL that ends the array. -/
def cIdentifier : List Nat := [0xD0, 0xCF, 0x11, 0xE0, 0xA1, 0xB1, 0x1A, 0xE1, 0x00]

/-- Byte order identifier, with the NUL that ends the array. -/
def cLittleEndian : List Nat := [0xFE, 0xFF, 0x00]

/-- The exception of a wrong file identifier. -/
def wrongFileIdentifier : Exception :=
  ⟨"Wrong file identifier. It isn\x27t a compound file."⟩

/-- The function `Header::load( std::istream & stream )`. The result is
`some (.error x)` when `x` is thrown, `some (.ok h)` when the function returns
with the members `h`, and `none` when a `readData` call has no modelled result. -/
def Header.load (stream : IStream) : Option (Except Exception Header) :=
  -- char fileID[] = { 0 x 9 }; stream.read( fileID, 8 );
  let (fileID, stream) := stream.read 8
  if strcmp cIdentifier (fileID ++ [0x00]) ≠ 0 then
    some (.error wrongFileIdentifier)
  else Option.map Except.ok (do
    let stream := stream.seekg 20
    -- char byteOrder[] = { 0 x 3 }; stream.read( byteOrder, 2 );
    let (byteOrder, stream) := stream.read 2
    let m_byteOrder :=
      if strcmp (byteOrder ++ [0x00]) cLittleEndian = 0 then ByteOrder.LittleEndian
      else ByteOrder.BigEndian
    let (sectorSizePower, stream) ← readData stream 2
    let (shortSectorSizePower, stream) ← readData stream 2
    let stream := stream.seekg 10
    let (sectorsInSAT, stream) ← readData stream 4
    let (dirStreamSecID, stream) ← readData stream 4
    let stream := stream.seekg 4
    let (streamMinSize, stream) ← readData stream 4
    let (ssatFirstSecID, stream) ← readData stream 4
    let (sectorsInSSAT, stream) ← readData stream 4
    let (msatFirstSecID, stream) ← readData stream 4
    let (sectorsInMSAT, _) ← readData stream 4
    pure {
      m_byteOrder := m_byteOrder
      m_sectorSize := shiftLeftOne (toInt16 sectorSizePower)
      m_shortSectorSize := shiftLeftOne (toInt16 shortSectorSizePower)
      m_sectorsInSAT := toInt32 sectorsInSAT
      m_dirStreamSecID := toInt32 dirStreamSecID
      m_streamMinSize := toInt32 streamMinSize
      m_ssatFirstSecID := toInt32 ssatFirstSecID
      m_sectorsInSSAT := toInt32 sectorsInSSAT
      m_msatFirstSecID := toInt32 msatFirstSecID
      m_sectorsInMSAT := toInt32 sectorsInMSAT })

end CompoundFile

/-! ## The grid of a sheet (sheet.hpp) -/

/-- The call `v.resize( n )` on a `std::vector`: the first `n` elements, filled
up to `n` with value-initialised ones. -/
def vectorResize {α : Type} (v : List α) (n : Nat) (fill : α) : List α :=
  v.take n ++ List.replicate (n - v.length) fill

/-- A change made through `v.back()` to a vector that is not empty. -/
def vectorModifyBack {α : Type} (v : List α) (f : α → α) : List α :=
  match v.getLast? with
  | none => v
  | some x => v.dropLast ++ [f x]

namespace Excel

/-- Modelled from the spec: the class `Cell` (cell.hpp), which is not among the
sources. By §6 a cell is empty or holds the string, double or formula given
to it last; `Value` stands for the three. -/
inductive Cell (Value : Type)
  | empty
  | data (value : Value)
  deriving DecidableEq, Repr

/-- Modelled from the spec: `Cell::setData( value )` of cell.hpp. -/
def Cell.setData {Value : Type} (_c : Cell Value) (value : Value) : Cell Value := Cell.data value

/-- The class `Sheet` of sheet.hpp: its data members (`m_dummyCell` never
changes and is `Cell.empty`). -/
structure Sheet (Value : Type) where
  m_cells : List (List (Cell Value))
  m_columnsCount : Nat
  m_name : String
  deriving DecidableEq, Repr

namespace Sheet

variable {Value : Type}

/-- The constructor `Sheet::Sheet( name )`. -/
def new (name : String) : Sheet Value := { m_cells := [], m_columnsCount := 0, m_name := name }

/-- The member `m_dummyCell`. -/
def m_dummyCell : Cell Value := Cell.empty

/-- The function `Sheet::initCell( size_t row, size_t column )` of sheet.hpp.
`none` stands for an access outside a vector, which the language leaves
undefined. -/
def initCell (s : Sheet Value) (row column : Nat) : Option (Sheet Value) :=
  -- if( m_cells.size() < row + 1 ) m_cells.resize( row + 1 );
  let cells :=
    if s.m_cells.length < toSizeT ((row : Int) + 1) then
      vectorResize s.m_cells (toSizeT ((row : Int) + 1)) []
    else s.m_cells
  -- if( m_cells[ row ].size() < column + 1 )
  match cells[row]? with
  | none => none
  | some r =>
    if r.length < toSizeT ((column : Int) + 1) then
      if toSizeT ((column : Int) + 1) > s.m_columnsCount then
        -- m_columnsCount = column + 1; all = true; every row is resized
        let m_columnsCount := toSizeT ((column : Int) + 1)
        some { s with
          m_cells := cells.map (fun it => vectorResize it m_columnsCount Cell.empty)
          m_columnsCount := m_columnsCount }
      else
        -- m_cells.back().resize( m_columnsCount );
        some { s with
          m_cells := vectorModifyBack cells (fun b => vectorResize b s.m_columnsCount Cell.empty) }
    else some { s with m_cells := cells }

/-- The function `Sheet::setCell( row, column, value )`. -/
def setCell (s : Sheet Value) (row column : Nat) (value : Value) : Option (Sheet Value) :=
  match s.initCell row column with
  | none => none
  | some s =>
    -- m_cells[ row ][ column ].setData( value );
    match s.m_cells[row]? with
    | none => none
    | some r =>
      match r[column]? with
      | none => none
      | some c => some { s with m_cells := s.m_cells.set row (r.set column (c.setData value)) }

/-- The function `Sheet::cell( row, column )`; `none` stands for a read outside
a vector. -/
def cell (s : Sheet Value) (row column : Nat) : Option (Cell Value) :=
  if s.m_cells.length > 0 then
    if toSizeT ((s.m_cells.length : Int) - 1) < row ∨
        toSizeT (((s.m_cells[0]?.getD []).length : Int) - 1) < column then
      some m_dummyCell
    else
      match s.m_cells[row]? with
      | none => none
      | some r => r[column]?
  else some m_dummyCell

/-- The function `Sheet::rowsCount()`. -/
def rowsCount (s : Sheet Value) : Nat := s.m_cells.length

/-- The function `Sheet::columnsCount()`. -/
def columnsCount (s : Sheet Value) : Nat := s.m_columnsCount

/-- No row of the grid is longer than `m_columnsCount`. -/
def RowsWithin (s : Sheet Value) : Prop := ∀ r ∈ s.m_cells, r.length ≤ s.m_columnsCount

/-- Calls in an order in which no call goes back above the last row of the
grid as it stands: each row is at least the number of rows minus one. -/
def FromLastRowOn : Nat → List (Nat × Nat × Value) → Prop
  | _, [] => True
  | rows, (row, _, _) :: rest => rows ≤ row + 1 ∧ FromLastRowOn (max rows (row + 1)) rest

/-- A sequence of `setCell( row, column, value )` calls, one after the other. -/
def setCells : Sheet Value → List (Nat × Nat × Value) → Option (Sheet Value)
  | s, [] => some s
  | s, (row, column, value) :: rest =>
    match s.setCell row column value with
    | none => none
    | some s => setCells s rest

/-- The object to which `Sheet::cell( row, column )` returns a reference: the
member `m_dummyCell`, or the element `m_cells[ row ][ column ]` of the grid. -/
inductive CellRef
  | dummyCell
  | gridCell (row column : Nat)
  deriving DecidableEq, Repr

/-- The function `Sheet::cell( row, column )`, as the object it refers to. -/
def cellRef (s : Sheet Value) (row column : Nat) : CellRef :=
  if s.m_cells.length > 0 then
    if toSizeT ((s.m_cells.length : Int) - 1) < row ∨
        toSizeT (((s.m_cells[0]?.getD []).length : Int) - 1) < column then
      CellRef.dummyCell
    else CellRef.gridCell row column
  else CellRef.dummyCell

/-- A sheet that `setCell` calls with `size_t` arguments make of a fresh one. -/
def Reachable (s : Sheet Value) : Prop :=
  ∃ (name : String) (calls : List (Nat × Nat × Value)),
    (∀ c ∈ calls, c.1 < 2 ^ 64 ∧ c.2.1 < 2 ^ 64) ∧ (new name).setCells calls = some s

/-- What the `setCell` calls keep of the grid: no row is longer than
`m_columnsCount`, the two counts are `size_t` values, row 0 has
`m_columnsCount` cells, and a grid with a row has a column. -/
def GridInv (s : Sheet Value) : Prop :=
  s.RowsWithin ∧ s.m_cells.length < 2 ^ 64 ∧ s.m_columnsCount < 2 ^ 64 ∧
  (∀ r0, s.m_cells[0]? = some r0 → r0.length = s.m_columnsCount) ∧
  (s.m_cells ≠ [] → 1 ≤ s.m_columnsCount) ∧ (s.m_cells = [] → s.m_columnsCount = 0)

/-- The function `Sheet::initCell( size_t row, size_t column )` of sheet.cpp,
the older one: where the row is too short every row of the grid is resized to
`m_columnsCount`. The class of sheet.cpp has the members `m_cells` and
`m_columnsCount` of the one of sheet.hpp, and no name. `none` stands for an
access outside a vector. -/
def initCellOld (s : Sheet Value) (row column : Nat) : Option (Sheet Value) :=
  -- if( m_cells.size() < row + 1 ) m_cells.resize( row + 1 );
  let cells :=
    if s.m_cells.length < toSizeT ((row : Int) + 1) then
      vectorResize s.m_cells (toSizeT ((row : Int) + 1)) []
    else s.m_cells
  -- if( m_cells[ row ].size() < column + 1 )
  match cells[row]? with
  | none => none
  | some r =>
    if r.length < toSizeT ((column : Int) + 1) then
      let m_columnsCount :=
        if toSizeT ((column : Int) + 1) > s.m_columnsCount then toSizeT ((column : Int) + 1)
        else s.m_columnsCount
      some { s with
        m_cells := cells.map (fun it => vectorResize it m_columnsCount Cell.empty)
        m_columnsCount := m_columnsCount }
    else some { s with m_cells := cells }

/-- A sequence of `initCell( row, column )` calls of sheet.hpp, one after the other. -/
def initCellSeq : Sheet Value → List (Nat × Nat) → Option (Sheet Value)
  | s, [] => some s
  | s, (row, column) :: rest =>
    match s.initCell row column with
    | none => none
    | some s => initCellSeq s rest

/-- A sequence of `initCell( row, column )` calls of sheet.cpp, one after the other. -/
def initCellOldSeq : Sheet Value → List (Nat × Nat) → Option (Sheet Value)
  | s, [] => some s
  | s, (row, column) :: rest =>
    match s.initCellOld row column with
    | none => none
    | some s => initCellOldSeq s rest

/-- The shape of the grid: the length of every row, and `m_columnsCount`. -/
def shape (s : Sheet Value) : List Nat × Nat := (s.m_cells.map List.length, s.m_columnsCount)

/-- The function `Sheet::handleLabelSST( record )` of sheet.cpp, with the shared
strings `m_sst` of the sheet. The `int16_t` coordinates and the `int32_t` index
are converted to `size_t` where they index a vector; `none` stands for a read
of the record that has no result or for an access outside a vector. -/
def handleLabelSST (m_sst : List Value) (s : Sheet Value) (record : Record) :
    Option (Sheet Value) := do
  let st := record.dataStream
  -- int16_t row, column, xfIndex; int32_t sstIndex
  let (row, st) ← st.read 2
  let (column, st) ← st.read 2
  let (_xfIndex, st) ← st.read 2
  let (sstIndex, _) ← st.read 4
  let s ← s.initCellOld (toSizeT (toInt16 row)) (toSizeT (toInt16 column))
  -- m_cells[ row ][ column ].setData( m_sst[ sstIndex ] );
  let value ← m_sst[toSizeT (toInt32 sstIndex)]?
  let r ← s.m_cells[toSizeT (toInt16 row)]?
  let c ← r[toSizeT (toInt16 column)]?
  pure { s with
    m_cells := s.m_cells.set (toSizeT (toInt16 row))
      (r.set (toSizeT (toInt16 column)) (c.setData value)) }

end Sheet

end Excel

/-! ## Sample inputs -/

/-- The first 76 bytes of a usual compound file: identifier, 16 bytes of UID,
revision and version, byte order `FE FF`, sector size powers 9 and 6, then 1 SAT
sector, directory at sector 2, streams from 4096 bytes, no SSAT, no MSAT. -/
def sampleHeader : List Nat :=
  [0xD0, 0xCF, 0x11, 0xE0, 0xA1, 0xB1, 0x1A, 0xE1,
   0, 0, 0, 0, 0, 0, 0, 0, 0, 0, 0, 0, 0, 0, 0, 0,
   0x3E, 0x00, 0x03, 0x00, 0xFE, 0xFF, 0x09, 0x00, 0x06, 0x00,
   0, 0, 0, 0, 0, 0, 0, 0, 0, 0,
   1, 0, 0, 0, 2, 0, 0, 0, 0, 0, 0, 0, 0, 0x10, 0, 0,
   0xFE, 0xFF, 0xFF, 0xFF, 0, 0, 0, 0, 0xFE, 0xFF, 0xFF, 0xFF, 0, 0, 0, 0]

/-- The same header with the byte order mark `FF FE` of a big-endian file. -/
def bigEndianHeader : List Nat := (sampleHeader.set 28 0xFF).set 29 0xFE

/-- A MULRK payload of `6 + 6 * 32768` bytes: row 0, first column 0, 32768
entries of six zero bytes, last column 32767. -/
def wideMULRK : List Nat := [0, 0, 0, 0] ++ List.replicate 196608 0 ++ [0xFF, 0x7F]

/-- The sheet after `setCell( 0, 1, 10 )` and `setCell( 2, 0, 20 )` on a fresh
one: row 1 was never resized. -/
def skippedRowSheet : Excel.Sheet Nat :=
  { m_cells := [[.empty, .data 10], [], [.data 20, .empty]]
    m_columnsCount := 2
    m_name := "Sheet1" }

/-- The record `data1` of test/formula/main.cpp: a formula in row 1, column 2
whose result is the 8 bytes `08 07 06 05 04 03 02 01`. -/
def formulaData1 : List Nat :=
  [0x06, 0x00, 0x16, 0x00, 0x01, 0x00, 0x02, 0x00, 0x00, 0x00,
   0x08, 0x07, 0x06, 0x05, 0x04, 0x03, 0x02, 0x01,
   0x00, 0x00, 0x00, 0x00, 0x00, 0x00, 0x00, 0x00]

/-- The record `data2` of test/formula/main.cpp: a formula in row 2, column 3
with the result `01 00 01 00 00 00 FF FF`, for which the test expects the
boolean `true`. -/
def formulaData2 : List Nat :=
  [0x06, 0x00, 0x16, 0x00, 0x02, 0x00, 0x03, 0x00, 0x00, 0x00,
   0x01, 0x00, 0x01, 0x00, 0x00, 0x00, 0xFF, 0xFF,
   0x00, 0x00, 0x00, 0x00, 0x00, 0x00, 0x00, 0x00]

/-- The record `data3` of test/formula/main.cpp: a formula in row 3, column 4
with the result `02 00 2A 00 00 00 FF FF`, for which the test expects the
error `NA`. -/
def formulaData3 : List Nat :=
  [0x06, 0x00, 0x16, 0x00, 0x03, 0x00, 0x04, 0x00, 0x00, 0x00,
   0x02, 0x00, 0x2A, 0x00, 0x00, 0x00, 0xFF, 0xFF,
   0x00, 0x00, 0x00, 0x00, 0x00, 0x00, 0x00, 0x00]

/-- The two records `data4` of test/formula/main.cpp: a formula in row 4,
column 5 with the result `00 00 00 00 00 00 FF FF`, then a STRING record with
the 15 characters of "this is red ink". -/
def formulaData4 : List Nat :=
  [0x06, 0x00, 0x16, 0x00, 0x04, 0x00, 0x05, 0x00, 0x00, 0x00,
   0x00, 0x00, 0x00, 0x00, 0x00, 0x00, 0xFF, 0xFF,
   0x00, 0x00, 0x00, 0x00, 0x00, 0x00, 0x00, 0x00,
   0x07, 0x02, 0x12, 0x00, 0x0F, 0x00, 0x00,
   0x74, 0x68, 0x69, 0x73, 0x20, 0x69, 0x73, 0x20, 0x72, 0x65, 0x64, 0x20, 0x69, 0x6E, 0x6B]

/-- The record `data5` of test/formula/main.cpp: as `data2`, with byte 2 of the
result 0, for which the test expects the boolean `false`. -/
def formulaData5 : List Nat :=
  [0x06, 0x00, 0x16, 0x00, 0x02, 0x00, 0x03, 0x00, 0x00, 0x00,
   0x01, 0x00, 0x00, 0x00, 0x00, 0x00, 0xFF, 0xFF,
   0x00, 0x00, 0x00, 0x00, 0x00, 0x00, 0x00, 0x00]

/-- Three records: a FORMULA record for row 0, column 5 with the result
`00 00 00 00 00 00 FF FF`, a string to come; a SHRFMLA record (`0x04BC`) for the
range of that one cell, with no tokens; the STRING record of `formulaData4`,
"this is red ink". -/
def formulaSharedThenString : List Nat :=
  [0x06, 0x00, 0x16, 0x00, 0x00, 0x00, 0x05, 0x00, 0x00, 0x00,
   0x00, 0x00, 0x00, 0x00, 0x00, 0x00, 0xFF, 0xFF,
   0x00, 0x00, 0x00, 0x00, 0x00, 0x00, 0x00, 0x00,
   0xBC, 0x04, 0x0A, 0x00, 0x00, 0x00, 0x00, 0x00, 0x05, 0x05, 0x00, 0x01, 0x00, 0x00,
   0x07, 0x02, 0x12, 0x00, 0x0F, 0x00, 0x00,
   0x74, 0x68, 0x69, 0x73, 0x20, 0x69, 0x73, 0x20, 0x72, 0x65, 0x64, 0x20, 0x69, 0x6E, 0x6B]

/-- The records of `formulaSharedThenString` with the code `0x0221` in place of
`0x04BC` on the second one, the code for which `Sheet::handleFORMULA` of
sheet.cpp reads one record more. -/
def formulaArrayThenString : List Nat :=
  [0x06, 0x00, 0x16, 0x00, 0x00, 0x00, 0x05, 0x00, 0x00, 0x00,
   0x00, 0x00, 0x00, 0x00, 0x00, 0x00, 0xFF, 0xFF,
   0x00, 0x00, 0x00, 0x00, 0x00, 0x00, 0x00, 0x00,
   0x21, 0x02, 0x0A, 0x00, 0x00, 0x00, 0x00, 0x00, 0x05, 0x05, 0x00, 0x01, 0x00, 0x00,
   0x07, 0x02, 0x12, 0x00, 0x0F, 0x00, 0x00,
   0x74, 0x68, 0x69, 0x73, 0x20, 0x69, 0x73, 0x20, 0x72, 0x65, 0x64, 0x20, 0x69, 0x6E, 0x6B]

/-- The characters of "this is red ink". -/
def thisIsRedInk : List Nat :=
  [0x74, 0x68, 0x69, 0x73, 0x20, 0x69, 0x73, 0x20, 0x72, 0x65, 0x64, 0x20, 0x69, 0x6E, 0x6B]

/-- The records `data` of test/sst/main.cpp: an SST record that says 3 strings, 3
of them unique, and holds the first 8 characters of the first, narrow; a
CONTINUE record with its other 8 characters, wide; a CONTINUE record with the
second string, narrow; a CONTINUE record with the third, wide. -/
def sstTestData : List Nat :=
  [0xFC, 0x00, 0x13, 0x00, 0x03, 0x00, 0x00, 0x00, 0x03, 0x00, 0x00, 0x00,
   0x10, 0x00, 0x00, 0x53, 0x54, 0x53, 0x54, 0x53, 0x54, 0x53, 0x54,
   0x3C, 0x00, 0x11, 0x00, 0x01,
   0x53, 0x00, 0x54, 0x00, 0x53, 0x00, 0x54, 0x00, 0x53, 0x00, 0x54, 0x00, 0x53, 0x00, 0x54, 0x00,
   0x3C, 0x00, 0x13, 0x00, 0x10, 0x00, 0x00,
   0x51, 0x52, 0x51, 0x52, 0x51, 0x52, 0x51, 0x52, 0x51, 0x52, 0x51, 0x52, 0x51, 0x52, 0x51, 0x52,
   0x3C, 0x00, 0x23, 0x00, 0x10, 0x00, 0x01,
   0x51, 0x00, 0x52, 0x00, 0x51, 0x00, 0x52, 0x00, 0x51, 0x00, 0x52, 0x00, 0x51, 0x00, 0x52, 0x00,
   0x51, 0x00, 0x52, 0x00, 0x51, 0x00, 0x52, 0x00, 0x51, 0x00, 0x52, 0x00, 0x51, 0x00, 0x52, 0x00]

/-- The characters of "STSTSTST", half of the first string of the test. -/
def stst : List Nat := [0x53, 0x54, 0x53, 0x54, 0x53, 0x54, 0x53, 0x54]

/-- The characters of "QRQRQRQRQRQRQRQR", the second and the third string of the test. -/
def qrqr : List Nat :=
  [0x51, 0x52, 0x51, 0x52, 0x51, 0x52, 0x51, 0x52, 0x51, 0x52, 0x51, 0x52, 0x51, 0x52, 0x51, 0x52]

/-- The three strings of the test as they lie in its records. -/
def sstTestStrings : List Excel.EncodedString :=
  [⟨⟨false, stst⟩, [⟨true, stst⟩]⟩, ⟨⟨false, qrqr⟩, []⟩, ⟨⟨true, qrqr⟩, []⟩]

/-- A globals stream: a BOF record of BIFF8, a FILEPASS record, an EOF record. -/
def protectedGlobals : List Nat :=
  [0x09, 0x08, 0x02, 0x00, 0x00, 0x06, 0x2F, 0x00, 0x00, 0x00, 0x0A, 0x00, 0x00, 0x00]

/-- A stream with two sheets: at byte 0 a BOF record of version `0x0500` and an
EOF record, at byte 10 a BOF record of BIFF8, a NUMBER record for row 1,
column 2 and an EOF record. -/
def oldAndNewSheet : List Nat :=
  [0x09, 0x08, 0x02, 0x00, 0x00, 0x05, 0x0A, 0x00, 0x00, 0x00,
   0x09, 0x08, 0x02, 0x00, 0x00, 0x06,
   0x03, 0x02, 0x0E, 0x00, 0x01, 0x00, 0x02, 0x00, 0x00, 0x00,
   0x00, 0x00, 0x00, 0x00, 0x00, 0x00, 0xF0, 0x3F,
   0x0A, 0x00, 0x00, 0x00]

/-- Two bound sheets over the stream `oldAndNewSheet`, both worksheets: "A" at
byte 0 and "B" at byte 10. -/
def twoWorkSheets : List Excel.BoundSheet :=
  [⟨0, Excel.SheetType.WorkSheet, [0x41]⟩, ⟨10, Excel.SheetType.WorkSheet, [0x42]⟩]

/-- A globals stream: a BOF record of BIFF8, a BOUNDSHEET record for a chart
"C" at byte 0, a BOUNDSHEET record for a worksheet "B" at byte 10, an EOF
record. -/
def boundSheetGlobals : List Nat :=
  [0x09, 0x08, 0x02, 0x00, 0x00, 0x06,
   0x85, 0x00, 0x09, 0x00, 0x00, 0x00, 0x00, 0x00, 0x00, 0x02, 0x01, 0x00, 0x43,
   0x85, 0x00, 0x09, 0x00, 0x0A, 0x00, 0x00, 0x00, 0x00, 0x00, 0x01, 0x00, 0x42,
   0x0A, 0x00, 0x00, 0x00]

/-- A LABELSST payload: row 0, column 0, format 0, `sstIndex` 3. -/
def labelSSTIndex3 : List Nat := [0x00, 0x00, 0x00, 0x00, 0x00, 0x00, 0x03, 0x00, 0x00, 0x00]

/-- A LABELSST payload: row 0, column 0, format 0, `sstIndex` -1. -/
def labelSSTIndexMinus1 : List Nat :=
  [0x00, 0x00, 0x00, 0x00, 0x00, 0x00, 0xFF, 0xFF, 0xFF, 0xFF]

/-- A sheet stream: a BOF record of BIFF8, a LABELSST record with the payload
`labelSSTIndex3`, an EOF record. -/
def sheetWithIndex3 : List Nat :=
  [0x09, 0x08, 0x02, 0x00, 0x00, 0x06, 0xFD, 0x00, 0x0A, 0x00] ++ labelSSTIndex3 ++
    [0x0A, 0x00, 0x00, 0x00]

/-- A BLANK record (`0x0201`) for row 0, column 0, format 0: a record of a
sheet for which the loop of `loadSheet` has no case. -/
def blankRecord : List Nat := [0x01, 0x02, 0x06, 0x00, 0x00, 0x00, 0x00, 0x00, 0x00, 0x00]

/-- The bytes of an EOF record. -/
def eofRecord : List Nat := [0x0A, 0x00, 0x00, 0x00]

/-- The bytes of a BOF record of BIFF8. -/
def bofRecord : List Nat := [0x09, 0x08, 0x02, 0x00, 0x00, 0x06]

/-- A sheet stream: a BOF record, the FORMULA record and the STRING record of
`formulaData4`, an EOF record. -/
def sheetFormulaString : List Nat := bofRecord ++ formulaData4 ++ eofRecord

/-- The stream `sheetFormulaString` with the BLANK record put in between the
FORMULA record and the STRING record. -/
def sheetBlankAfterFormula : List Nat :=
  bofRecord ++ formulaData4.take 26 ++ blankRecord ++ formulaData4.drop 26 ++ eofRecord

/-- The stream `sheetFormulaString` with the BLANK record put in between the BOF
record and the FORMULA record. -/
def sheetBlankBeforeFormula : List Nat := bofRecord ++ blankRecord ++ formulaData4 ++ eofRecord

/-- The stream `sheetFormulaString` with the BLANK record put in between the
STRING record and the EOF record. -/
def sheetBlankBeforeEOF : List Nat := bofRecord ++ formulaData4 ++ blankRecord ++ eofRecord

/-- The bytes of a NUMBER record for row 1, column 2 with the double 1.0. -/
def numberRecord : List Nat :=
  [0x03, 0x02, 0x0E, 0x00, 0x01, 0x00, 0x02, 0x00, 0x00, 0x00,
   0x00, 0x00, 0x00, 0x00, 0x00, 0x00, 0xF0, 0x3F]

/-- The bytes of a LABEL record (`0x0204`) for row 1, column 2, format 0, with
a string of 2 characters behind a 2-byte count and a byte of flags. -/
def labelRecord : List Nat :=
  [0x04, 0x02, 0x0B, 0x00, 0x01, 0x00, 0x02, 0x00, 0x00, 0x00, 0x02, 0x00, 0x00, 0x48, 0x69]

/-- A sheet stream: a BOF record, a LABEL record, a NUMBER record, an EOF record. -/
def sheetWithLabel : List Nat := bofRecord ++ labelRecord ++ numberRecord ++ eofRecord

/-- Three bound sheets over the stream `oldAndNewSheet`, all worksheets: "B" at
byte 10, "A" at byte 0, whose BOF record is of version `0x0500`, and "C" at
byte 10. -/
def threeWorkSheets : List Excel.BoundSheet :=
  [⟨10, Excel.SheetType.WorkSheet, [0x42]⟩, ⟨0, Excel.SheetType.WorkSheet, [0x41]⟩,
    ⟨10, Excel.SheetType.WorkSheet, [0x43]⟩]

/-! ## Lemmas on binary64 arithmetic -/

namespace F64

theorem log2Aux_spec : ∀ fuel n : Nat, n ≤ fuel → n ≠ 0 →
    2 ^ log2Aux fuel n ≤ n ∧ n < 2 ^ (log2Aux fuel n + 1) := by
  intro fuel
  induction fuel with
  | zero => intro n h h0; omega
  | succ f ih =>
    intro n h h0
    unfold log2Aux
    by_cases h2 : n < 2
    · simp only [h2, if_true]
      constructor <;> simp <;> omega
    · simp only [h2, if_false]
      have hh := ih (n / 2) (by omega) (by omega)
      obtain ⟨h3, h4⟩ := hh
      rw [pow_succ, pow_succ (n := log2Aux f (n / 2) + 1)]
      constructor <;> omega

theorem log2_spec (n : Nat) (h0 : n ≠ 0) : 2 ^ log2 n ≤ n ∧ n < 2 ^ (log2 n + 1) :=
  log2Aux_spec n n (le_refl n) h0

theorem log2_lt_of_lt_pow (n k : Nat) (h0 : n ≠ 0) (h : n < 2 ^ k) : log2 n < k := by
  by_contra hc
  have h1 := (log2_spec n h0).1
  have h2 : 2 ^ k ≤ 2 ^ log2 n := Nat.pow_le_pow_right (by norm_num) (by omega)
  omega

theorem le_log2_of_pow_le (n k : Nat) (h : 2 ^ k ≤ n) : k ≤ log2 n := by
  have h0 : n ≠ 0 := by
    have := Nat.two_pow_pos k
    omega
  by_contra hc
  have h1 := (log2_spec n h0).2
  have h2 : 2 ^ (log2 n + 1) ≤ 2 ^ k := Nat.pow_le_pow_right (by norm_num) (by omega)
  omega

theorem roundHalfEven_exact (k den : Nat) (hd : 0 < den) : roundHalfEven (k * den) den = k := by
  unfold roundHalfEven
  simp only [Nat.mul_mod_left, Nat.mul_zero]
  simp [hd, Nat.mul_div_cancel k hd]

theorem scaled_bounds (k : Nat) (h0 : k ≠ 0) (hk : k < 2 ^ 53) :
    log2 k ≤ 52 ∧ 2 ^ 52 ≤ k * 2 ^ (52 - log2 k) ∧ k * 2 ^ (52 - log2 k) < 2 ^ 53 := by
  have hl : log2 k < 53 := log2_lt_of_lt_pow k 53 h0 hk
  obtain ⟨h1, h2⟩ := log2_spec k h0
  have hp : 0 < 2 ^ (52 - log2 k) := Nat.two_pow_pos _
  have e1 : 2 ^ log2 k * 2 ^ (52 - log2 k) = 2 ^ 52 := by
    rw [← pow_add]; congr 1; omega
  have e2 : 2 ^ (log2 k + 1) * 2 ^ (52 - log2 k) = 2 ^ 53 := by
    rw [← pow_add]; congr 1; omega
  refine ⟨by omega, ?_, ?_⟩
  · calc 2 ^ 52 = 2 ^ log2 k * 2 ^ (52 - log2 k) := e1.symm
      _ ≤ k * 2 ^ (52 - log2 k) := Nat.mul_le_mul_right _ h1
  · calc k * 2 ^ (52 - log2 k) < 2 ^ (log2 k + 1) * 2 ^ (52 - log2 k) :=
          Nat.mul_lt_mul_of_pos_right h2 hp
      _ = 2 ^ 53 := e2

theorem roundPos_exact (k c : Nat) (hc : 0 < c) (h0 : k ≠ 0) (hk : k < 2 ^ 53) :
    roundPos (k * c) c = enc (log2 k) k := by
  obtain ⟨hl, hlo, hhi⟩ := scaled_bounds k h0 hk
  have hkc : k * c ≠ 0 := Nat.mul_ne_zero h0 (by omega)
  have hle : c ≤ k * c := Nat.le_mul_of_pos_left c (by omega)
  have hil : ilog2 (k * c) c = (log2 k : Int) := by
    unfold ilog2
    rw [if_pos hle, Nat.mul_div_cancel k hc]
  unfold roundPos
  rw [if_neg hkc]
  simp only [hil]
  have ht : max (log2 k : Int) (-1022) - 52 = (log2 k : Int) - 52 := by
    rw [max_eq_left (by omega)]
  rw [ht]
  have hm : (if (0 : Int) ≤ (log2 k : Int) - 52
      then roundHalfEven (k * c) (c * 2 ^ ((log2 k : Int) - 52).toNat)
      else roundHalfEven (k * c * 2 ^ (-((log2 k : Int) - 52)).toNat) c)
      = k * 2 ^ (52 - log2 k) := by
    by_cases h52 : log2 k = 52
    · rw [if_pos (by omega)]
      have : ((log2 k : Int) - 52).toNat = 0 := by omega
      rw [this, h52]
      simp only [pow_zero, Nat.mul_one, Nat.sub_self]
      exact roundHalfEven_exact k c hc
    · rw [if_neg (by omega)]
      have : (-((log2 k : Int) - 52)).toNat = 52 - log2 k := by omega
      rw [this]
      have : k * c * 2 ^ (52 - log2 k) = k * 2 ^ (52 - log2 k) * c := by ring
      rw [this]
      exact roundHalfEven_exact _ c hc
  rw [hm]
  have hn : ((log2 k : Int) - 52 + 1074).toNat = log2 k + 1022 := by omega
  rw [hn]
  unfold enc
  apply min_eq_left
  have : (log2 k + 1022) * 2 ^ 52 ≤ 1074 * 2 ^ 52 := Nat.mul_le_mul_right _ (by omega)
  omega
theorem enc_fields (e m : Nat) (he : e ≤ 52) (hlo : 2 ^ 52 ≤ m) (hhi : m < 2 ^ 53) :
    expField ((e + 1022) * 2 ^ 52 + m) = e + 1023 ∧
    frac ((e + 1022) * 2 ^ 52 + m) = m - 2 ^ 52 ∧
    sign ((e + 1022) * 2 ^ 52 + m) = 0 := by
  unfold expField frac sign
  norm_num at hlo hhi ⊢
  refine ⟨?_, ?_, ?_⟩ <;> omega

theorem enc_decode (k : Nat) (h0 : k ≠ 0) (hk : k < 2 ^ 53) :
    expField (enc (log2 k) k) = log2 k + 1023 ∧ sign (enc (log2 k) k) = 0 ∧
    sig (enc (log2 k) k) = k * 2 ^ (52 - log2 k) ∧
    exp2 (enc (log2 k) k) = (log2 k : Int) - 52 := by
  obtain ⟨hl, hlo, hhi⟩ := scaled_bounds k h0 hk
  obtain ⟨h1, h2, h3⟩ := enc_fields (log2 k) _ hl hlo hhi
  unfold sig exp2 enc
  rw [h1, h2]
  refine ⟨rfl, h3, ?_, ?_⟩
  · rw [if_neg (by omega)]; omega
  · rw [if_neg (by omega)]; push_cast; omega

theorem ofNat_eq_enc (k : Nat) (h0 : k ≠ 0) (hk : k < 2 ^ 53) : ofNat k = enc (log2 k) k := by
  have := roundPos_exact k 1 (by norm_num) h0 hk
  rwa [Nat.mul_one] at this

theorem ofNat_zero : ofNat 0 = 0 := by decide

theorem toRat_ofNat (k : Nat) (hk : k < 2 ^ 53) : toRat (ofNat k) = some (k : ℚ) := by
  by_cases h0 : k = 0
  · subst h0
    rw [ofNat_zero]
    norm_num [toRat, expField, sign, sig, frac]
  · rw [ofNat_eq_enc k h0 hk]
    obtain ⟨h1, h2, h3, h4⟩ := enc_decode k h0 hk
    obtain ⟨hl, -, -⟩ := scaled_bounds k h0 hk
    unfold toRat
    rw [h1, h2, h3, h4, if_neg (by omega)]
    congr 1
    simp only [zero_ne_one, if_false, one_mul]
    push_cast
    have h2ne : (2 : ℚ) ≠ 0 := by norm_num
    rw [mul_assoc, ← zpow_natCast, ← zpow_add₀ h2ne]
    have : ((52 - log2 k : Nat) : Int) + ((log2 k : Int) - 52) = 0 := by omega
    rw [this]
    simp

theorem ofNat_hundred : ofNat 100 = 0x4059000000000000 := by decide

theorem roundHalfEven_spec (N den : Nat) (hd : 0 < den) :
    N / den ≤ roundHalfEven N den ∧ roundHalfEven N den ≤ N / den + 1 ∧
    2 * (roundHalfEven N den * den) ≤ 2 * N + den ∧
    2 * N ≤ 2 * (roundHalfEven N den * den) + den := by
  have hN : den * (N / den) + N % den = N := Nat.div_add_mod N den
  have hr : N % den < den := Nat.mod_lt N hd
  have h1 : (N / den + 1) * den = den * (N / den) + den := by ring
  have h2 : N / den * den = den * (N / den) := by ring
  unfold roundHalfEven
  simp only
  split_ifs <;> simp only [h1, h2] <;> refine ⟨?_, ?_, ?_, ?_⟩ <;> omega

theorem ilog2_scaled (num den s : Nat) (hn : 0 < num) (hd : 0 < den)
    (he : ilog2 num den = 52 - (s : Int)) :
    2 ^ 52 * den ≤ num * 2 ^ s ∧ num * 2 ^ s < 2 ^ 53 * den := by
  unfold ilog2 at he
  by_cases hle : den ≤ num
  · rw [if_pos hle] at he
    have hq0 : num / den ≠ 0 := by
      have := (Nat.le_div_iff_mul_le hd).2 (show 1 * den ≤ num by omega)
      omega
    obtain ⟨h1, h2⟩ := log2_spec (num / den) hq0
    have h1' : 2 ^ log2 (num / den) * den ≤ num := (Nat.le_div_iff_mul_le hd).1 h1
    have h2' : num < 2 ^ (log2 (num / den) + 1) * den := (Nat.div_lt_iff_lt_mul hd).1 h2
    have e1 : 2 ^ log2 (num / den) * 2 ^ s = 2 ^ 52 := by
      rw [← pow_add]; congr 1; omega
    have e2 : 2 ^ (log2 (num / den) + 1) * 2 ^ s = 2 ^ 53 := by
      rw [← pow_add]; congr 1; omega
    have hp : 0 < 2 ^ s := Nat.two_pow_pos s
    constructor
    · calc 2 ^ 52 * den = 2 ^ log2 (num / den) * den * 2 ^ s := by rw [← e1]; ring
        _ ≤ num * 2 ^ s := Nat.mul_le_mul_right _ h1'
    · calc num * 2 ^ s < 2 ^ (log2 (num / den) + 1) * den * 2 ^ s :=
            Nat.mul_lt_mul_of_pos_right h2' hp
        _ = 2 ^ 53 * den := by rw [← e2]; ring
  · rw [if_neg hle] at he
    have hq0 : (den - 1) / num ≠ 0 := by
      have := (Nat.le_div_iff_mul_le hn).2 (show 1 * num ≤ den - 1 by omega)
      omega
    obtain ⟨h1, h2⟩ := log2_spec ((den - 1) / num) hq0
    have h1' : 2 ^ log2 ((den - 1) / num) * num ≤ den - 1 := (Nat.le_div_iff_mul_le hn).1 h1
    have h2' : den - 1 < 2 ^ (log2 ((den - 1) / num) + 1) * num := (Nat.div_lt_iff_lt_mul hn).1 h2
    have e1 : 2 ^ (log2 ((den - 1) / num) + 1) * 2 ^ 52 = 2 ^ s := by
      rw [← pow_add]; congr 1; omega
    have e2 : 2 ^ log2 ((den - 1) / num) * 2 ^ 53 = 2 ^ s := by
      rw [← pow_add]; congr 1; omega
    constructor
    · calc 2 ^ 52 * den ≤ 2 ^ 52 * (2 ^ (log2 ((den - 1) / num) + 1) * num) :=
            Nat.mul_le_mul_left _ (by omega)
        _ = num * 2 ^ s := by rw [← e1]; ring
    · calc num * 2 ^ s = 2 ^ 53 * (2 ^ log2 ((den - 1) / num) * num) := by rw [← e2]; ring
        _ ≤ 2 ^ 53 * (den - 1) := Nat.mul_le_mul_left _ h1'
        _ < 2 ^ 53 * den := Nat.mul_lt_mul_of_pos_left (by omega) (by norm_num)

theorem carry_fields (E m : Nat) (hE : E ≤ 1073) (hlo : 2 ^ 52 ≤ m) (hhi : m ≤ 2 ^ 53) :
    expField (E * 2 ^ 52 + m) ≠ 0 ∧ expField (E * 2 ^ 52 + m) ≠ 2047 ∧
    sign (E * 2 ^ 52 + m) = 0 ∧
    ((m < 2 ^ 53 ∧ expField (E * 2 ^ 52 + m) = E + 1 ∧ frac (E * 2 ^ 52 + m) = m - 2 ^ 52) ∨
     (m = 2 ^ 53 ∧ expField (E * 2 ^ 52 + m) = E + 2 ∧ frac (E * 2 ^ 52 + m) = 0)) := by
  unfold expField frac sign
  norm_num at hlo hhi ⊢
  by_cases hm : m = 9007199254740992
  · refine ⟨?_, ?_, ?_, Or.inr ⟨hm, ?_, ?_⟩⟩ <;> omega
  · refine ⟨?_, ?_, ?_, Or.inl ⟨?_, ?_, ?_⟩⟩ <;> omega

theorem toRat_carry (s m : Nat) (hs1 : 1 ≤ s) (hs2 : s ≤ 1074) (hlo : 2 ^ 52 ≤ m)
    (hhi : m ≤ 2 ^ 53) :
    toRat ((1074 - s) * 2 ^ 52 + m) = some ((m : ℚ) / 2 ^ s) := by
  obtain ⟨h0, h1, h2, h3⟩ := carry_fields (1074 - s) m (by omega) hlo hhi
  have h2ne : (2 : ℚ) ≠ 0 := by norm_num
  unfold toRat
  rw [if_neg h1, h2]
  congr 1
  simp only [zero_ne_one, if_false, one_mul]
  unfold sig exp2
  rw [if_neg h0, if_neg h0]
  rcases h3 with ⟨-, h4, h5⟩ | ⟨hm, h4, h5⟩
  · rw [h4, h5]
    have : 2 ^ 52 + (m - 2 ^ 52) = m := by omega
    rw [this]
    have : ((1074 - s + 1 : Nat) : Int) - 1075 = -(s : Int) := by omega
    rw [this, zpow_neg, zpow_natCast]
    rfl
  · rw [h4, h5, hm]
    have : ((1074 - s + 2 : Nat) : Int) - 1075 = 1 - (s : Int) := by omega
    rw [this, zpow_sub₀ h2ne, zpow_natCast]
    push_cast
    field_simp
    ring

/-- Rounding of a quotient in the normal range: the result is the pattern of
`m / 2 ^ s` for the integer `m` nearest to `num * 2 ^ s / den`. -/
theorem roundPos_normal (num den s : Nat) (hn : 0 < num) (hd : 0 < den) (hs1 : 1 ≤ s)
    (hs2 : s ≤ 1074) (he : ilog2 num den = 52 - (s : Int)) :
    ∃ m : Nat, roundPos num den = (1074 - s) * 2 ^ 52 + m ∧ 2 ^ 52 ≤ m ∧ m ≤ 2 ^ 53 ∧
      2 * (m * den) ≤ 2 * (num * 2 ^ s) + den ∧ 2 * (num * 2 ^ s) ≤ 2 * (m * den) + den := by
  obtain ⟨b1, b2⟩ := ilog2_scaled num den s hn hd he
  obtain ⟨r1, r2, r3, r4⟩ := roundHalfEven_spec (num * 2 ^ s) den hd
  have q1 : 2 ^ 52 ≤ num * 2 ^ s / den := (Nat.le_div_iff_mul_le hd).2 b1
  have q2 : num * 2 ^ s / den < 2 ^ 53 := (Nat.div_lt_iff_lt_mul hd).2 b2
  refine ⟨roundHalfEven (num * 2 ^ s) den, ?_, by omega, by omega, r3, r4⟩
  unfold roundPos
  rw [if_neg (by omega)]
  simp only [he]
  have ht : max (52 - (s : Int)) (-1022) - 52 = -(s : Int) := by
    rw [max_eq_left (by omega)]; omega
  rw [ht, if_neg (by omega)]
  have h1 : (- -(s : Int)).toNat = s := by omega
  have h2 : (-(s : Int) + 1074).toNat = 1074 - s := by omega
  rw [h1, h2]
  apply min_eq_left
  have : (1074 - s) * 2 ^ 52 ≤ 1073 * 2 ^ 52 := Nat.mul_le_mul_right _ (by omega)
  omega

/-- Rounding of a quotient in the normal range is within half a unit in the
last place: the relative error is at most `2 ^ -53`. -/
theorem roundPos_accurate (num den s : Nat) (hn : 0 < num) (hd : 0 < den) (hs1 : 1 ≤ s)
    (hs2 : s ≤ 1074) (he : ilog2 num den = 52 - (s : Int)) :
    ∃ v : ℚ, toRat (roundPos num den) = some v ∧
      |v - (num : ℚ) / den| ≤ (num : ℚ) / den / 2 ^ 53 := by
  obtain ⟨m, hm, m1, m2, r3, r4⟩ := roundPos_normal num den s hn hd hs1 hs2 he
  obtain ⟨b1, -⟩ := ilog2_scaled num den s hn hd he
  refine ⟨(m : ℚ) / 2 ^ s, ?_, ?_⟩
  · rw [hm]; exact toRat_carry s m hs1 hs2 m1 m2
  · have hden : (0 : ℚ) < den := by exact_mod_cast hd
    have h2s : (0 : ℚ) < 2 ^ s := by positivity
    have r3' : 2 * ((m : ℚ) * den) ≤ 2 * ((num : ℚ) * 2 ^ s) + den := by exact_mod_cast r3
    have r4' : 2 * ((num : ℚ) * 2 ^ s) ≤ 2 * ((m : ℚ) * den) + den := by exact_mod_cast r4
    have b1' : (2 : ℚ) ^ 52 * den ≤ (num : ℚ) * 2 ^ s := by exact_mod_cast b1
    have hpos : (0 : ℚ) < 2 ^ s * den := by positivity
    have hdiff : (m : ℚ) / 2 ^ s - (num : ℚ) / den
        = ((m : ℚ) * den - (num : ℚ) * 2 ^ s) / (2 ^ s * den) := by
      field_simp
      ring
    have hx : (num : ℚ) / den / 2 ^ 53 = ((num : ℚ) * 2 ^ s) / (2 ^ 53 * (2 ^ s * den)) := by
      field_simp
      ring
    have hA : |(m : ℚ) * den - (num : ℚ) * 2 ^ s| ≤ den / 2 :=
      abs_le.2 ⟨by linarith, by linarith⟩
    rw [hdiff, hx, abs_div, abs_of_pos hpos, div_le_div_iff₀ hpos (by positivity)]
    calc |(m : ℚ) * den - (num : ℚ) * 2 ^ s| * (2 ^ 53 * (2 ^ s * den))
        ≤ (den / 2) * (2 ^ 53 * (2 ^ s * den)) :=
          mul_le_mul_of_nonneg_right hA (by positivity)
      _ = (2 ^ 52 * den) * (2 ^ s * den) := by ring
      _ ≤ ((num : ℚ) * 2 ^ s) * (2 ^ s * den) :=
          mul_le_mul_of_nonneg_right b1' (le_of_lt hpos)

/-- The quotient of the double of `n` by 100.0 is the rounding of `n / 100`,
with numerator and denominator scaled by a common power of two. -/
theorem div_ofNat_hundred_eq (n : Nat) (h0 : n ≠ 0) (hn : n < 2 ^ 53) :
    ∃ c : Nat, 0 < c ∧ div (ofNat n) (ofNat 100) = roundPos (n * c) (100 * c) := by
  obtain ⟨h1, h2, h3, h4⟩ := enc_decode n h0 hn
  obtain ⟨hl, -, -⟩ := scaled_bounds n h0 hn
  have hexp : (log2 n + 1023 == 2047) = false := by
    rw [beq_eq_false_iff_ne]; omega
  have hnan : isNaN (enc (log2 n) n) = false := by
    unfold isNaN; rw [h1, hexp]; rfl
  have hinf : isInf (enc (log2 n) n) = false := by
    unfold isInf; rw [h1, hexp]; rfl
  have b1 : isNaN 0x4059000000000000 = false := by decide
  have b2 : isInf 0x4059000000000000 = false := by decide
  have b3 : sig 0x4059000000000000 = 100 * 2 ^ 46 := by decide
  have b4 : exp2 0x4059000000000000 = -46 := by decide
  have b5 : sign 0x4059000000000000 = 0 := by decide
  rw [ofNat_eq_enc _ h0 hn, ofNat_hundred]
  unfold div
  simp only [hnan, hinf, b1, b2, b3, b4, b5, h2, h3, h4, Bool.false_eq_true, if_false]
  rw [if_neg (by norm_num)]
  simp only [Nat.xor_self, Nat.zero_mul, Nat.zero_add]
  by_cases h6 : 6 ≤ log2 n
  · refine ⟨2 ^ 46, Nat.two_pow_pos 46, ?_⟩
    rw [if_pos (by omega)]
    have hd : ((log2 n : Int) - 52 - -46).toNat = log2 n - 6 := by omega
    have hp : 52 - log2 n + (log2 n - 6) = 46 := by omega
    rw [hd, mul_assoc, ← pow_add, hp]
  · refine ⟨2 ^ (52 - log2 n), Nat.two_pow_pos _, ?_⟩
    rw [if_neg (by omega)]
    have hd : (-((log2 n : Int) - 52 - -46)).toNat = 6 - log2 n := by omega
    have hp : 46 + (6 - log2 n) = 52 - log2 n := by omega
    rw [hd, mul_assoc, ← pow_add, hp]

theorem div_ofNat_hundred (k : Nat) (hk : 100 * k < 2 ^ 53) :
    div (ofNat (100 * k)) (ofNat 100) = ofNat k := by
  by_cases h0 : k = 0
  · subst h0; decide
  · obtain ⟨c, hc, h⟩ := div_ofNat_hundred_eq (100 * k) (by omega) hk
    have hk53 : k < 2 ^ 53 := by omega
    rw [h, ofNat_eq_enc k h0 hk53, show 100 * k * c = k * (100 * c) by ring]
    exact roundPos_exact k (100 * c) (by omega) h0 hk53

/-- The quotient of the double of `n` by 100.0 is a finite double within a
relative error of `2 ^ -53` of `n / 100`. -/
theorem div_ofNat_hundred_accurate (n : Nat) (hn : n < 2 ^ 53) :
    ∃ v : ℚ, toRat (div (ofNat n) (ofNat 100)) = some v ∧
      |v - (n : ℚ) / 100| ≤ (n : ℚ) / 100 / 2 ^ 53 := by
  by_cases h0 : n = 0
  · subst h0
    refine ⟨0, ?_, by simp⟩
    have : div (ofNat 0) (ofNat 100) = 0 := by decide
    rw [this]
    norm_num [toRat, expField, sign, sig, frac]
  · obtain ⟨c, hc, h⟩ := div_ofNat_hundred_eq n h0 hn
    have hnum : 0 < n * c := Nat.mul_pos (by omega) hc
    have hden : 0 < 100 * c := by omega
    have hrange : -7 ≤ ilog2 (n * c) (100 * c) ∧ ilog2 (n * c) (100 * c) ≤ 46 := by
      unfold ilog2
      by_cases hle : 100 * c ≤ n * c
      · rw [if_pos hle]
        have hq0 : n * c / (100 * c) ≠ 0 := by
          have := (Nat.le_div_iff_mul_le hden).2 (show 1 * (100 * c) ≤ n * c by omega)
          omega
        have hq : n * c / (100 * c) < 2 ^ 47 := by
          apply (Nat.div_lt_iff_lt_mul hden).2
          have : n * c < 2 ^ 53 * c := Nat.mul_lt_mul_of_pos_right hn hc
          calc n * c < 2 ^ 53 * c := this
            _ ≤ 2 ^ 47 * (100 * c) := by
              rw [← mul_assoc]; exact Nat.mul_le_mul_right _ (by norm_num)
        have := log2_lt_of_lt_pow _ 47 hq0 hq
        omega
      · rw [if_neg hle]
        have hq0 : (100 * c - 1) / (n * c) ≠ 0 := by
          have := (Nat.le_div_iff_mul_le hnum).2 (show 1 * (n * c) ≤ 100 * c - 1 by omega)
          omega
        have hq : (100 * c - 1) / (n * c) < 2 ^ 7 := by
          apply (Nat.div_lt_iff_lt_mul hnum).2
          have : 1 * c ≤ n * c := Nat.mul_le_mul_right _ (by omega)
          omega
        have := log2_lt_of_lt_pow _ 7 hq0 hq
        omega
    have he : ilog2 (n * c) (100 * c)
        = 52 - (((52 - ilog2 (n * c) (100 * c)).toNat : Nat) : Int) := by omega
    obtain ⟨v, hv1, hv2⟩ := roundPos_accurate (n * c) (100 * c)
      (52 - ilog2 (n * c) (100 * c)).toNat hnum hden (by omega) (by omega) he
    refine ⟨v, by rw [h]; exact hv1, ?_⟩
    have hcq : (c : ℚ) ≠ 0 := by exact_mod_cast (ne_of_gt hc)
    have hx : ((n * c : Nat) : ℚ) / ((100 * c : Nat) : ℚ) = (n : ℚ) / 100 := by
      push_cast
      field_simp
      ring
    rw [hx] at hv2
    exact hv2

end F64

/-! ## Lemmas on the header -/

theorem strcmp_cons (a b : Nat) (as bs : List Nat) :
    strcmp (a :: as) (b :: bs) = 0 ↔ a = b ∧ (a = 0 ∨ strcmp as bs = 0) := by
  rw [strcmp]
  by_cases hab : a = b
  · subst hab
    by_cases h0 : a = 0 <;> simp [h0]
  · simp only [ne_eq, hab, not_false_eq_true, if_true, false_and, iff_false]
    omega

namespace CompoundFile

theorem strcmp_cIdentifier (fileID : List Nat) (h : fileID.length = 8) :
    strcmp cIdentifier (fileID ++ [0x00]) = 0 ↔ fileID = cIdentifier.take 8 := by
  rcases fileID with
    _ | ⟨b0, _ | ⟨b1, _ | ⟨b2, _ | ⟨b3, _ | ⟨b4, _ | ⟨b5, _ | ⟨b6, _ | ⟨b7, _ | ⟨b8, t⟩⟩⟩⟩⟩⟩⟩⟩⟩ <;>
    simp at h
  simp only [cIdentifier, List.cons_append, List.nil_append, strcmp_cons, List.take]
  simp [strcmp]
  constructor
  · rintro ⟨h0, h1, h2, h3, h4, h5, h6, h7⟩; simp [*]
  · rintro ⟨h0, h1, h2, h3, h4, h5, h6, h7⟩; simp [*]


theorem map_ok_ne_error (x : Option Header) (e : Exception) :
    Option.map Except.ok x ≠ some (Except.error e) := by
  cases x <;> simp

theorem padded_eq_identifier (input : List Nat) :
    input.take 8 ++ List.replicate (8 - (input.take 8).length) 0 = cIdentifier.take 8 ↔
      input.take 8 = cIdentifier.take 8 := by
  by_cases hlen : 8 ≤ input.length
  · have : (input.take 8).length = 8 := by simp [hlen]
    simp [this]
  · have hl : (input.take 8).length < 8 := by
      simp only [List.length_take]; omega
    constructor
    · intro h
      have hmem : (0 : Nat) ∈ input.take 8 ++ List.replicate (8 - (input.take 8).length) 0 := by
        apply List.mem_append_right
        rw [List.mem_replicate]
        exact ⟨by omega, rfl⟩
      rw [h] at hmem
      exact absurd hmem (by decide)
    · intro h
      rw [h] at hl
      exact absurd hl (by decide)

theorem read_fileID (input : List Nat) :
    (IStream.ofBytes input).read 8 =
      (input.take 8 ++ List.replicate (8 - (input.take 8).length) 0,
        { data := input, pos := (input.take 8).length,
          fail := decide ((input.take 8).length < 8) }) := by
  simp [IStream.read, IStream.ofBytes]

theorem strcmp_fileID (input : List Nat) :
    strcmp cIdentifier (((IStream.ofBytes input).read 8).1 ++ [0x00]) = 0 ↔
      input.take 8 = cIdentifier.take 8 := by
  rw [read_fileID]
  have hlen : (input.take 8 ++ List.replicate (8 - (input.take 8).length) 0).length = 8 := by
    simp only [List.length_append, List.length_replicate, List.length_take]; omega
  rw [strcmp_cIdentifier _ hlen]
  exact padded_eq_identifier input

theorem load_error_iff (input : List Nat) :
    Header.load (IStream.ofBytes input) = some (.error wrongFileIdentifier) ↔
      input.take 8 ≠ [0xD0, 0xCF, 0x11, 0xE0, 0xA1, 0xB1, 0x1A, 0xE1] := by
  have hs := strcmp_fileID input
  have hmagic : cIdentifier.take 8 = [0xD0, 0xCF, 0x11, 0xE0, 0xA1, 0xB1, 0x1A, 0xE1] := by
    decide
  rw [hmagic] at hs
  unfold Header.load
  by_cases hm : input.take 8 = [0xD0, 0xCF, 0x11, 0xE0, 0xA1, 0xB1, 0x1A, 0xE1]
  · have h0 := hs.2 hm
    simp only [h0, ne_eq, not_true_eq_false, if_false, hm, iff_false]
    exact map_ok_ne_error _ _
  · have h0 : ¬ strcmp cIdentifier (((IStream.ofBytes input).read 8).1 ++ [0x00]) = 0 :=
      fun h => hm (hs.1 h)
    simp only [h0, ne_eq, not_false_eq_true, if_true, hm]

theorem readData_ok (s : IStream) (n : Nat) (hf : s.fail = false)
    (hlen : s.pos + n ≤ s.data.length) :
    readData s n = some (leAt s.data s.pos n, { s with pos := s.pos + n }) := by
  unfold readData
  rw [if_pos ⟨hf, hlen⟩]

theorem load_of_identifier (input : List Nat) (hlen : 76 ≤ input.length)
    (hm : input.take 8 = [0xD0, 0xCF, 0x11, 0xE0, 0xA1, 0xB1, 0x1A, 0xE1]) :
    Header.load (IStream.ofBytes input) = some (.ok {
      m_byteOrder :=
        if strcmp ((input.drop 28).take 2 ++ [0x00]) cLittleEndian = 0 then ByteOrder.LittleEndian
        else ByteOrder.BigEndian
      m_sectorSize := shiftLeftOne (toInt16 (leAt input 30 2))
      m_shortSectorSize := shiftLeftOne (toInt16 (leAt input 32 2))
      m_sectorsInSAT := toInt32 (leAt input 44 4)
      m_dirStreamSecID := toInt32 (leAt input 48 4)
      m_streamMinSize := toInt32 (leAt input 56 4)
      m_ssatFirstSecID := toInt32 (leAt input 60 4)
      m_sectorsInSSAT := toInt32 (leAt input 64 4)
      m_msatFirstSecID := toInt32 (leAt input 68 4)
      m_sectorsInMSAT := toInt32 (leAt input 72 4) }) := by
  have h0 : strcmp cIdentifier (((IStream.ofBytes input).read 8).1 ++ [0x00]) = 0 :=
    (strcmp_fileID input).2 (by rw [hm]; decide)
  have h8 : (input.take 8).length = 8 := by rw [hm]; rfl
  have hr8 : (IStream.ofBytes input).read 8 =
      (input.take 8, { data := input, pos := 8, fail := false }) := by
    rw [read_fileID, h8]; simp
  have hr2 : IStream.read { data := input, pos := 28, fail := false } 2 =
      ((input.drop 28).take 2, { data := input, pos := 30, fail := false }) := by
    have : ((input.drop 28).take 2).length = 2 := by
      simp only [List.length_take, List.length_drop]; omega
    simp [IStream.read, this]
  unfold Header.load
  rw [hr8] at h0 ⊢
  simp only [h0, ne_eq, not_true_eq_false, if_false, IStream.seekg, Bool.false_eq_true]
  rw [show 8 + 20 = 28 from rfl, hr2]
  simp only [Option.bind_eq_bind, Option.pure_def]
  rw [readData_ok _ 2 rfl (by simp only; omega)]
  simp only [Option.some_bind]
  rw [readData_ok _ 2 rfl (by simp only; omega)]
  simp only [Option.some_bind, Bool.false_eq_true, if_false]
  rw [readData_ok _ 4 rfl (by simp only; omega)]
  simp only [Option.some_bind]
  rw [readData_ok _ 4 rfl (by simp only; omega)]
  simp only [Option.some_bind, Bool.false_eq_true, if_false]
  rw [readData_ok _ 4 rfl (by simp only; omega)]
  simp only [Option.some_bind]
  rw [readData_ok _ 4 rfl (by simp only; omega)]
  simp only [Option.some_bind]
  rw [readData_ok _ 4 rfl (by simp only; omega)]
  simp only [Option.some_bind]
  rw [readData_ok _ 4 rfl (by simp only; omega)]
  simp only [Option.some_bind]
  rw [readData_ok _ 4 rfl (by simp only; omega)]
  simp only [Option.some_bind, Option.map_some']

theorem shiftLeftOne_small (p : Nat) (hp : p ≤ 30) :
    shiftLeftOne (toInt16 p) = some (2 ^ p) := by
  have h1 : p % 2 ^ 16 = p := Nat.mod_eq_of_lt (by norm_num; omega)
  have h2 : toInt16 p = (p : Int) := by
    unfold toInt16
    rw [h1, if_pos (by norm_num; omega)]
  rw [h2]
  unfold shiftLeftOne
  rw [if_pos (by omega)]
  simp

theorem strcmp_cLittleEndian (byteOrder : List Nat) (h : byteOrder.length = 2) :
    strcmp (byteOrder ++ [0x00]) cLittleEndian = 0 ↔ byteOrder = [0xFE, 0xFF] := by
  rcases byteOrder with _ | ⟨b0, _ | ⟨b1, _ | ⟨b2, t⟩⟩⟩ <;> simp at h
  simp only [cLittleEndian, List.cons_append, List.nil_append, strcmp_cons]
  simp [strcmp]
  intro h0 h1
  omega

theorem load_error_eq (input : List Nat) (x : Exception)
    (h : Header.load (IStream.ofBytes input) = some (.error x)) : x = wrongFileIdentifier := by
  unfold Header.load at h
  by_cases h0 : strcmp cIdentifier (((IStream.ofBytes input).read 8).1 ++ [0x00]) = 0
  · simp only [h0, ne_eq, not_true_eq_false, if_false] at h
    exact absurd h (map_ok_ne_error _ _)
  · simp only [h0, ne_eq, not_false_eq_true, if_true] at h
    injection h with h
    injection h with h
    exact h.symm

end CompoundFile

/-! ## Lemmas on the cell handlers -/

namespace Excel

theorem Stream.read_ok (data : List Nat) (pos bytes : Nat) (h : pos + bytes ≤ data.length) :
    Stream.read ⟨data, pos⟩ bytes = some (leAt data pos bytes, ⟨data, pos + bytes⟩) := by
  unfold Stream.read
  rw [if_pos h]

theorem Stream.seek_current_ok (data : List Nat) (pos off : Nat) (h : pos + off ≤ data.length) :
    Stream.seek ⟨data, pos⟩ (off : Int) .FromCurrent = some ⟨data, pos + off⟩ := by
  unfold Stream.seek
  simp only
  rw [if_pos ⟨by omega, by omega⟩]
  congr 2

theorem Stream.seek_end_ok (data : List Nat) (pos : Nat) (h : 2 ≤ data.length) :
    Stream.seek ⟨data, pos⟩ (-2) .FromEnd = some ⟨data, data.length - 2⟩ := by
  unfold Stream.seek
  simp only
  rw [if_pos ⟨by omega, by omega⟩]
  congr 2
  omega

theorem Stream.seek_beginning_ok (data : List Nat) (pos target : Nat)
    (h : target ≤ data.length) :
    Stream.seek ⟨data, pos⟩ (target : Int) .FromBeginning = some ⟨data, target⟩ := by
  unfold Stream.seek
  simp only
  rw [if_pos ⟨by omega, by omega⟩]
  congr 2

namespace Parser

/-- What `handleLabelSST` reports for a payload of 10 bytes: the two coordinates
as signed 16-bit numbers. -/
theorem handleLabelSST_eq (code : Nat) (data : List Nat) (borders : List Int) (sheetIdx : Nat)
    (hlen : data.length = 10) :
    handleLabelSST ⟨code, data, borders⟩ sheetIdx =
      some [Event.onCellSharedString sheetIdx (toInt16 (leAt data 0 2))
        (toInt16 (leAt data 2 2)) (toInt32 (leAt data 6 4))] := by
  unfold handleLabelSST Record.dataStream
  simp only [Option.bind_eq_bind, Option.pure_def]
  rw [Stream.read_ok data 0 2 (by omega)]
  simp only [Option.some_bind]
  rw [Stream.read_ok data (0 + 2) 2 (by omega)]
  simp only [Option.some_bind]
  rw [Stream.read_ok data (0 + 2 + 2) 2 (by omega)]
  simp only [Option.some_bind]
  rw [Stream.read_ok data (0 + 2 + 2 + 2) 4 (by omega)]
  simp only [Option.some_bind]

theorem toInt16_small (v : Nat) (h : v < 2 ^ 15) : toInt16 v = (v : Int) := by
  unfold toInt16
  have : v % 2 ^ 16 = v := Nat.mod_eq_of_lt (by omega)
  rw [this, if_pos h]

theorem narrowInt16_small (x : Int) (h0 : 0 ≤ x) (h : x < 2 ^ 15) : narrowInt16 x = x := by
  unfold narrowInt16
  omega

theorem handleMULRKLoop_eq (sheetIdx : Nat) (row colFirst : Int) (data : List Nat) :
    ∀ (k : Nat) (i : Int) (pos : Nat), pos + 6 * k ≤ data.length →
      handleMULRKLoop sheetIdx row colFirst k i ⟨data, pos⟩ =
        some ((List.range k).map fun (j : Nat) =>
          Event.onCellDouble sheetIdx row (colFirst + i + (j : Int))
            (doubleFromRK (leAt data (pos + 6 * j + 2) 4 % 2 ^ 32))) := by
  intro k
  induction k with
  | zero => intro i pos _; rfl
  | succ k ih =>
    intro i pos h
    unfold handleMULRKLoop
    simp only [Option.bind_eq_bind, Option.pure_def]
    have hs := Stream.seek_current_ok data pos 2 (by omega)
    simp only [Nat.cast_ofNat] at hs
    rw [hs]
    simp only [Option.some_bind]
    rw [Stream.read_ok data (pos + 2) 4 (by omega)]
    simp only [Option.some_bind]
    rw [ih (i + 1) (pos + 2 + 4) (by omega)]
    simp only [Option.some_bind, List.range_succ_eq_map, List.map_cons, List.map_map]
    congr 2
    · simp
    · apply List.map_congr_left
      intro j _
      simp only [Function.comp_apply, Nat.succ_eq_add_one]
      have e : pos + 2 + 4 + 6 * j + 2 = pos + 6 * (j + 1) + 2 := by omega
      rw [e]
      congr 1
      push_cast; ring

/-- Where the three 16-bit fields of a MULRK payload are below 32768 and the
count is at most 32767, `handleMULRK` reports the cells the record holds. -/
theorem handleMULRK_eq (code : Nat) (data : List Nat) (borders : List Int) (sheetIdx n : Nat)
    (hn : 1 ≤ n) (hn2 : n ≤ 32767) (hlen : data.length = 6 + 6 * n)
    (hrow : leAt data 0 2 < 2 ^ 15) (hlast : leAt data (4 + 6 * n) 2 < 2 ^ 15)
    (hcols : leAt data (4 + 6 * n) 2 + 1 = leAt data 2 2 + n) :
    handleMULRK ⟨code, data, borders⟩ sheetIdx =
      some ((List.range n).map fun (i : Nat) =>
        Event.onCellDouble sheetIdx (leAt data 0 2) ((leAt data 2 2 : Nat) + (i : Int))
          (doubleFromRK (leAt data (4 + 6 * i + 2) 4 % 2 ^ 32))) := by
  unfold handleMULRK Record.dataStream
  simp only [Option.bind_eq_bind, Option.pure_def]
  rw [Stream.read_ok data 0 2 (by omega)]
  simp only [Option.some_bind]
  rw [Stream.read_ok data (0 + 2) 2 (by omega)]
  simp only [Option.some_bind]
  rw [Stream.seek_end_ok data _ (by omega)]
  simp only [Option.some_bind]
  rw [Stream.read_ok data (data.length - 2) 2 (by omega)]
  simp only [Option.some_bind]
  rw [Stream.seek_beginning_ok data _ (0 + 2 + 2) (by omega)]
  simp only [Option.some_bind]
  have e1 : data.length - 2 = 4 + 6 * n := by omega
  rw [e1]
  have hfirst : leAt data 2 2 < 2 ^ 15 := by omega
  rw [toInt16_small _ hrow, toInt16_small _ hlast, toInt16_small _ hfirst,
    show (0 + 2 : Nat) = 2 from rfl]
  have hcount : narrowInt16 ((leAt data (4 + 6 * n) 2 : Int) - (leAt data 2 2 : Int) + 1)
      = (n : Int) := by
    have : (leAt data (4 + 6 * n) 2 : Int) - (leAt data 2 2 : Int) + 1 = (n : Int) := by omega
    rw [this]
    exact narrowInt16_small _ (by omega) (by omega)
  rw [hcount, Int.toNat_ofNat, handleMULRKLoop_eq sheetIdx _ _ data n 0 (2 + 2) (by omega)]
  congr 1

/-- With first column 0 and last column 32767 the count `colLast - colFirst + 1`
does not fit `int16_t rkCount`: the loop does not run. -/
theorem handleMULRK_count_overflow (code : Nat) (data : List Nat) (borders : List Int)
    (sheetIdx : Nat) (hlen : data.length = 196614) (hfirst : leAt data 2 2 = 0)
    (hlast : leAt data 196612 2 = 32767) :
    handleMULRK ⟨code, data, borders⟩ sheetIdx = some [] := by
  unfold handleMULRK Record.dataStream
  simp only [Option.bind_eq_bind, Option.pure_def]
  rw [Stream.read_ok data 0 2 (by omega)]
  simp only [Option.some_bind]
  rw [Stream.read_ok data (0 + 2) 2 (by omega)]
  simp only [Option.some_bind]
  rw [Stream.seek_end_ok data _ (by omega)]
  simp only [Option.some_bind]
  rw [Stream.read_ok data (data.length - 2) 2 (by omega)]
  simp only [Option.some_bind]
  rw [Stream.seek_beginning_ok data _ (0 + 2 + 2) (by omega)]
  simp only [Option.some_bind]
  have e1 : data.length - 2 = 196612 := by omega
  rw [e1, hlast, show (0 + 2 : Nat) = 2 from rfl, hfirst]
  have hc : (narrowInt16 (toInt16 32767 - toInt16 0 + 1)).toNat = 0 := by decide
  rw [hc]
  rfl

end Parser

end Excel

theorem wideMULRK_prefix_length :
    ([0, 0, 0, 0] ++ List.replicate 196608 0 : List Nat).length = 196612 := by
  rw [List.length_append, List.length_replicate]
  rfl

theorem wideMULRK_fields :
    wideMULRK.length = 6 + 6 * 32768 ∧ leAt wideMULRK 2 2 = 0 ∧
    leAt wideMULRK 196612 2 = 32767 := by
  refine ⟨?_, by decide, ?_⟩
  · unfold wideMULRK
    rw [List.length_append, wideMULRK_prefix_length]
    rfl
  · unfold leAt wideMULRK
    rw [List.drop_left' wideMULRK_prefix_length]
    decide

/-! ## Lemmas on the grid of a sheet -/

theorem length_vectorResize {α : Type} (v : List α) (n : Nat) (fill : α) :
    (vectorResize v n fill).length = n := by
  unfold vectorResize
  simp only [List.length_append, List.length_take, List.length_replicate]
  omega

theorem mem_vectorResize {α : Type} (v : List α) (n : Nat) (fill x : α)
    (h : x ∈ vectorResize v n fill) : x ∈ v ∨ x = fill := by
  unfold vectorResize at h
  rcases List.mem_append.1 h with h | h
  · exact Or.inl (List.mem_of_mem_take h)
  · exact Or.inr (List.eq_of_mem_replicate h)

theorem length_vectorModifyBack {α : Type} (v : List α) (f : α → α) :
    (vectorModifyBack v f).length = v.length := by
  unfold vectorModifyBack
  cases hl : v.getLast? with
  | none => rfl
  | some x =>
    have hne : v ≠ [] := by
      intro h; rw [h] at hl; simp at hl
    simp only [List.length_append, List.length_dropLast, List.length_singleton]
    have := List.length_pos.2 hne
    omega

theorem mem_vectorModifyBack {α : Type} (v : List α) (f : α → α) (x : α)
    (h : x ∈ vectorModifyBack v f) : x ∈ v ∨ ∃ y ∈ v, x = f y := by
  unfold vectorModifyBack at h
  cases hl : v.getLast? with
  | none => rw [hl] at h; exact Or.inl h
  | some y =>
    rw [hl] at h
    simp only [List.mem_append, List.mem_singleton] at h
    rcases h with h | h
    · exact Or.inl (List.mem_of_mem_dropLast h)
    · exact Or.inr ⟨y, List.mem_of_getLast?_eq_some hl, h⟩

theorem toSizeT_succ (x : Nat) (h : x + 1 < 2 ^ 64) : toSizeT ((x : Int) + 1) = x + 1 := by
  unfold toSizeT
  omega

namespace Excel

namespace Sheet

variable {Value : Type}

theorem initCell_extents (s s1 : Sheet Value) (row column : Nat) (hrow : row + 1 < 2 ^ 64)
    (hcol : column + 1 < 2 ^ 64) (hinv : s.RowsWithin) (h : s.initCell row column = some s1) :
    s1.m_cells.length = max s.m_cells.length (row + 1) ∧
    s1.m_columnsCount = max s.m_columnsCount (column + 1) ∧ s1.RowsWithin := by
  unfold initCell at h
  simp only [toSizeT_succ row hrow, toSizeT_succ column hcol] at h
  -- the rows after the first resize
  have hlen : (if s.m_cells.length < row + 1 then vectorResize s.m_cells (row + 1) []
      else s.m_cells).length = max s.m_cells.length (row + 1) := by
    split_ifs with hc
    · rw [length_vectorResize]; omega
    · omega
  have hmem : ∀ r ∈ (if s.m_cells.length < row + 1 then vectorResize s.m_cells (row + 1) []
      else s.m_cells), r.length ≤ s.m_columnsCount := by
    intro r hr
    split_ifs at hr with hc
    · rcases mem_vectorResize _ _ _ _ hr with hr | hr
      · exact hinv r hr
      · rw [hr]; exact Nat.zero_le _
    · exact hinv r hr
  generalize (if s.m_cells.length < row + 1 then vectorResize s.m_cells (row + 1) []
      else s.m_cells) = cells at h hlen hmem
  cases hr : cells[row]? with
  | none => rw [hr] at h; exact absurd h (by simp)
  | some r =>
    rw [hr] at h
    have hrmem : r ∈ cells := List.getElem?_mem hr
    have hrle := hmem r hrmem
    simp only at h
    split_ifs at h with h1 h2
    · injection h with h
      subst h
      refine ⟨by simp only [List.length_map]; exact hlen, by simp only; omega, ?_⟩
      intro x hx
      simp only [List.mem_map] at hx
      obtain ⟨y, -, hy⟩ := hx
      rw [← hy, length_vectorResize]
    · injection h with h
      subst h
      refine ⟨by simp only [length_vectorModifyBack]; exact hlen, by simp only; omega, ?_⟩
      intro x hx
      rcases mem_vectorModifyBack _ _ _ hx with hx | ⟨y, -, hy⟩
      · exact hmem x hx
      · rw [hy, length_vectorResize]
    · injection h with h
      subst h
      exact ⟨hlen, by simp only; omega, hmem⟩

theorem setCell_extents (s s2 : Sheet Value) (row column : Nat) (value : Value)
    (hrow : row + 1 < 2 ^ 64) (hcol : column + 1 < 2 ^ 64) (hinv : s.RowsWithin)
    (h : s.setCell row column value = some s2) :
    s2.m_cells.length = max s.m_cells.length (row + 1) ∧
    s2.m_columnsCount = max s.m_columnsCount (column + 1) ∧ s2.RowsWithin := by
  unfold setCell at h
  cases h1 : s.initCell row column with
  | none => rw [h1] at h; exact absurd h (by simp)
  | some s1 =>
    rw [h1] at h
    obtain ⟨e1, e2, e3⟩ := initCell_extents s s1 row column hrow hcol hinv h1
    simp only at h
    cases h2 : s1.m_cells[row]? with
    | none => rw [h2] at h; exact absurd h (by simp)
    | some r =>
      rw [h2] at h
      simp only at h
      cases h3 : r[column]? with
      | none => rw [h3] at h; exact absurd h (by simp)
      | some c =>
        rw [h3] at h
        injection h with h
        subst h
        refine ⟨by simp only [List.length_set]; exact e1, e2, ?_⟩
        intro x hx
        simp only at hx
        rcases List.mem_or_eq_of_mem_set hx with hx | hx
        · exact e3 x hx
        · rw [hx, List.length_set]
          exact e3 r (List.getElem?_mem h2)

theorem new_extents (name : String) :
    (new name : Sheet Value).rowsCount = 0 ∧ (new name : Sheet Value).columnsCount = 0 ∧
    (new name : Sheet Value).RowsWithin := by
  refine ⟨rfl, rfl, ?_⟩
  intro r hr
  simp [new] at hr

/-- Extents after a run of `setCell` calls that stays inside its vectors: the
row count is the largest `row + 1`, the column count the largest `column + 1`. -/
theorem setCells_extents (calls : List (Nat × Nat × Value)) :
    ∀ (s s2 : Sheet Value), s.RowsWithin →
      (∀ c ∈ calls, c.1 + 1 < 2 ^ 64 ∧ c.2.1 + 1 < 2 ^ 64) →
      s.setCells calls = some s2 →
      s2.rowsCount = calls.foldl (fun acc c => max acc (c.1 + 1)) s.rowsCount ∧
      s2.columnsCount = calls.foldl (fun acc c => max acc (c.2.1 + 1)) s.columnsCount ∧
      s2.RowsWithin := by
  induction calls with
  | nil =>
    intro s s2 hinv _ h
    simp only [setCells] at h
    injection h with h
    subst h
    exact ⟨rfl, rfl, hinv⟩
  | cons c rest ih =>
    intro s s2 hinv hb h
    obtain ⟨row, column, value⟩ := c
    simp only [setCells] at h
    cases h1 : s.setCell row column value with
    | none => rw [h1] at h; exact absurd h (by simp)
    | some s1 =>
      rw [h1] at h
      have hb0 := hb (row, column, value) (List.mem_cons_self _ _)
      obtain ⟨e1, e2, e3⟩ := setCell_extents s s1 row column value hb0.1 hb0.2 hinv h1
      have := ih s1 s2 e3 (fun c hc => hb c (List.mem_cons_of_mem _ hc)) h
      simp only [List.foldl_cons]
      unfold rowsCount columnsCount at this ⊢
      rw [← e1, ← e2]
      exact this

theorem getElem?_vectorModifyBack {α : Type} (v : List α) (f : α → α) (x : α)
    (h : v[v.length - 1]? = some x) :
    (vectorModifyBack v f)[v.length - 1]? = some (f x) := by
  have hne : v ≠ [] := by
    intro h0; rw [h0] at h; simp at h
  have hl : v.getLast? = some x := by
    rw [List.getLast?_eq_getElem?]; exact h
  unfold vectorModifyBack
  rw [hl]
  simp only
  rw [List.getElem?_append_right (by simp)]
  simp

/-- A `setCell` on the last row of the grid, or below it, stays inside the
vectors. -/
theorem setCell_succeeds (s : Sheet Value) (row column : Nat) (value : Value)
    (hrow : row + 1 < 2 ^ 64) (hcol : column + 1 < 2 ^ 64)
    (hlast : s.m_cells.length ≤ row + 1) :
    ∃ s2, s.setCell row column value = some s2 := by
  have key : ∃ s1 r, s.initCell row column = some s1 ∧ s1.m_cells[row]? = some r ∧
      column < r.length := by
    unfold initCell
    simp only [toSizeT_succ row hrow, toSizeT_succ column hcol]
    have hlen : (if s.m_cells.length < row + 1 then vectorResize s.m_cells (row + 1) []
        else s.m_cells).length = row + 1 := by
      split_ifs with hc
      · rw [length_vectorResize]
      · omega
    generalize (if s.m_cells.length < row + 1 then vectorResize s.m_cells (row + 1) []
        else s.m_cells) = cells at hlen
    have hr : ∃ r, cells[row]? = some r := by
      have : row < cells.length := by omega
      exact ⟨cells[row], List.getElem?_eq_getElem this⟩
    obtain ⟨r, hr⟩ := hr
    rw [hr]
    simp only
    split_ifs with h1 h2
    · refine ⟨_, vectorResize r (column + 1) Cell.empty, rfl, ?_, ?_⟩
      · simp only [List.getElem?_map, hr, Option.map_some']
      · rw [length_vectorResize]; omega
    · refine ⟨_, vectorResize r s.m_columnsCount Cell.empty, rfl, ?_, ?_⟩
      · have hidx : row = cells.length - 1 := by omega
        simp only
        rw [hidx] at hr ⊢
        exact getElem?_vectorModifyBack cells _ r hr
      · rw [length_vectorResize]; omega
    · exact ⟨_, r, rfl, hr, by omega⟩
  obtain ⟨s1, r, h1, h2, h3⟩ := key
  unfold setCell
  rw [h1]
  simp only
  rw [h2]
  simp only
  rw [List.getElem?_eq_getElem h3]
  exact ⟨_, rfl⟩

/-- A run of `setCell` calls that never goes back above the last row stays
inside the vectors, and ends with the extents the calls ask for. -/
theorem setCells_fromLastRowOn (calls : List (Nat × Nat × Value)) :
    ∀ (s : Sheet Value), s.RowsWithin →
      (∀ c ∈ calls, c.1 + 1 < 2 ^ 64 ∧ c.2.1 + 1 < 2 ^ 64) →
      FromLastRowOn s.m_cells.length calls →
      ∃ s2, s.setCells calls = some s2 ∧
        s2.rowsCount = calls.foldl (fun acc c => max acc (c.1 + 1)) s.rowsCount ∧
        s2.columnsCount = calls.foldl (fun acc c => max acc (c.2.1 + 1)) s.columnsCount := by
  induction calls with
  | nil =>
    intro s _ _ _
    exact ⟨s, rfl, rfl, rfl⟩
  | cons c rest ih =>
    intro s hinv hb hord
    obtain ⟨row, column, value⟩ := c
    obtain ⟨ho1, ho2⟩ := hord
    have hb0 := hb (row, column, value) (List.mem_cons_self _ _)
    obtain ⟨s1, h1⟩ := setCell_succeeds s row column value hb0.1 hb0.2 ho1
    obtain ⟨e1, e2, e3⟩ := setCell_extents s s1 row column value hb0.1 hb0.2 hinv h1
    rw [← e1] at ho2
    obtain ⟨s2, h2, h3, h4⟩ := ih s1 e3 (fun c hc => hb c (List.mem_cons_of_mem _ hc)) ho2
    refine ⟨s2, ?_, ?_, ?_⟩
    · simp only [setCells, h1]
      exact h2
    · simp only [List.foldl_cons]
      unfold rowsCount at h3 ⊢
      rw [← e1]; exact h3
    · simp only [List.foldl_cons]
      unfold columnsCount at h4 ⊢
      rw [← e2]; exact h4

end Sheet

end Excel

/-! ## Lemmas on formulas -/

theorem leValue_append (xs ys : List Nat) :
    leValue (xs ++ ys) = leValue xs + 256 ^ xs.length * leValue ys := by
  induction xs with
  | nil => simp [leValue]
  | cons x xs ih =>
    rw [List.cons_append]
    simp only [leValue, List.length_cons, pow_succ]
    rw [ih]
    ring

theorem leValue_lt (xs : List Nat) (h : ∀ b ∈ xs, b < 256) : leValue xs < 256 ^ xs.length := by
  induction xs with
  | nil => simp [leValue]
  | cons x xs ih =>
    have hx : x < 256 := h x (List.mem_cons_self _ _)
    have hxs := ih (fun b hb => h b (List.mem_cons_of_mem _ hb))
    simp only [leValue, List.length_cons, pow_succ]
    nlinarith

theorem leAt_add (data : List Nat) (off m n : Nat) (h : off + m ≤ data.length) :
    leAt data off (m + n) = leAt data off m + 256 ^ m * leAt data (off + m) n := by
  unfold leAt
  rw [List.take_add, leValue_append, List.drop_drop]
  have hl : ((data.drop off).take m).length = m := by
    rw [List.length_take, List.length_drop]
    omega
  rw [hl]

theorem leAt_lt (data : List Nat) (off n : Nat) (h : ∀ b ∈ data, b < 256) :
    leAt data off n < 256 ^ n := by
  unfold leAt
  have h1 := leValue_lt ((data.drop off).take n)
    (fun b hb => h b (List.mem_of_mem_drop (List.mem_of_mem_take hb)))
  have h2 : ((data.drop off).take n).length ≤ n := List.length_take_le _ _
  exact lt_of_lt_of_le h1 (Nat.pow_le_pow_right (by decide) h2)

theorem leAt_one (data : List Nat) (off b : Nat) (h : data[off]? = some b) :
    leAt data off 1 = b := by
  unfold leAt
  have hlt : off < data.length := by
    by_contra hc
    rw [List.getElem?_eq_none (by omega)] at h
    exact absurd h (by simp)
  rw [List.drop_eq_getElem_cons hlt]
  rw [List.getElem?_eq_getElem hlt] at h
  simp only [List.take_succ_cons, List.take_zero, leValue]
  injection h with h

namespace Excel

/-- The formula a payload of at least 14 bytes makes, from the 8 bytes of the
result read as one number. -/
theorem Formula.parse_eq (r : Record) (hlen : 14 ≤ r.data.length) :
    Formula.parse r = some
      (if leAt r.data 6 8 / 2 ^ 48 % 2 ^ 16 = 0xFFFF then
        if leAt r.data 6 8 % 2 ^ 8 = 0 then
          { m_row := leAt r.data 0 2, m_column := leAt r.data 2 2,
            m_valueType := Formula.ValueType.StringValue, m_doubleValue := 0,
            m_boolValue := false, m_errorValue := 0, m_stringValue := [] }
        else if leAt r.data 6 8 % 2 ^ 8 = 1 then
          { m_row := leAt r.data 0 2, m_column := leAt r.data 2 2,
            m_valueType := Formula.ValueType.BooleanValue, m_doubleValue := 0,
            m_boolValue := leAt r.data 6 8 / 2 ^ 16 % 2 ^ 8 != 0, m_errorValue := 0,
            m_stringValue := [] }
        else if leAt r.data 6 8 % 2 ^ 8 = 2 then
          { m_row := leAt r.data 0 2, m_column := leAt r.data 2 2,
            m_valueType := Formula.ValueType.ErrorValue, m_doubleValue := 0,
            m_boolValue := false, m_errorValue := leAt r.data 6 8 / 2 ^ 16 % 2 ^ 8,
            m_stringValue := [] }
        else
          { m_row := leAt r.data 0 2, m_column := leAt r.data 2 2,
            m_valueType := Formula.ValueType.UnknownValue, m_doubleValue := 0,
            m_boolValue := false, m_errorValue := 0, m_stringValue := [] }
      else
        { m_row := leAt r.data 0 2, m_column := leAt r.data 2 2,
          m_valueType := Formula.ValueType.DoubleValue, m_doubleValue := leAt r.data 6 8,
          m_boolValue := false, m_errorValue := 0, m_stringValue := [] }) := by
  unfold Formula.parse Record.dataStream
  simp only [Option.bind_eq_bind, Option.pure_def]
  rw [Stream.read_ok r.data 0 2 (by omega)]
  simp only [Option.some_bind]
  rw [Stream.read_ok r.data (0 + 2) 2 (by omega)]
  simp only [Option.some_bind]
  rw [Stream.read_ok r.data (0 + 2 + 2) 2 (by omega)]
  simp only [Option.some_bind]
  rw [Stream.read_ok r.data (0 + 2 + 2 + 2) 8 (by omega)]
  simp only [Option.some_bind]
  split_ifs <;> rfl

/-- The bytes of the result of a formula, in the number the 8 of them make. -/
theorem Formula.result_bytes (data : List Nat) (hlen : 14 ≤ data.length)
    (hbytes : ∀ b ∈ data, b < 256) :
    leAt data 6 8 % 2 ^ 8 = leAt data 6 1 ∧
    leAt data 6 8 / 2 ^ 16 % 2 ^ 8 = leAt data 8 1 ∧
    leAt data 6 8 / 2 ^ 48 % 2 ^ 16 = leAt data 12 1 + 256 * leAt data 13 1 := by
  have e0 := leAt_add data 6 1 7 (by omega)
  have e1 := leAt_add data 7 1 6 (by omega)
  have e2 := leAt_add data 8 1 5 (by omega)
  have e3 := leAt_add data 9 1 4 (by omega)
  have e4 := leAt_add data 10 1 3 (by omega)
  have e5 := leAt_add data 11 1 2 (by omega)
  have e6 := leAt_add data 12 1 1 (by omega)
  have b0 := leAt_lt data 6 1 hbytes
  have b1 := leAt_lt data 7 1 hbytes
  have b2 := leAt_lt data 8 1 hbytes
  have b3 := leAt_lt data 9 1 hbytes
  have b4 := leAt_lt data 10 1 hbytes
  have b5 := leAt_lt data 11 1 hbytes
  have b6 := leAt_lt data 12 1 hbytes
  have b7 := leAt_lt data 13 1 hbytes
  norm_num at e0 e1 e2 e3 e4 e5 e6 b0 b1 b2 b3 b4 b5 b6 b7
  norm_num
  omega

end Excel

/-! ## Lemmas on strings -/

namespace Excel

theorem loadChars_step (borders : List Int) (n : Nat) (wide : Bool) (data : List Nat)
    (pos : Nat) (c : Nat) (hb : (pos : Int) ∉ borders)
    (hlen : pos + (if wide then 2 else 1) ≤ data.length)
    (hc : leAt data pos (if wide then 2 else 1) = c) :
    loadChars borders (n + 1) wide ⟨data, pos⟩ =
      (loadChars borders n wide ⟨data, pos + (if wide then 2 else 1)⟩).map
        (fun r => (c :: r.1, r.2)) := by
  rw [loadChars]
  simp only [hb, if_false]
  rw [Stream.read_ok data pos _ hlen, hc]
  simp only
  cases loadChars borders n wide ⟨data, pos + (if wide then 2 else 1)⟩ <;> rfl

theorem loadChars_seam (borders : List Int) (n : Nat) (wide wide1 : Bool) (data : List Nat)
    (pos : Nat) (c : Nat) (hb : (pos : Int) ∈ borders)
    (hlen : pos + 1 + (if wide1 then 2 else 1) ≤ data.length)
    (hflag : isHighByte (leAt data pos 1) = wide1)
    (hc : leAt data (pos + 1) (if wide1 then 2 else 1) = c) :
    loadChars borders (n + 1) wide ⟨data, pos⟩ =
      (loadChars borders n wide1 ⟨data, pos + 1 + (if wide1 then 2 else 1)⟩).map
        (fun r => (c :: r.1, r.2)) := by
  rw [loadChars]
  simp only [hb, if_true]
  rw [Stream.read_ok data pos 1 (by omega)]
  simp only [Option.map_some', hflag]
  rw [Stream.read_ok data (pos + 1) _ hlen, hc]
  simp only
  cases loadChars borders n wide1 ⟨data, pos + 1 + (if wide1 then 2 else 1)⟩ <;> rfl

theorem leAt_append_mid (pre xs post : List Nat) :
    leAt (pre ++ xs ++ post) pre.length xs.length = leValue xs := by
  unfold leAt
  rw [List.append_assoc, List.drop_left, List.take_left]

theorem loadChars_zero_add_map (x : Option (List Nat × Stream)) :
    x.map (fun r => (([] : List Nat) ++ r.1, r.2)) = x := by
  cases x <;> rfl

theorem loadChars_run (borders : List Int) (wide : Bool) :
    ∀ (chars pre post : List Nat) (n : Nat),
      (∀ q ∈ List.range' pre.length (charBytes wide chars).length, (q : Int) ∉ borders) →
      loadChars borders (chars.length + n) wide
          ⟨pre ++ charBytes wide chars ++ post, pre.length⟩ =
        (loadChars borders n wide
          ⟨pre ++ charBytes wide chars ++ post,
            pre.length + (charBytes wide chars).length⟩).map
          (fun r => (chars ++ r.1, r.2)) := by
  intro chars
  induction chars with
  | nil =>
    intro pre post n _
    have h0 : charBytes wide [] = [] := by cases wide <;> rfl
    rw [h0, List.length_nil, Nat.zero_add, Nat.add_zero, loadChars_zero_add_map]
  | cons c cs ih =>
    intro pre post n hb
    cases wide with
    | false =>
      have hB : charBytes false (c :: cs) = [c] ++ charBytes false cs := rfl
      rw [hB] at hb ⊢
      have hlenB : ([c] ++ charBytes false cs).length = 1 + (charBytes false cs).length := by
        rw [List.length_append]; rfl
      rw [hlenB] at hb
      have hdata : pre ++ ([c] ++ charBytes false cs) ++ post =
          (pre ++ [c]) ++ charBytes false cs ++ post := by
        simp only [List.append_assoc]
      have hpl : (pre ++ [c]).length = pre.length + 1 := by
        rw [List.length_append]; rfl
      have hstep := loadChars_step borders (cs.length + n) false
        (pre ++ ([c] ++ charBytes false cs) ++ post) pre.length c
        (hb pre.length (by rw [List.mem_range']; exact ⟨0, by omega, by omega⟩))
        (by simp only [List.length_append, List.length_singleton, Bool.false_eq_true, if_false]
            omega)
        (by
          have := leAt_append_mid pre [c] (charBytes false cs ++ post)
          simp only [List.length_singleton, List.append_assoc] at this
          simp only [Bool.false_eq_true, if_false, List.append_assoc]
          rw [this]
          simp [leValue])
      have hcount : (c :: cs).length + n = cs.length + n + 1 := by
        rw [List.length_cons]; omega
      rw [hcount, hstep]
      simp only [Bool.false_eq_true, if_false]
      rw [hdata, ← hpl, ih (pre ++ [c]) post n ?_]
      · rw [hpl, hlenB, Option.map_map]
        have : pre.length + 1 + (charBytes false cs).length =
            pre.length + (1 + (charBytes false cs).length) := by omega
        rw [this]
        rfl
      · intro q hq
        rw [hpl] at hq
        apply hb q
        rw [List.mem_range'] at hq ⊢
        obtain ⟨i, hi, rfl⟩ := hq
        exact ⟨i + 1, by omega, by omega⟩
    | true =>
      have hB : charBytes true (c :: cs) = [c % 256, c / 256] ++ charBytes true cs := rfl
      rw [hB] at hb ⊢
      have hlenB : ([c % 256, c / 256] ++ charBytes true cs).length =
          2 + (charBytes true cs).length := by
        rw [List.length_append]; rfl
      rw [hlenB] at hb
      have hdata : pre ++ ([c % 256, c / 256] ++ charBytes true cs) ++ post =
          (pre ++ [c % 256, c / 256]) ++ charBytes true cs ++ post := by
        simp only [List.append_assoc]
      have hpl : (pre ++ [c % 256, c / 256]).length = pre.length + 2 := by
        rw [List.length_append]; rfl
      have hstep := loadChars_step borders (cs.length + n) true
        (pre ++ ([c % 256, c / 256] ++ charBytes true cs) ++ post) pre.length c
        (hb pre.length (by rw [List.mem_range']; exact ⟨0, by omega, by omega⟩))
        (by simp only [List.length_append, List.length_cons, List.length_nil, if_true]
            omega)
        (by
          have := leAt_append_mid pre [c % 256, c / 256] (charBytes true cs ++ post)
          simp only [List.length_cons, List.length_nil, List.append_assoc] at this
          simp only [if_true, List.append_assoc]
          rw [this]
          simp only [leValue]
          omega)
      have hcount : (c :: cs).length + n = cs.length + n + 1 := by
        rw [List.length_cons]; omega
      rw [hcount, hstep]
      simp only [if_true]
      rw [hdata, ← hpl, ih (pre ++ [c % 256, c / 256]) post n ?_]
      · rw [hpl, hlenB, Option.map_map]
        have : pre.length + 2 + (charBytes true cs).length =
            pre.length + (2 + (charBytes true cs).length) := by omega
        rw [this]
        rfl
      · intro q hq
        rw [hpl] at hq
        apply hb q
        rw [List.mem_range'] at hq ⊢
        obtain ⟨i, hi, rfl⟩ := hq
        exact ⟨i + 2, by omega, by omega⟩

theorem charBytes_cons (wide : Bool) (c : Nat) (cs : List Nat) :
    charBytes wide (c :: cs) = charBytes wide [c] ++ charBytes wide cs := by
  cases wide <;> rfl

theorem length_charBytes_one (wide : Bool) (c : Nat) :
    (charBytes wide [c]).length = if wide then 2 else 1 := by
  cases wide <;> rfl

theorem leValue_charBytes_one (wide : Bool) (c : Nat) : leValue (charBytes wide [c]) = c := by
  cases wide
  · simp [charBytes, leValue]
  · simp only [charBytes, wideBytes, leValue, if_true]
    omega

theorem isHighByte_flags (g : Segment) : isHighByte g.flags = g.wide := by
  unfold Segment.flags
  cases g.wide <;> decide

theorem loadChars_continued (borders : List Int) :
    ∀ (segs : List Segment) (pre post : List Nat) (wide0 : Bool),
      (∀ g ∈ segs, g.chars ≠ []) → SeamsAt borders pre.length segs →
      loadChars borders (segmentsChars segs).length wide0
          ⟨pre ++ encodeContinued segs ++ post, pre.length⟩ =
        some (segmentsChars segs,
          ⟨pre ++ encodeContinued segs ++ post, pre.length + (encodeContinued segs).length⟩) := by
  intro segs
  induction segs with
  | nil =>
    intro pre post wide0 _ _
    simp only [segmentsChars, encodeContinued, List.length_nil, Nat.add_zero]
    rfl
  | cons g gs ih =>
    intro pre post wide0 hne hseams
    obtain ⟨w, chars⟩ := g
    cases chars with
    | nil => exact absurd rfl (hne ⟨w, []⟩ (List.mem_cons_self _ _))
    | cons c cs =>
      obtain ⟨hseam, hinside, hrest⟩ := hseams
      have hbytes : Segment.bytes ⟨w, c :: cs⟩ = charBytes w [c] ++ charBytes w cs :=
        charBytes_cons w c cs
      have hflag : Segment.flags ⟨w, c :: cs⟩ = Segment.flags ⟨w, []⟩ := rfl
      have hE := length_charBytes_one w c
      rw [hbytes] at hinside hrest
      rw [List.length_append, hE] at hinside hrest
      have henc : encodeContinued (⟨w, c :: cs⟩ :: gs) =
          [Segment.flags ⟨w, []⟩] ++ charBytes w [c] ++ charBytes w cs ++ encodeContinued gs := by
        simp only [encodeContinued, hbytes, hflag, List.singleton_append, List.append_assoc,
          List.cons_append, List.nil_append]
      have hchars : (segmentsChars (⟨w, c :: cs⟩ :: gs)).length =
          cs.length + (segmentsChars gs).length + 1 := by
        simp only [segmentsChars, List.length_append, List.length_cons]
        omega
      rw [henc, hchars]
      -- the flags byte and the first character
      have hD1 : pre ++ ([Segment.flags ⟨w, []⟩] ++ charBytes w [c] ++ charBytes w cs ++
            encodeContinued gs) ++ post =
          pre ++ [Segment.flags ⟨w, []⟩] ++
            (charBytes w [c] ++ charBytes w cs ++ encodeContinued gs ++ post) := by
        simp only [List.append_assoc]
      have hD2 : pre ++ ([Segment.flags ⟨w, []⟩] ++ charBytes w [c] ++ charBytes w cs ++
            encodeContinued gs) ++ post =
          (pre ++ [Segment.flags ⟨w, []⟩]) ++ charBytes w [c] ++
            (charBytes w cs ++ encodeContinued gs ++ post) := by
        simp only [List.append_assoc]
      have hD3 : pre ++ ([Segment.flags ⟨w, []⟩] ++ charBytes w [c] ++ charBytes w cs ++
            encodeContinued gs) ++ post =
          (pre ++ [Segment.flags ⟨w, []⟩] ++ charBytes w [c]) ++ charBytes w cs ++
            (encodeContinued gs ++ post) := by
        simp only [List.append_assoc]
      have hD4 : pre ++ ([Segment.flags ⟨w, []⟩] ++ charBytes w [c] ++ charBytes w cs ++
            encodeContinued gs) ++ post =
          (pre ++ [Segment.flags ⟨w, []⟩] ++ charBytes w [c] ++ charBytes w cs) ++
            encodeContinued gs ++ post := by
        simp only [List.append_assoc]
      have hp2 : (pre ++ [Segment.flags ⟨w, []⟩]).length = pre.length + 1 := by
        rw [List.length_append]; rfl
      have hp3 : (pre ++ [Segment.flags ⟨w, []⟩] ++ charBytes w [c]).length =
          pre.length + 1 + (if w then 2 else 1) := by
        rw [List.length_append, hp2, hE]
      have hp4 : (pre ++ [Segment.flags ⟨w, []⟩] ++ charBytes w [c] ++ charBytes w cs).length =
          pre.length + 1 + (if w then 2 else 1) + (charBytes w cs).length := by
        rw [List.length_append, hp3]
      have hstep := loadChars_seam borders (cs.length + (segmentsChars gs).length) wide0 w
        (pre ++ ([Segment.flags ⟨w, []⟩] ++ charBytes w [c] ++ charBytes w cs ++
            encodeContinued gs) ++ post) pre.length c hseam
        (by rw [hD3, List.length_append, List.length_append, hp3]; omega)
        (by
          rw [hD1]
          have := leAt_append_mid pre [Segment.flags ⟨w, []⟩]
            (charBytes w [c] ++ charBytes w cs ++ encodeContinued gs ++ post)
          rw [List.length_singleton] at this
          rw [this]
          simp only [leValue, Nat.mul_zero, Nat.add_zero]
          exact isHighByte_flags ⟨w, []⟩)
        (by
          rw [hD2, ← hp2, ← hE, leAt_append_mid, leValue_charBytes_one])
      rw [hstep, hD3, ← hp3,
        loadChars_run borders w cs (pre ++ [Segment.flags ⟨w, []⟩] ++ charBytes w [c])
          (encodeContinued gs ++ post) (segmentsChars gs).length ?_]
      · rw [← hD3, hD4, hp3, ← hp4, ih _ post w (fun g hg => hne g (List.mem_cons_of_mem _ hg)) ?_]
        · simp only [Option.map_some', segmentsChars, List.cons_append]
          rw [hp4]
          congr 3
          simp only [List.length_append, List.length_cons, List.length_nil, hE]
          omega
        · rw [hp4]
          have : pre.length + 1 + (if w then 2 else 1) + (charBytes w cs).length =
              pre.length + 1 + ((if w then 2 else 1) + (charBytes w cs).length) := by omega
          rw [this]
          exact hrest
      · intro q hq
        rw [hp3] at hq
        apply hinside q
        rw [List.mem_range'] at hq ⊢
        obtain ⟨i, hi, rfl⟩ := hq
        exact ⟨i + (if w then 2 else 1), by omega, by omega⟩

theorem flags_plain (g : Segment) :
    isRichString g.flags = false ∧ isExtString g.flags = false := by
  unfold Segment.flags
  cases g.wide <;> exact ⟨by decide, by decide⟩

theorem Stream.seek_current_zero (data : List Nat) (pos : Nat) (h : pos ≤ data.length) :
    Stream.seek ⟨data, pos⟩ ((0 : Nat) : Int) .FromCurrent = some ⟨data, pos⟩ :=
  Stream.seek_current_ok data pos 0 (by omega)

/-- Decoding of an encoded string: `loadString`, on a stream that stands where
the encoding of the runs `first`, `rest` begins, with no seam inside the first
run and the seams of `borders` where the runs of `rest` begin, gives the
characters of the runs and leaves the stream behind the encoding. -/
theorem loadString_encodeString (borders : List Int) (first : Segment) (rest : List Segment)
    (pre post : List Nat) (hrest : ∀ g ∈ rest, g.chars ≠ [])
    (hfirst : ∀ q ∈ List.range' (pre.length + 3) first.bytes.length, (q : Int) ∉ borders)
    (hseams : SeamsAt borders (pre.length + 3 + first.bytes.length) rest) :
    loadString ⟨pre ++ encodeString first rest ++ post, pre.length⟩ borders 2
        BiffVersion.BIFF8 =
      some (first.chars ++ segmentsChars rest,
        ⟨pre ++ encodeString first rest ++ post,
          pre.length + (encodeString first rest).length⟩) := by
  obtain ⟨hrich, hext⟩ := flags_plain first
  have henc : encodeString first rest =
      [(first.chars ++ segmentsChars rest).length % 256,
        (first.chars ++ segmentsChars rest).length / 256] ++ [first.flags] ++
        charBytes first.wide first.chars ++ encodeContinued rest := by
    simp only [encodeString, Segment.bytes, List.cons_append, List.nil_append,
      List.append_assoc]
  have hbytes : first.bytes = charBytes first.wide first.chars := rfl
  rw [hbytes] at hfirst hseams
  rw [henc]
  generalize hL : (first.chars ++ segmentsChars rest).length = L
  generalize hD : pre ++ ([L % 256, L / 256] ++ [first.flags] ++
    charBytes first.wide first.chars ++ encodeContinued rest) ++ post = D
  have hD1 : D = pre ++ [L % 256, L / 256] ++ ([first.flags] ++
      charBytes first.wide first.chars ++ encodeContinued rest ++ post) := by
    rw [← hD]; simp only [List.append_assoc]
  have hD2 : D = (pre ++ [L % 256, L / 256]) ++ [first.flags] ++
      (charBytes first.wide first.chars ++ encodeContinued rest ++ post) := by
    rw [← hD]; simp only [List.append_assoc]
  have hD3 : D = (pre ++ [L % 256, L / 256] ++ [first.flags]) ++
      charBytes first.wide first.chars ++ (encodeContinued rest ++ post) := by
    rw [← hD]; simp only [List.append_assoc]
  have hD4 : D = (pre ++ [L % 256, L / 256] ++ [first.flags] ++
      charBytes first.wide first.chars) ++ encodeContinued rest ++ post := by
    rw [← hD]; simp only [List.append_assoc]
  have hp2 : (pre ++ [L % 256, L / 256]).length = pre.length + 2 := by
    rw [List.length_append]; rfl
  have hp3 : (pre ++ [L % 256, L / 256] ++ [first.flags]).length = pre.length + 3 := by
    rw [List.length_append, hp2]; rfl
  have hp4 : (pre ++ [L % 256, L / 256] ++ [first.flags] ++
      charBytes first.wide first.chars).length =
        pre.length + 3 + (charBytes first.wide first.chars).length := by
    rw [List.length_append, hp3]
  have hlenD : D.length = pre.length + 3 + (charBytes first.wide first.chars).length +
      (encodeContinued rest).length + post.length := by
    rw [hD4, List.length_append, List.length_append, hp4]
  have hlenE : ([L % 256, L / 256] ++ [first.flags] ++
      charBytes first.wide first.chars ++ encodeContinued rest).length =
        3 + (charBytes first.wide first.chars).length + (encodeContinued rest).length := by
    simp only [List.length_append, List.length_cons, List.length_nil]
  have hr1 : Stream.read ⟨D, pre.length⟩ 2 = some (L, ⟨D, pre.length + 2⟩) := by
    rw [Stream.read_ok D pre.length 2 (by omega)]
    have := leAt_append_mid pre [L % 256, L / 256] ([first.flags] ++
      charBytes first.wide first.chars ++ encodeContinued rest ++ post)
    rw [← hD1] at this
    have h2 : ([L % 256, L / 256] : List Nat).length = 2 := rfl
    rw [h2] at this
    rw [this]
    simp only [leValue]
    congr 2
    omega
  have hr2 : Stream.read ⟨D, pre.length + 2⟩ 1 = some (first.flags, ⟨D, pre.length + 3⟩) := by
    rw [Stream.read_ok D (pre.length + 2) 1 (by omega)]
    have := leAt_append_mid (pre ++ [L % 256, L / 256]) [first.flags]
      (charBytes first.wide first.chars ++ encodeContinued rest ++ post)
    rw [← hD2, hp2, List.length_singleton] at this
    rw [this]
    simp only [leValue, Nat.mul_zero, Nat.add_zero]
  have hchars : loadChars borders L (isHighByte first.flags) ⟨D, pre.length + 3⟩ =
      some (first.chars ++ segmentsChars rest,
        ⟨D, pre.length + 3 + (charBytes first.wide first.chars).length +
          (encodeContinued rest).length⟩) := by
    rw [isHighByte_flags, ← hL, List.length_append]
    rw [hD3, ← hp3, loadChars_run borders first.wide first.chars _ _ _
      (by rw [hp3]; exact hfirst)]
    rw [← hD3, hD4, hp3, ← hp4, loadChars_continued borders rest _ post first.wide hrest
      (by rw [hp4]; exact hseams)]
    rfl
  unfold loadString
  simp only [Option.bind_eq_bind, Option.pure_def]
  rw [hr1]
  simp only [Option.some_bind]
  rw [hr2]
  simp only [Option.some_bind, hrich, hext, Bool.false_eq_true, if_false]
  rw [hchars]
  simp only [Option.some_bind, Nat.zero_mul]
  rw [Stream.seek_current_zero D _ (by omega)]
  simp only [Option.some_bind]
  rw [Stream.seek_current_zero D _ (by omega), hlenE]
  simp only [Option.some_bind]
  congr 3
  omega

namespace Parser

theorem parseSSTLoop_strings (borders : List Int) (uniqueStrings : Int) :
    ∀ (es : List EncodedString) (pre post : List Nat) (i : Nat),
      StringsAt borders pre.length es →
      parseSSTLoop borders uniqueStrings es.length (i : Int)
          ⟨pre ++ encodeStrings es ++ post, pre.length⟩ =
        some (sharedStringEvents uniqueStrings i es) := by
  intro es
  induction es with
  | nil =>
    intro pre post i _
    rfl
  | cons e es ih =>
    intro pre post i hs
    obtain ⟨hne, hfirst, hseams, hrest⟩ := hs
    have hD : pre ++ encodeStrings (e :: es) ++ post =
        pre ++ encodeString e.first e.rest ++ (encodeStrings es ++ post) := by
      simp only [encodeStrings, EncodedString.bytes, List.append_assoc]
    have hD2 : pre ++ encodeString e.first e.rest ++ (encodeStrings es ++ post) =
        (pre ++ encodeString e.first e.rest) ++ encodeStrings es ++ post := by
      simp only [List.append_assoc]
    have hp : (pre ++ encodeString e.first e.rest).length =
        pre.length + (encodeString e.first e.rest).length := List.length_append _ _
    rw [List.length_cons, parseSSTLoop, hD]
    simp only [Option.bind_eq_bind, Option.pure_def]
    rw [loadString_encodeString borders e.first e.rest pre (encodeStrings es ++ post) hne hfirst
      hseams]
    simp only [Option.some_bind]
    have hi : ((i : Int) + 1) = ((i + 1 : Nat) : Int) := by push_cast; rfl
    rw [hD2, ← hp, hi, ih (pre ++ encodeString e.first e.rest) post (i + 1)
      (by rw [hp]; exact hrest)]
    rfl

/-- What `parseSST` reports for a payload that says `es.length` unique strings
and holds the strings `es` back to back. -/
theorem parseSST_strings (code : Nat) (borders : List Int) (pre post : List Nat)
    (es : List EncodedString) (hpre : pre.length = 8) (hunique : leAt pre 4 4 = es.length)
    (hn : es.length < 2 ^ 31) (hs : StringsAt borders 8 es) :
    parseSST ⟨code, pre ++ encodeStrings es ++ post, borders⟩ =
      some (sharedStringEvents (es.length : Int) 0 es) := by
  have hlen : 8 ≤ (pre ++ encodeStrings es ++ post).length := by
    rw [List.length_append, List.length_append]
    omega
  have hu : leAt (pre ++ encodeStrings es ++ post) 4 4 = es.length := by
    rw [← hunique]
    unfold leAt
    rw [List.append_assoc, List.drop_append_of_le_length (by omega),
      List.take_append_of_le_length (by rw [List.length_drop]; omega)]
  have h32 : toInt32 es.length = (es.length : Int) := by
    unfold toInt32
    have : es.length % 2 ^ 32 = es.length := Nat.mod_eq_of_lt (by omega)
    rw [this, if_pos hn]
  unfold parseSST Record.dataStream
  simp only [Option.bind_eq_bind, Option.pure_def]
  rw [Stream.read_ok _ 0 4 (by omega)]
  simp only [Option.some_bind]
  rw [Stream.read_ok _ (0 + 4) 4 (by omega)]
  simp only [Option.some_bind, Nat.zero_add]
  rw [hu, h32, if_neg (by omega), Int.toNat_ofNat]
  have h8 : (4 + 4 : Nat) = pre.length := by omega
  rw [h8]
  have := parseSSTLoop_strings borders (es.length : Int) es pre post 0 (by rw [hpre]; exact hs)
  rw [← this]
  rfl

end Parser

theorem length_sharedStringEvents (u : Int) :
    ∀ (es : List EncodedString) (k : Nat), (sharedStringEvents u k es).length = es.length := by
  intro es
  induction es with
  | nil => intro k; rfl
  | cons e es ih =>
    intro k
    simp only [sharedStringEvents, List.length_cons, ih]

theorem getElem?_sharedStringEvents (u : Int) :
    ∀ (es : List EncodedString) (k i : Nat),
      (sharedStringEvents u k es)[i]? =
        (es[i]?).map (fun e => Event.onSharedString u ((k + i : Nat) : Int) e.chars) := by
  intro es
  induction es with
  | nil => intro k i; rfl
  | cons e es ih =>
    intro k i
    cases i with
    | zero =>
      simp only [sharedStringEvents, List.getElem?_cons_zero, Option.map_some', Nat.add_zero]
    | succ i =>
      simp only [sharedStringEvents, List.getElem?_cons_succ, ih]
      have : k + 1 + i = k + (i + 1) := by omega
      rw [this]

end Excel

/-! ## Lemmas on the loading of a workbook -/

namespace Excel

namespace Parser

theorem loadGlobalsLoop_filepass :
    ∀ (fuel : Nat) (stream : Stream) (bof : BOF) (boundSheets : List BoundSheet)
      (pre post : List Record) (fp : Record),
      Stream.records fuel stream = pre ++ fp :: post → fp.code = XL_FILEPASS →
      (∀ r ∈ pre, r.code ≠ XL_EOF) → WellFormedGlobals bof pre →
      (loadGlobalsLoop fuel stream bof boundSheets).2.2 = Outcome.thrown protectedFile := by
  intro fuel
  induction fuel with
  | zero =>
    intro stream bof boundSheets pre post fp hrec
    exact absurd hrec (by cases pre <;> simp [Stream.records])
  | succ fuel ih =>
    intro stream bof boundSheets pre post fp hrec hfp hpre hwf
    rw [Stream.records] at hrec
    rw [loadGlobalsLoop]
    cases pre with
    | nil =>
      have hhead : (Record.read stream).1 = fp := by
        split_ifs at hrec <;> simp only [List.nil_append, List.cons.injEq] at hrec <;>
          exact hrec.1
      rw [hhead, hfp]
      rw [if_neg (by decide), if_pos rfl]
    | cons p pre =>
      have hunk : (Record.read stream).1.code ≠ XL_UNKNOWN := by
        intro hc
        rw [if_pos hc] at hrec
        simp at hrec
      rw [if_neg hunk] at hrec
      simp only [List.cons_append, List.cons.injEq] at hrec
      obtain ⟨hp, hrec⟩ := hrec
      have heof : (Record.read stream).1.code ≠ XL_EOF := by
        rw [hp]; exact hpre p (List.mem_cons_self _ _)
      have hpre2 : ∀ r ∈ pre, r.code ≠ XL_EOF := fun r hr => hpre r (List.mem_cons_of_mem _ hr)
      obtain ⟨wbof, wsst, wbs, wdm, wrest⟩ := hwf
      rw [← hp] at wbof wsst wbs wdm wrest
      by_cases h1 : (Record.read stream).1.code = XL_BOF
      · rw [if_pos h1]
        have hs := wbof h1
        rw [Option.isSome_iff_exists] at hs
        obtain ⟨b, hb⟩ := hs
        rw [hb]
        simp only
        apply ih _ _ _ pre post fp hrec hfp hpre2
        rw [nextBOF, if_pos h1, hb] at wrest
        exact wrest
      · rw [if_neg h1]
        rw [nextBOF, if_neg h1] at wrest
        by_cases h2 : (Record.read stream).1.code = XL_FILEPASS
        · rw [if_pos h2]
        · rw [if_neg h2]
          by_cases h3 : (Record.read stream).1.code = XL_SST
          · rw [if_pos h3]
            have hs := wsst h3
            rw [Option.isSome_iff_exists] at hs
            obtain ⟨b, hb⟩ := hs
            rw [hb]
            simp only [Outcome.after]
            exact ih _ _ _ pre post fp hrec hfp hpre2 wrest
          · rw [if_neg h3]
            by_cases h4 : (Record.read stream).1.code = XL_BOUNDSHEET
            · rw [if_pos h4]
              have hs := wbs h4
              rw [Option.isSome_iff_exists] at hs
              obtain ⟨b, hb⟩ := hs
              rw [hb]
              simp only
              exact ih _ _ _ pre post fp hrec hfp hpre2 wrest
            · rw [if_neg h4]
              by_cases h5 : (Record.read stream).1.code = XL_DATEMODE
              · rw [if_pos h5]
                have hs := wdm h5
                rw [Option.isSome_iff_exists] at hs
                obtain ⟨b, hb⟩ := hs
                rw [hb]
                simp only [Outcome.after]
                exact ih _ _ _ pre post fp hrec hfp hpre2 wrest
              · rw [if_neg h5, if_neg heof, if_neg hunk]
                exact ih _ _ _ pre post fp hrec hfp hpre2 wrest

theorem convertVersion_ne_BIFF8 (word : Nat) (h : word ≠ 0x0600) :
    BOF.convertVersion word ≠ BiffVersion.BIFF8 := by
  unfold BOF.convertVersion
  rw [if_neg h]
  split_ifs <;> decide

theorem loadSheet_not_BIFF8 (sheetIdx : Nat) (boundSheet : BoundSheet) (stream : Stream)
    (pos : Nat) (hpos : boundSheet.BOFPosition = (pos : Int)) (hin : pos ≤ stream.data.length)
    (hlen : 2 ≤ (Record.read ⟨stream.data, pos⟩).1.data.length)
    (hver : leAt (Record.read ⟨stream.data, pos⟩).1.data 0 2 ≠ 0x0600) :
    loadSheet sheetIdx boundSheet stream = ([], Outcome.thrown unsupportedBiff) := by
  unfold loadSheet
  rw [hpos, Stream.seek_beginning_ok stream.data stream.pos pos hin]
  simp only
  unfold BOF.parse Record.dataStream
  rw [Stream.read_ok _ 0 2 (by omega)]
  simp only
  exact if_pos (convertVersion_ne_BIFF8 _ hver)

end Parser

end Excel

namespace Excel

namespace Parser

theorem handleLabelSST_cellSheet (record : Record) (sheetIdx : Nat) (events : List Event)
    (h : handleLabelSST record sheetIdx = some events) :
    ∀ e ∈ events, e.cellSheet = some sheetIdx := by
  simp only [handleLabelSST, Option.bind_eq_bind, Option.bind_eq_some, Option.pure_def,
    Option.some.injEq] at h
  obtain ⟨_, _, _, _, _, _, _, _, rfl⟩ := h
  intro e he
  rw [List.mem_singleton] at he
  rw [he]
  rfl

theorem handleLabel_cellSheet (record : Record) (sheetIdx : Nat) (events : List Event)
    (h : handleLabel record sheetIdx = some events) :
    ∀ e ∈ events, e.cellSheet = some sheetIdx := by
  simp only [handleLabel, Option.bind_eq_bind, Option.bind_eq_some, Option.pure_def,
    Option.some.injEq] at h
  obtain ⟨_, _, _, _, _, _, _, _, rfl⟩ := h
  intro e he
  rw [List.mem_singleton] at he
  rw [he]
  rfl

theorem handleRK_cellSheet (record : Record) (sheetIdx : Nat) (events : List Event)
    (h : handleRK record sheetIdx = some events) :
    ∀ e ∈ events, e.cellSheet = some sheetIdx := by
  simp only [handleRK, Option.bind_eq_bind, Option.bind_eq_some, Option.pure_def,
    Option.some.injEq] at h
  obtain ⟨_, _, _, _, _, _, _, _, rfl⟩ := h
  intro e he
  rw [List.mem_singleton] at he
  rw [he]
  rfl

theorem handleNUMBER_cellSheet (record : Record) (sheetIdx : Nat) (events : List Event)
    (h : handleNUMBER record sheetIdx = some events) :
    ∀ e ∈ events, e.cellSheet = some sheetIdx := by
  simp only [handleNUMBER, Option.bind_eq_bind, Option.bind_eq_some, Option.pure_def,
    Option.some.injEq] at h
  obtain ⟨_, _, _, _, _, _, _, _, rfl⟩ := h
  intro e he
  rw [List.mem_singleton] at he
  rw [he]
  rfl

theorem handleMULRKLoop_cellSheet (sheetIdx : Nat) (row colFirst : Int) :
    ∀ (remaining : Nat) (i : Int) (s : Stream) (events : List Event),
      handleMULRKLoop sheetIdx row colFirst remaining i s = some events →
      ∀ e ∈ events, e.cellSheet = some sheetIdx := by
  intro remaining
  induction remaining with
  | zero =>
    intro i s events h e he
    simp only [handleMULRKLoop, Option.some.injEq] at h
    rw [← h] at he
    exact absurd he (List.not_mem_nil _)
  | succ n ih =>
    intro i s events h e he
    simp only [handleMULRKLoop, Option.bind_eq_bind, Option.bind_eq_some, Option.pure_def,
      Option.some.injEq] at h
    obtain ⟨_, _, _, _, rest, hrest, rfl⟩ := h
    rw [List.mem_cons] at he
    rcases he with he | he
    · rw [he]; rfl
    · exact ih _ _ _ hrest e he

theorem handleMULRK_cellSheet (record : Record) (sheetIdx : Nat) (events : List Event)
    (h : handleMULRK record sheetIdx = some events) :
    ∀ e ∈ events, e.cellSheet = some sheetIdx := by
  simp only [handleMULRK, Option.bind_eq_bind, Option.bind_eq_some] at h
  obtain ⟨_, _, _, _, _, _, _, _, _, _, h⟩ := h
  exact handleMULRKLoop_cellSheet _ _ _ _ _ _ _ h

theorem handleFORMULA_cellSheet (record : Record) (stream : Stream) (sheetIdx : Nat)
    (out : List Event × Stream) (h : handleFORMULA record stream sheetIdx = some out) :
    ∀ e ∈ out.1, e.cellSheet = some sheetIdx := by
  unfold handleFORMULA at h
  cases hf : Formula.parse record with
  | none => rw [hf] at h; exact absurd h (by simp)
  | some formula =>
    rw [hf] at h
    simp only at h
    split_ifs at h
    · cases hl : loadString (Record.read stream).1.dataStream [] 2 BiffVersion.BIFF8 with
      | none => rw [hl] at h; exact absurd h (by simp)
      | some r =>
        rw [hl] at h
        simp only [Option.some.injEq] at h
        rw [← h]
        intro e he
        rw [List.mem_singleton] at he
        rw [he]
        rfl
    · simp only [Option.some.injEq] at h
      rw [← h]
      intro e he
      rw [List.mem_singleton] at he
      rw [he]
      rfl

theorem mem_after {α : Type} (events : List Event) (run : List Event × α) (e : Event)
    (h : e ∈ (Outcome.after events run).1) : e ∈ events ∨ e ∈ run.1 :=
  List.mem_append.mp h

theorem loadSheetLoop_cellSheet (sheetIdx : Nat) :
    ∀ (fuel : Nat) (stream : Stream),
      ∀ e ∈ (loadSheetLoop sheetIdx fuel stream).1, e.cellSheet = some sheetIdx := by
  intro fuel
  induction fuel with
  | zero =>
    intro stream e he
    exact absurd he (List.not_mem_nil _)
  | succ fuel ih =>
    intro stream e he
    rw [loadSheetLoop] at he
    split_ifs at he
    · cases h : handleLabelSST (Record.read stream).1 sheetIdx with
      | none => rw [h] at he; exact absurd he (List.not_mem_nil _)
      | some events =>
        rw [h] at he
        rcases mem_after _ _ _ he with he | he
        · exact handleLabelSST_cellSheet _ _ _ h e he
        · exact ih _ e he
    · cases h : handleLabel (Record.read stream).1 sheetIdx with
      | none => rw [h] at he; exact absurd he (List.not_mem_nil _)
      | some events =>
        rw [h] at he
        rcases mem_after _ _ _ he with he | he
        · exact handleLabel_cellSheet _ _ _ h e he
        · exact ih _ e he
    · cases h : handleRK (Record.read stream).1 sheetIdx with
      | none => rw [h] at he; exact absurd he (List.not_mem_nil _)
      | some events =>
        rw [h] at he
        rcases mem_after _ _ _ he with he | he
        · exact handleRK_cellSheet _ _ _ h e he
        · exact ih _ e he
    · cases h : handleMULRK (Record.read stream).1 sheetIdx with
      | none => rw [h] at he; exact absurd he (List.not_mem_nil _)
      | some events =>
        rw [h] at he
        rcases mem_after _ _ _ he with he | he
        · exact handleMULRK_cellSheet _ _ _ h e he
        · exact ih _ e he
    · cases h : handleNUMBER (Record.read stream).1 sheetIdx with
      | none => rw [h] at he; exact absurd he (List.not_mem_nil _)
      | some events =>
        rw [h] at he
        rcases mem_after _ _ _ he with he | he
        · exact handleNUMBER_cellSheet _ _ _ h e he
        · exact ih _ e he
    · cases h : handleFORMULA (Record.read stream).1 (Record.read stream).2 sheetIdx with
      | none => rw [h] at he; exact absurd he (List.not_mem_nil _)
      | some out =>
        rw [h] at he
        rcases mem_after _ _ _ he with he | he
        · exact handleFORMULA_cellSheet _ _ _ _ h e he
        · exact ih _ e he
    · exact absurd he (List.not_mem_nil _)
    · exact absurd he (List.not_mem_nil _)
    · exact ih _ e he

theorem loadSheet_cellSheet (sheetIdx : Nat) (boundSheet : BoundSheet) (stream : Stream) :
    ∀ e ∈ (loadSheet sheetIdx boundSheet stream).1, e.cellSheet = some sheetIdx := by
  intro e he
  unfold loadSheet at he
  cases hs : stream.seek boundSheet.BOFPosition .FromBeginning with
  | none => rw [hs] at he; exact absurd he (List.not_mem_nil _)
  | some s =>
    rw [hs] at he
    simp only at he
    cases hb : BOF.parse (Record.read s).1 with
    | none => rw [hb] at he; exact absurd he (List.not_mem_nil _)
    | some bof =>
      rw [hb] at he
      simp only at he
      split_ifs at he
      · exact absurd he (List.not_mem_nil _)
      · exact loadSheetLoop_cellSheet _ _ _ e he

end Parser

theorem sheetCall_of_cellSheet (e : Event) (i : Nat) (h : e.cellSheet = some i) :
    e.sheetCall = none := by
  cases e <;> first | rfl | exact absurd h (by simp [Event.cellSheet])

theorem filterMap_sheetCall_cells (i : Nat) (cells : List Event)
    (h : ∀ e ∈ cells, e.cellSheet = some i) : cells.filterMap Event.sheetCall = [] := by
  rw [List.filterMap_eq_nil_iff]
  intro e he
  exact sheetCall_of_cellSheet e i (h e he)

theorem sheetOrder_cells (i : Nat) (cells rest : List Event)
    (h : ∀ e ∈ cells, e.cellSheet = some i) :
    sheetOrder (some i) (cells ++ rest) = sheetOrder (some i) rest := by
  induction cells with
  | nil => rfl
  | cons c cs ih =>
    have hc := h c (List.mem_cons_self _ _)
    have hcs := ih (fun e he => h e (List.mem_cons_of_mem _ he))
    rw [List.cons_append]
    cases c with
    | onSheet j name => exact absurd hc (by simp [Event.cellSheet])
    | onSharedString a b v => exact absurd hc (by simp [Event.cellSheet])
    | onDateMode m => exact absurd hc (by simp [Event.cellSheet])
    | onCellSharedString a r c v =>
      simp only [Event.cellSheet, Option.some.injEq] at hc
      simp only [sheetOrder, Event.cellSheet, hc, decide_True, Bool.true_and, hcs]
    | onCellDouble a r c v =>
      simp only [Event.cellSheet, Option.some.injEq] at hc
      simp only [sheetOrder, Event.cellSheet, hc, decide_True, Bool.true_and, hcs]
    | onCellString a r c v =>
      simp only [Event.cellSheet, Option.some.injEq] at hc
      simp only [sheetOrder, Event.cellSheet, hc, decide_True, Bool.true_and, hcs]
    | onCellFormula a f =>
      simp only [Event.cellSheet, Option.some.injEq] at hc
      simp only [sheetOrder, Event.cellSheet, hc, decide_True, Bool.true_and, hcs]

namespace Parser

theorem sheetOrder_onSheet (current : Option Nat) (j : Nat) (name : List Nat)
    (es : List Event) (h : ∀ c, current = some c → c < j) :
    sheetOrder current (Event.onSheet j name :: es) = sheetOrder (some j) es := by
  cases current with
  | none => simp only [sheetOrder, Bool.true_and]
  | some c => simp only [sheetOrder, decide_eq_true (h c rfl), Bool.true_and]

theorem sheetOrder_loadWorkSheetsFrom (stream : Stream) :
    ∀ (rest : List BoundSheet) (k : Nat) (current : Option Nat),
      (∀ c, current = some c → c < k) →
      sheetOrder current (loadWorkSheetsFrom stream k rest).1 = true := by
  intro rest
  induction rest with
  | nil => intro k current _; rfl
  | cons b rest ih =>
    intro k current hcur
    rw [loadWorkSheetsFrom]
    split_ifs with hw hr
    · have hev : (Outcome.after (Event.onSheet k b.sheetName :: (loadSheet k b stream).1)
          (loadWorkSheetsFrom stream (k + 1) rest)).1 =
          Event.onSheet k b.sheetName ::
            ((loadSheet k b stream).1 ++ (loadWorkSheetsFrom stream (k + 1) rest).1) := rfl
      rw [hev, sheetOrder_onSheet current k _ _ hcur,
        sheetOrder_cells k _ _ (loadSheet_cellSheet k b stream)]
      exact ih (k + 1) (some k) (fun c hc => by injection hc with hc; omega)
    · have hev : (Event.onSheet k b.sheetName :: (loadSheet k b stream).1,
          (loadSheet k b stream).2).1 =
          Event.onSheet k b.sheetName :: ((loadSheet k b stream).1 ++ []) := by
        rw [List.append_nil]
      rw [hev, sheetOrder_onSheet current k _ _ hcur,
        sheetOrder_cells k _ _ (loadSheet_cellSheet k b stream)]
      rfl
    · exact ih (k + 1) current (fun c hc => by have := hcur c hc; omega)

theorem sheetCalls_loadWorkSheetsFrom (stream : Stream) :
    ∀ (rest : List BoundSheet) (k : Nat),
      (loadWorkSheetsFrom stream k rest).1.filterMap Event.sheetCall <+:
          ((rest.enumFrom k).filter (fun p => p.2.sheetType = SheetType.WorkSheet)).map
            (fun p => (p.1, p.2.sheetName)) ∧
        ((loadWorkSheetsFrom stream k rest).2 = Outcome.returned →
          (loadWorkSheetsFrom stream k rest).1.filterMap Event.sheetCall =
            ((rest.enumFrom k).filter (fun p => p.2.sheetType = SheetType.WorkSheet)).map
              (fun p => (p.1, p.2.sheetName))) := by
  intro rest
  induction rest with
  | nil =>
    intro k
    exact ⟨List.prefix_refl _, fun _ => rfl⟩
  | cons b rest ih =>
    intro k
    obtain ⟨ih1, ih2⟩ := ih (k + 1)
    have hcells := filterMap_sheetCall_cells k _ (loadSheet_cellSheet k b stream)
    rw [loadWorkSheetsFrom, List.enumFrom_cons]
    split_ifs with hw hr
    · have hf : decide (b.sheetType = SheetType.WorkSheet) = true := decide_eq_true hw
      simp only [Outcome.after, List.cons_append, List.filterMap_cons, Event.sheetCall,
        List.filterMap_append, hcells, List.nil_append, List.filter_cons, hf, if_true,
        List.map_cons]
      refine ⟨?_, fun h => ?_⟩
      · rw [List.prefix_cons_inj]
        exact ih1
      · rw [ih2 h]
    · have hf : decide (b.sheetType = SheetType.WorkSheet) = true := decide_eq_true hw
      simp only [List.filterMap_cons, Event.sheetCall, hcells, List.filter_cons, hf, if_true,
        List.map_cons]
      refine ⟨?_, fun h => absurd h hr⟩
      rw [List.prefix_cons_inj]
      exact List.nil_prefix
    · have hf : decide (b.sheetType = SheetType.WorkSheet) = false := decide_eq_false hw
      simp only [List.filter_cons, hf, Bool.false_eq_true, if_false]
      exact ⟨ih1, ih2⟩

theorem parseBoundSheet_BIFF8 (record : Record) (ver : BiffVersion) (b : BoundSheet)
    (h : parseBoundSheet record ver = some b) :
    parseBoundSheet record BiffVersion.BIFF8 = some b := by
  rw [← h]
  rfl

theorem boundSheetRecords_cons_other (r : Record) (rs : List Record)
    (h1 : r.code ≠ XL_EOF) (h2 : r.code ≠ XL_BOUNDSHEET) :
    boundSheetRecords (r :: rs) = boundSheetRecords rs := by
  unfold boundSheetRecords
  rw [List.takeWhile_cons, if_pos (decide_eq_true h1), List.filter_cons,
    if_neg (by rw [decide_eq_true_eq]; exact h2)]

theorem boundSheetRecords_cons_boundSheet (r : Record) (rs : List Record)
    (h2 : r.code = XL_BOUNDSHEET) :
    boundSheetRecords (r :: rs) = r :: boundSheetRecords rs := by
  unfold boundSheetRecords
  have h1 : r.code ≠ XL_EOF := by rw [h2]; decide
  rw [List.takeWhile_cons, if_pos (decide_eq_true h1), List.filter_cons,
    if_pos (decide_eq_true h2)]

theorem boundSheetRecords_cons_EOF (r : Record) (rs : List Record) (h : r.code = XL_EOF) :
    boundSheetRecords (r :: rs) = [] := by
  unfold boundSheetRecords
  rw [List.takeWhile_cons, if_neg (by rw [decide_eq_true_eq]; exact fun hc => hc h)]
  rfl

theorem loadGlobalsLoop_boundSheets :
    ∀ (fuel : Nat) (stream : Stream) (bof : BOF) (boundSheets : List BoundSheet),
      (loadGlobalsLoop fuel stream bof boundSheets).2.2 = Outcome.returned →
      (loadGlobalsLoop fuel stream bof boundSheets).2.1.map some =
        boundSheets.map some ++
          (boundSheetRecords (Stream.records fuel stream)).map
            (fun r => parseBoundSheet r BiffVersion.BIFF8) := by
  intro fuel
  induction fuel with
  | zero =>
    intro stream bof boundSheets h
    exact absurd h (by simp [loadGlobalsLoop])
  | succ fuel ih =>
    intro stream bof boundSheets h
    rw [loadGlobalsLoop] at h
    by_cases hunk : (Record.read stream).1.code = XL_UNKNOWN
    · rw [hunk] at h
      rw [if_neg (by decide), if_neg (by decide), if_neg (by decide), if_neg (by decide),
        if_neg (by decide), if_neg (by decide), if_pos rfl] at h
      exact absurd h (by simp)
    · have hrecs : Stream.records (fuel + 1) stream =
          (Record.read stream).1 :: Stream.records fuel (Record.read stream).2 := by
        rw [Stream.records, if_neg hunk]
      rw [hrecs, loadGlobalsLoop]
      by_cases h1 : (Record.read stream).1.code = XL_BOF
      · rw [if_pos h1] at h ⊢
        rw [boundSheetRecords_cons_other _ _ (by rw [h1]; decide) (by rw [h1]; decide)]
        cases hb : BOF.parse (Record.read stream).1 with
        | none => rw [hb] at h; exact absurd h (by simp)
        | some b =>
          rw [hb] at h
          exact ih _ _ _ h
      · rw [if_neg h1] at h ⊢
        by_cases h2 : (Record.read stream).1.code = XL_FILEPASS
        · rw [if_pos h2] at h
          exact absurd h (by simp)
        · rw [if_neg h2] at h ⊢
          by_cases h3 : (Record.read stream).1.code = XL_SST
          · rw [if_pos h3] at h ⊢
            rw [boundSheetRecords_cons_other _ _ (by rw [h3]; decide) (by rw [h3]; decide)]
            cases hb : parseSST (Record.read stream).1 with
            | none => rw [hb] at h; exact absurd h (by simp)
            | some b =>
              rw [hb] at h
              exact ih _ _ _ h
          · rw [if_neg h3] at h ⊢
            by_cases h4 : (Record.read stream).1.code = XL_BOUNDSHEET
            · rw [if_pos h4] at h ⊢
              rw [boundSheetRecords_cons_boundSheet _ _ h4]
              cases hb : parseBoundSheet (Record.read stream).1 bof.version with
              | none => rw [hb] at h; exact absurd h (by simp)
              | some b =>
                rw [hb] at h
                simp only at h ⊢
                rw [ih _ _ _ h, List.map_append, List.map_cons, List.map_cons,
                  parseBoundSheet_BIFF8 _ _ _ hb]
                simp only [List.map_nil, List.append_assoc, List.singleton_append]
            · rw [if_neg h4] at h ⊢
              by_cases h5 : (Record.read stream).1.code = XL_DATEMODE
              · rw [if_pos h5] at h ⊢
                rw [boundSheetRecords_cons_other _ _ (by rw [h5]; decide) h4]
                cases hb : handleDateMode (Record.read stream).1 with
                | none => rw [hb] at h; exact absurd h (by simp)
                | some b =>
                  rw [hb] at h
                  exact ih _ _ _ h
              · rw [if_neg h5] at h ⊢
                by_cases h6 : (Record.read stream).1.code = XL_EOF
                · rw [if_pos h6]
                  rw [boundSheetRecords_cons_EOF _ _ h6]
                  simp only [List.map_nil, List.append_nil]
                · rw [if_neg h6, if_neg hunk] at h ⊢
                  rw [boundSheetRecords_cons_other _ _ h6 h4]
                  exact ih _ _ _ h

end Parser

end Excel

/-! ## Lemmas on reads outside the grid -/

theorem toSizeT_wrap (x : Nat) (h : x + 1 = 2 ^ 64) : toSizeT ((x : Int) + 1) = 0 := by
  unfold toSizeT
  have : (x : Int) + 1 = 2 ^ 64 := by
    have := congrArg (fun n : Nat => (n : Int)) h
    simp only [Nat.cast_add, Nat.cast_one, Nat.cast_pow, Nat.cast_ofNat] at this
    exact this
  rw [this]
  norm_num

theorem getElem?_zero_vectorResize {α : Type} (v : List α) (n : Nat) (fill x : α)
    (h : (vectorResize v n fill)[0]? = some x) : v[0]? = some x ∨ (v = [] ∧ x = fill) := by
  unfold vectorResize at h
  cases v with
  | nil =>
    right
    refine ⟨rfl, ?_⟩
    simp only [List.take_nil, List.nil_append] at h
    have := List.getElem?_mem h
    exact (List.mem_replicate.mp this).2
  | cons a t =>
    left
    cases n with
    | zero => simp at h
    | succ n =>
      simp only [List.take_succ_cons, List.cons_append, List.getElem?_cons_zero] at h
      simp only [List.getElem?_cons_zero]
      exact h

theorem getElem?_zero_vectorModifyBack {α : Type} (v : List α) (f : α → α) (x : α)
    (h : (vectorModifyBack v f)[0]? = some x) : v[0]? = some x ∨ ∃ y ∈ v, x = f y := by
  have hm := List.getElem?_mem h
  unfold vectorModifyBack at h
  cases hl : v.getLast? with
  | none => rw [hl] at h; exact Or.inl h
  | some z =>
    rw [hl] at h
    simp only at h
    cases hd : v.dropLast with
    | nil =>
      rw [hd] at h
      simp only [List.nil_append, List.getElem?_cons_zero, Option.some.injEq] at h
      exact Or.inr ⟨z, List.mem_of_getLast?_eq_some hl, h.symm⟩
    | cons a t =>
      rw [hd] at h
      simp only [List.cons_append, List.getElem?_cons_zero, Option.some.injEq] at h
      left
      cases v with
      | nil => simp at hd
      | cons b u =>
        cases u with
        | nil => simp at hd
        | cons c w =>
          simp only [List.dropLast_cons₂, List.cons.injEq] at hd
          simp only [List.getElem?_cons_zero, Option.some.injEq]
          rw [← h, hd.1]

namespace Excel

namespace Sheet

variable {Value : Type}

theorem cell_of_cellRef_dummy (s : Sheet Value) (row column : Nat)
    (h : s.cellRef row column = CellRef.dummyCell) : s.cell row column = some m_dummyCell := by
  unfold cellRef at h
  unfold cell
  split_ifs at h ⊢ <;> rfl

theorem setCell_no_wrap (s s2 : Sheet Value) (row column : Nat) (value : Value)
    (hinv : s.RowsWithin) (hlen : s.m_cells.length < 2 ^ 64) (hcc : s.m_columnsCount < 2 ^ 64)
    (hrow : row < 2 ^ 64) (hcol : column < 2 ^ 64)
    (h : s.setCell row column value = some s2) :
    row + 1 < 2 ^ 64 ∧ column + 1 < 2 ^ 64 := by
  have hr1 : row + 1 < 2 ^ 64 := by
    by_contra hc
    have hw := toSizeT_wrap row (by omega)
    unfold setCell initCell at h
    simp only [hw, Nat.not_lt_zero, if_false] at h
    rw [List.getElem?_eq_none (by omega)] at h
    exact absurd h (by simp)
  refine ⟨hr1, ?_⟩
  by_contra hc
  have hw := toSizeT_wrap column (by omega)
  unfold setCell initCell at h
  simp only [hw, Nat.not_lt_zero, if_false, toSizeT_succ row hr1] at h
  have hmem : ∀ r ∈ (if s.m_cells.length < row + 1 then vectorResize s.m_cells (row + 1) []
      else s.m_cells), r.length ≤ s.m_columnsCount := by
    intro r hr
    split_ifs at hr with hc
    · rcases mem_vectorResize _ _ _ _ hr with hr | hr
      · exact hinv r hr
      · rw [hr]; exact Nat.zero_le _
    · exact hinv r hr
  generalize (if s.m_cells.length < row + 1 then vectorResize s.m_cells (row + 1) []
      else s.m_cells) = cells at h hmem
  cases hr : cells[row]? with
  | none => rw [hr] at h; exact absurd h (by simp)
  | some r =>
    rw [hr] at h
    simp only [hr] at h
    have hle := hmem r (List.getElem?_mem hr)
    rw [List.getElem?_eq_none (by omega)] at h
    exact absurd h (by simp)

theorem initCell_rowZero (s s1 : Sheet Value) (row column : Nat) (hrow : row + 1 < 2 ^ 64)
    (hcol : column + 1 < 2 ^ 64) (hinv : s.GridInv) (h : s.initCell row column = some s1) :
    ∀ r0, s1.m_cells[0]? = some r0 → r0.length = s1.m_columnsCount := by
  obtain ⟨-, -, -, hz, -, he⟩ := hinv
  unfold initCell at h
  simp only [toSizeT_succ row hrow, toSizeT_succ column hcol] at h
  have hzero : ∀ r0, (if s.m_cells.length < row + 1 then vectorResize s.m_cells (row + 1) []
      else s.m_cells)[0]? = some r0 → r0.length = s.m_columnsCount := by
    intro r0 hr0
    split_ifs at hr0 with hc
    · rcases getElem?_zero_vectorResize _ _ _ _ hr0 with hr0 | ⟨hnil, hr0⟩
      · exact hz r0 hr0
      · rw [hr0, he hnil]
        rfl
    · exact hz r0 hr0
  generalize (if s.m_cells.length < row + 1 then vectorResize s.m_cells (row + 1) []
      else s.m_cells) = cells at h hzero
  cases hr : cells[row]? with
  | none => rw [hr] at h; exact absurd h (by simp)
  | some r =>
    rw [hr] at h
    simp only at h
    split_ifs at h with h1 h2
    · injection h with h
      subst h
      intro r0 hr0
      simp only [List.getElem?_map, Option.map_eq_some'] at hr0
      obtain ⟨y, -, hy⟩ := hr0
      rw [← hy, length_vectorResize]
    · injection h with h
      subst h
      intro r0 hr0
      rcases getElem?_zero_vectorModifyBack _ _ _ hr0 with hr0 | ⟨y, -, hy⟩
      · exact hzero r0 hr0
      · rw [hy, length_vectorResize]
    · injection h with h
      subst h
      exact hzero

theorem setCell_gridInv (s s2 : Sheet Value) (row column : Nat) (value : Value)
    (hrow : row < 2 ^ 64) (hcol : column < 2 ^ 64) (hinv : s.GridInv)
    (h : s.setCell row column value = some s2) : s2.GridInv := by
  obtain ⟨hrow1, hcol1⟩ := setCell_no_wrap s s2 row column value hinv.1 hinv.2.1 hinv.2.2.1
    hrow hcol h
  obtain ⟨e1, e2, e3⟩ := setCell_extents s s2 row column value hrow1 hcol1 hinv.1 h
  have hne : s2.m_cells ≠ [] := by
    intro hc
    rw [hc, List.length_nil] at e1
    omega
  refine ⟨e3, by rw [e1]; have := hinv.2.1; omega, by rw [e2]; have := hinv.2.2.1; omega, ?_,
    fun _ => by rw [e2]; omega, fun hc => absurd hc hne⟩
  unfold setCell at h
  cases h1 : s.initCell row column with
  | none => rw [h1] at h; exact absurd h (by simp)
  | some s1 =>
    rw [h1] at h
    have hz := initCell_rowZero s s1 row column hrow1 hcol1 hinv h1
    simp only at h
    cases h2 : s1.m_cells[row]? with
    | none => rw [h2] at h; exact absurd h (by simp)
    | some r =>
      rw [h2] at h
      simp only at h
      cases h3 : r[column]? with
      | none => rw [h3] at h; exact absurd h (by simp)
      | some c =>
        rw [h3] at h
        injection h with h
        subst h
        intro r0 hr0
        simp only at hr0 ⊢
        cases hc : s1.m_cells with
        | nil => rw [hc] at hr0; simp at hr0
        | cons a t =>
          rw [hc] at hr0 h2 hz
          cases row with
          | zero =>
            simp only [List.set_cons_zero, List.getElem?_cons_zero, Option.some.injEq] at hr0 h2
            rw [← hr0, List.length_set, ← h2]
            exact hz a (List.getElem?_cons_zero)
          | succ n =>
            simp only [List.set_cons_succ, List.getElem?_cons_zero, Option.some.injEq] at hr0
            rw [← hr0]
            exact hz a (List.getElem?_cons_zero)

theorem new_gridInv (name : String) : (new name : Sheet Value).GridInv := by
  refine ⟨(new_extents name).2.2, by simp [new], by simp [new], ?_, ?_, fun _ => rfl⟩
  · intro r0 hr0
    simp [new] at hr0
  · intro hc
    exact absurd rfl hc

theorem setCells_gridInv (calls : List (Nat × Nat × Value)) :
    ∀ (s s2 : Sheet Value), s.GridInv → (∀ c ∈ calls, c.1 < 2 ^ 64 ∧ c.2.1 < 2 ^ 64) →
      s.setCells calls = some s2 → s2.GridInv := by
  induction calls with
  | nil =>
    intro s s2 hinv _ h
    simp only [setCells, Option.some.injEq] at h
    rw [← h]
    exact hinv
  | cons c rest ih =>
    intro s s2 hinv hb h
    obtain ⟨row, column, value⟩ := c
    simp only [setCells] at h
    cases h1 : s.setCell row column value with
    | none => rw [h1] at h; exact absurd h (by simp)
    | some s1 =>
      rw [h1] at h
      have hc := hb (row, column, value) (List.mem_cons_self _ _)
      exact ih s1 s2 (setCell_gridInv s s1 row column value hc.1 hc.2 hinv h1)
        (fun c hc => hb c (List.mem_cons_of_mem _ hc)) h

theorem cellRef_outside (s : Sheet Value) (row column : Nat) (hinv : s.GridInv)
    (hout : s.rowsCount ≤ row ∨ s.columnsCount ≤ column) :
    s.cellRef row column = CellRef.dummyCell := by
  obtain ⟨-, hlen, hcc, hz, hone, -⟩ := hinv
  unfold cellRef
  split_ifs with h0 hg
  · rfl
  · exfalso
    apply hg
    have hne : s.m_cells ≠ [] := by
      intro hc
      rw [hc] at h0
      exact absurd h0 (by simp)
    have h1 := hone hne
    have hrows : toSizeT ((s.m_cells.length : Int) - 1) = s.m_cells.length - 1 := by
      unfold toSizeT
      have : (s.m_cells.length : Int) - 1 = ((s.m_cells.length - 1 : Nat) : Int) := by omega
      rw [this]
      have h2 : (((s.m_cells.length - 1 : Nat) : Int) % 2 ^ 64) =
          ((s.m_cells.length - 1 : Nat) : Int) := Int.emod_eq_of_lt (by omega) (by omega)
      rw [h2, Int.toNat_ofNat]
    have hrow0 : (s.m_cells[0]?.getD []).length = s.m_columnsCount := by
      cases hc : s.m_cells[0]? with
      | none =>
        rw [List.getElem?_eq_none_iff] at hc
        omega
      | some r0 => exact hz r0 hc
    have hcols : toSizeT (((s.m_cells[0]?.getD []).length : Int) - 1) = s.m_columnsCount - 1 := by
      rw [hrow0]
      unfold toSizeT
      have : (s.m_columnsCount : Int) - 1 = ((s.m_columnsCount - 1 : Nat) : Int) := by omega
      rw [this]
      have h2 : (((s.m_columnsCount - 1 : Nat) : Int) % 2 ^ 64) =
          ((s.m_columnsCount - 1 : Nat) : Int) := Int.emod_eq_of_lt (by omega) (by omega)
      rw [h2, Int.toNat_ofNat]
    rw [hrows, hcols]
    unfold rowsCount columnsCount at hout
    omega
  · rfl

end Sheet

end Excel

/-! ## Lemmas on the fuel of the loops -/

namespace Excel

theorem Stream.read_some (s s1 : Stream) (bytes v : Nat) (h : s.read bytes = some (v, s1)) :
    s1.data = s.data ∧ s1.pos = s.pos + bytes ∧ s.pos + bytes ≤ s.data.length := by
  unfold Stream.read at h
  split_ifs at h with hc
  simp only [Option.some.injEq, Prod.mk.injEq] at h
  rw [← h.2]
  exact ⟨rfl, rfl, hc⟩

theorem Stream.readBytes_some (s s1 : Stream) (count : Nat) (v : List Nat)
    (h : s.readBytes count = some (v, s1)) :
    s1.data = s.data ∧ s1.pos = s.pos + count ∧ s.pos + count ≤ s.data.length := by
  unfold Stream.readBytes at h
  split_ifs at h with hc
  simp only [Option.some.injEq, Prod.mk.injEq] at h
  rw [← h.2]
  exact ⟨rfl, rfl, hc⟩

/-- The stream after the CONTINUE records: the same bytes, a position not before
the one it had and not behind the end. -/
theorem Record.readContinues_stream :
    ∀ (fuel : Nat) (r : Record) (s : Stream), s.pos ≤ s.data.length →
      (Record.readContinues fuel r s).2.data = s.data ∧
      s.pos ≤ (Record.readContinues fuel r s).2.pos ∧
      (Record.readContinues fuel r s).2.pos ≤ s.data.length := by
  intro fuel
  induction fuel with
  | zero =>
    intro r s h
    exact ⟨rfl, Nat.le_refl _, h⟩
  | succ fuel ih =>
    intro r s h
    rw [Record.readContinues]
    cases h1 : s.read 2 with
    | none => exact ⟨rfl, Nat.le_refl _, h⟩
    | some p1 =>
      obtain ⟨code, s1⟩ := p1
      obtain ⟨d1, p1, l1⟩ := Stream.read_some s s1 2 code h1
      simp only
      split_ifs with hc
      · exact ⟨rfl, Nat.le_refl _, h⟩
      · cases h2 : s1.read 2 with
        | none =>
          exact ⟨d1, show s.pos ≤ s1.pos by omega, show s1.pos ≤ s.data.length by omega⟩
        | some p2 =>
          obtain ⟨length, s2⟩ := p2
          obtain ⟨d2, p2, l2⟩ := Stream.read_some s1 s2 2 length h2
          simp only
          cases h3 : s2.readBytes length with
          | none =>
            rw [d1] at l2
            exact ⟨show s2.data = s.data by rw [d2, d1], show s.pos ≤ s2.pos by omega,
              show s2.pos ≤ s.data.length by omega⟩
          | some p3 =>
            obtain ⟨payload, s3⟩ := p3
            obtain ⟨d3, p3, l3⟩ := Stream.readBytes_some s2 s3 length payload h3
            simp only
            have hd : s3.data = s.data := by rw [d3, d2, d1]
            obtain ⟨e1, e2, e3⟩ := ih
              { r with data := r.data ++ payload,
                       borders := r.borders ++ [(r.data.length : Int)] } s3
              (by rw [hd, p3, ← d1, ← d2]; exact l3)
            refine ⟨by rw [e1, hd], by omega, by rw [hd] at e3; exact e3⟩

/-- The gluing of CONTINUE records does not depend on the fuel, once the fuel
is more than a quarter of the bytes that are left. -/
theorem Record.readContinues_fuel :
    ∀ (fuel k : Nat) (r : Record) (s : Stream), s.data.length < s.pos + 4 * fuel →
      Record.readContinues (fuel + k) r s = Record.readContinues fuel r s := by
  intro fuel
  induction fuel with
  | zero =>
    intro k r s h
    cases k with
    | zero => rfl
    | succ k =>
      rw [Nat.zero_add, Record.readContinues, Record.readContinues]
      have : s.read 2 = none := by
        unfold Stream.read
        rw [if_neg (by omega)]
      rw [this]
  | succ fuel ih =>
    intro k r s h
    have hk : fuel + 1 + k = (fuel + k) + 1 := by omega
    rw [hk, Record.readContinues, Record.readContinues]
    cases h1 : s.read 2 with
    | none => rfl
    | some p1 =>
      obtain ⟨code, s1⟩ := p1
      obtain ⟨d1, p1, l1⟩ := Stream.read_some s s1 2 code h1
      simp only
      split_ifs with hc
      · rfl
      · cases h2 : s1.read 2 with
        | none => rfl
        | some p2 =>
          obtain ⟨length, s2⟩ := p2
          obtain ⟨d2, p2, l2⟩ := Stream.read_some s1 s2 2 length h2
          simp only
          cases h3 : s2.readBytes length with
          | none => rfl
          | some p3 =>
            obtain ⟨payload, s3⟩ := p3
            obtain ⟨d3, p3, l3⟩ := Stream.readBytes_some s2 s3 length payload h3
            simp only
            apply ih
            rw [d3, d2, d1, p3, p2, p1]
            omega

/-- The stream after a record: the same bytes, a position not behind the end,
and at least 4 bytes on unless the record is `XL_UNKNOWN`. -/
theorem Record.read_stream (s : Stream) (h : s.pos ≤ s.data.length) :
    (Record.read s).2.data = s.data ∧ s.pos ≤ (Record.read s).2.pos ∧
      (Record.read s).2.pos ≤ s.data.length ∧
      ((Record.read s).1.code ≠ XL_UNKNOWN → s.pos + 4 ≤ (Record.read s).2.pos) := by
  unfold Record.read
  cases h1 : s.read 2 with
  | none => exact ⟨rfl, Nat.le_refl _, h, fun hc => absurd rfl hc⟩
  | some p1 =>
    obtain ⟨code, s1⟩ := p1
    obtain ⟨d1, p1, l1⟩ := Stream.read_some s s1 2 code h1
    simp only
    cases h2 : s1.read 2 with
    | none =>
      exact ⟨d1, show s.pos ≤ s1.pos by omega, show s1.pos ≤ s.data.length by omega,
        fun hc => absurd rfl hc⟩
    | some p2 =>
      obtain ⟨length, s2⟩ := p2
      obtain ⟨d2, p2, l2⟩ := Stream.read_some s1 s2 2 length h2
      simp only
      cases h3 : s2.readBytes length with
      | none =>
        rw [d1] at l2
        exact ⟨show s2.data = s.data by rw [d2, d1], show s.pos ≤ s2.pos by omega,
          show s2.pos ≤ s.data.length by omega, fun hc => absurd rfl hc⟩
      | some p3 =>
        obtain ⟨payload, s3⟩ := p3
        obtain ⟨d3, p3, l3⟩ := Stream.readBytes_some s2 s3 length payload h3
        simp only
        have hd : s3.data = s.data := by rw [d3, d2, d1]
        obtain ⟨e1, e2, e3⟩ := Record.readContinues_stream s.data.length
          { code := code, data := payload, borders := [] } s3
          (by rw [hd, p3, ← d1, ← d2]; exact l3)
        refine ⟨by rw [e1, hd], by omega, by rw [hd] at e3; exact e3, fun _ => by omega⟩

namespace Parser

theorem after_outcome (events : List Event) (run : List Event × Outcome) :
    (Outcome.after events run).2 = run.2 := rfl

theorem handleFORMULA_stream (record : Record) (stream : Stream) (sheetIdx : Nat)
    (out : List Event × Stream) (hpos : stream.pos ≤ stream.data.length)
    (h : handleFORMULA record stream sheetIdx = some out) :
    out.2.data = stream.data ∧ stream.pos ≤ out.2.pos ∧ out.2.pos ≤ stream.data.length := by
  obtain ⟨hd, hge, hle, -⟩ := Record.read_stream stream hpos
  unfold handleFORMULA at h
  cases hf : Formula.parse record with
  | none => rw [hf] at h; exact absurd h (by simp)
  | some formula =>
    rw [hf] at h
    simp only at h
    split_ifs at h
    · cases hl : loadString (Record.read stream).1.dataStream [] 2 BiffVersion.BIFF8 with
      | none => rw [hl] at h; exact absurd h (by simp)
      | some r =>
        rw [hl] at h
        simp only [Option.some.injEq] at h
        rw [← h]
        exact ⟨hd, hge, hle⟩
    · simp only [Option.some.injEq] at h
      rw [← h]
      exact ⟨rfl, Nat.le_refl _, hpos⟩

/-- The loop of `loadSheet` ends before its fuel does, once the fuel is more
than a quarter of the bytes that are left. -/
theorem loadSheetLoop_fuel (sheetIdx : Nat) :
    ∀ (fuel : Nat) (stream : Stream),
      stream.pos ≤ stream.data.length → stream.data.length < stream.pos + 4 * fuel →
      (loadSheetLoop sheetIdx fuel stream).2 ≠ Outcome.outOfFuel := by
  intro fuel
  induction fuel with
  | zero =>
    intro stream h1 h2
    omega
  | succ fuel ih =>
    intro stream hpos hfuel
    obtain ⟨hd, -, hle, hadv⟩ := Record.read_stream stream hpos
    have hnext : (Record.read stream).1.code ≠ XL_UNKNOWN →
        (loadSheetLoop sheetIdx fuel (Record.read stream).2).2 ≠ Outcome.outOfFuel := by
      intro hc
      have := hadv hc
      exact ih _ (by rw [hd]; exact hle) (by rw [hd]; omega)
    rw [loadSheetLoop]
    by_cases c1 : (Record.read stream).1.code = XL_LABELSST
    · rw [if_pos c1]
      cases handleLabelSST (Record.read stream).1 sheetIdx with
      | none => simp
      | some events =>
        simp only [after_outcome]
        exact hnext (by rw [c1]; decide)
    · rw [if_neg c1]
      by_cases c2 : (Record.read stream).1.code = XL_LABEL
      · rw [if_pos c2]
        cases handleLabel (Record.read stream).1 sheetIdx with
        | none => simp
        | some events =>
          simp only [after_outcome]
          exact hnext (by rw [c2]; decide)
      · rw [if_neg c2]
        by_cases c3 : (Record.read stream).1.code = XL_RK ∨ (Record.read stream).1.code = XL_RK2
        · rw [if_pos c3]
          cases handleRK (Record.read stream).1 sheetIdx with
          | none => simp
          | some events =>
            simp only [after_outcome]
            exact hnext (by rcases c3 with c3 | c3 <;> rw [c3] <;> decide)
        · rw [if_neg c3]
          by_cases c4 : (Record.read stream).1.code = XL_MULRK
          · rw [if_pos c4]
            cases handleMULRK (Record.read stream).1 sheetIdx with
            | none => simp
            | some events =>
              simp only [after_outcome]
              exact hnext (by rw [c4]; decide)
          · rw [if_neg c4]
            by_cases c5 : (Record.read stream).1.code = XL_NUMBER
            · rw [if_pos c5]
              cases handleNUMBER (Record.read stream).1 sheetIdx with
              | none => simp
              | some events =>
                simp only [after_outcome]
                exact hnext (by rw [c5]; decide)
            · rw [if_neg c5]
              by_cases c6 : (Record.read stream).1.code = XL_FORMULA
              · rw [if_pos c6]
                cases hf : handleFORMULA (Record.read stream).1 (Record.read stream).2
                    sheetIdx with
                | none => simp
                | some out =>
                  obtain ⟨fd, fge, fle⟩ := handleFORMULA_stream _ _ _ out
                    (by rw [hd]; exact hle) hf
                  have := hadv (by rw [c6]; decide)
                  simp only [after_outcome]
                  exact ih _ (by rw [fd, hd]; rw [hd] at fle; exact fle)
                    (by rw [fd, hd]; omega)
              · rw [if_neg c6]
                by_cases c7 : (Record.read stream).1.code = XL_EOF
                · rw [if_pos c7]
                  simp
                · rw [if_neg c7]
                  by_cases c8 : (Record.read stream).1.code = XL_UNKNOWN
                  · rw [if_pos c8]
                    simp
                  · rw [if_neg c8]
                    exact hnext c8

/-- The run of `loadSheet` ends within the fuel of the model. -/
theorem loadSheet_fuel (sheetIdx : Nat) (boundSheet : BoundSheet) (stream : Stream) :
    (loadSheet sheetIdx boundSheet stream).2 ≠ Outcome.outOfFuel := by
  unfold loadSheet
  cases hs : stream.seek boundSheet.BOFPosition .FromBeginning with
  | none => simp
  | some s =>
    simp only
    have hsd : s.data = stream.data ∧ s.pos ≤ stream.data.length := by
      unfold Stream.seek at hs
      simp only at hs
      split_ifs at hs with hc
      simp only [Option.some.injEq] at hs
      rw [← hs]
      exact ⟨rfl, by simp only; omega⟩
    obtain ⟨hd, -, hle, -⟩ := Record.read_stream s (by rw [hsd.1]; exact hsd.2)
    cases BOF.parse (Record.read s).1 with
    | none => simp
    | some bof =>
      simp only
      split_ifs
      · simp
      · exact loadSheetLoop_fuel sheetIdx _ _ (by rw [hd]; exact hle) (by rw [hd]; omega)

/-- The run of `loadWorkSheets` ends within the fuel of the model. -/
theorem loadWorkSheetsFrom_fuel (stream : Stream) :
    ∀ (rest : List BoundSheet) (k : Nat),
      (loadWorkSheetsFrom stream k rest).2 ≠ Outcome.outOfFuel := by
  intro rest
  induction rest with
  | nil => intro k; simp [loadWorkSheetsFrom]
  | cons b rest ih =>
    intro k
    rw [loadWorkSheetsFrom]
    split_ifs
    · simp only [after_outcome]
      exact ih (k + 1)
    · exact loadSheet_fuel k b stream
    · exact ih (k + 1)

end Parser

end Excel

/-! ## Lemmas on the type of a bound sheet -/

theorem and_FF00 (w : Nat) : w &&& 0xFF00 = w / 256 % 256 * 256 := by
  apply Nat.eq_of_testBit_eq
  intro i
  have hFF : (0xFF00 : Nat) = (2 ^ 8 - 1) <<< 8 := by decide
  have h1 : w / 256 % 256 * 256 = ((w >>> 8) % 2 ^ 8) <<< 8 := by
    rw [Nat.shiftLeft_eq, Nat.shiftRight_eq_div_pow]
    norm_num
  rw [h1, Nat.testBit_and, hFF, Nat.testBit_shiftLeft, Nat.testBit_shiftLeft,
    Nat.testBit_two_pow_sub_one, Nat.testBit_mod_two_pow, Nat.testBit_shiftRight]
  by_cases h8 : 8 ≤ i
  · have : 8 + (i - 8) = i := by omega
    rw [this]
    by_cases h : i - 8 < 8 <;> simp [h8, h]
  · simp [h8]

theorem toInt16_pattern (w : Nat) (hw : w < 2 ^ 16) : (toInt16 w % 2 ^ 16).toNat = w := by
  unfold toInt16
  rw [Nat.mod_eq_of_lt hw]
  split_ifs with h
  · have : ((w : Int) % 2 ^ 16) = (w : Int) := Int.emod_eq_of_lt (by omega) (by omega)
    rw [this, Int.toNat_ofNat]
  · have : (((w : Int) - 2 ^ 16) % 2 ^ 16) = (w : Int) := by
      have h2 : (w : Int) - 2 ^ 16 = (w : Int) + (-1) * 2 ^ 16 := by ring
      rw [h2, Int.add_mul_emod_self]
      exact Int.emod_eq_of_lt (by omega) (by omega)
    rw [this, Int.toNat_ofNat]

namespace Excel

/-- The type of a bound sheet is the high byte of the 16-bit pattern of the
type word, in the place of the high byte. -/
theorem BoundSheet.convertSheetType_eq (type : Int) :
    BoundSheet.convertSheetType type = (type % 2 ^ 16).toNat / 256 % 256 * 256 := by
  unfold BoundSheet.convertSheetType
  exact and_FF00 _

end Excel

/-! ## Lemmas on the sign of an RK number -/

namespace F64

theorem roundPos_le (num den : Nat) : roundPos num den ≤ 2047 * 2 ^ 52 := by
  unfold roundPos
  split_ifs
  · exact Nat.zero_le _
  · exact Nat.min_le_right _ _

theorem sign_of_lt (x : Nat) (h : x < 2 ^ 63) : sign x = 0 := by
  unfold sign
  rw [Nat.div_eq_of_lt h]

theorem sign_roundPos (num den : Nat) : sign (roundPos num den) = 0 :=
  sign_of_lt _ (lt_of_le_of_lt (roundPos_le num den) (by norm_num))

theorem sign_div_ofNat_hundred (n : Nat) (hn : n < 2 ^ 53) :
    sign (div (ofNat n) (ofNat 100)) = 0 := by
  by_cases h0 : n = 0
  · have := div_ofNat_hundred 0 (by norm_num)
    rw [Nat.mul_zero] at this
    rw [h0, this]
    exact sign_roundPos 0 1
  · obtain ⟨c, -, hc⟩ := div_ofNat_hundred_eq n h0 hn
    rw [hc]
    exact sign_roundPos _ _

theorem div_ofNat_hundred_nonneg (n : Nat) (hn : n < 2 ^ 53) :
    ∃ v : ℚ, toRat (div (ofNat n) (ofNat 100)) = some v ∧ 0 ≤ v := by
  obtain ⟨v, hv, habs⟩ := div_ofNat_hundred_accurate n hn
  refine ⟨v, hv, ?_⟩
  have h1 : (0 : ℚ) ≤ (n : ℚ) / 100 := by positivity
  have h2 : (n : ℚ) / 100 / 2 ^ 53 ≤ (n : ℚ) / 100 := by
    apply div_le_self h1
    norm_num
  have h3 := (abs_le.mp habs).1
  linarith

end F64

theorem shiftRight_two_lt (rk : Nat) (h : rk < 2 ^ 32) : rk >>> 2 < 2 ^ 30 := by
  rw [Nat.shiftRight_eq_div_pow]
  omega

/-- The RK number of a word with the integer flag: the conversion of `rk >> 2`,
divided by 100 if the other flag is set. -/
theorem doubleFromRK_integer_flag (rk : Nat) (h2 : rk &&& 0x02 ≠ 0) :
    doubleFromRK rk =
      if rk &&& 0x01 ≠ 0 then F64.div (F64.ofNat (rk >>> 2)) (F64.ofNat 100)
      else F64.ofNat (rk >>> 2) := by
  unfold doubleFromRK
  simp only [h2, ne_eq, not_false_eq_true, if_true]

/-! ## Lemmas on the callbacks for shared strings -/

namespace Excel

namespace Parser

theorem parseSSTLoop_events (borders : List Int) (uniqueStrings : Int) :
    ∀ (remaining : Nat) (i : Int) (s : Stream) (events : List Event),
      parseSSTLoop borders uniqueStrings remaining i s = some events →
      ∀ e ∈ events, ∃ (idx : Int) (value : List Nat),
        e = Event.onSharedString uniqueStrings idx value ∧ i ≤ idx ∧
          idx < i + (remaining : Int) := by
  intro remaining
  induction remaining with
  | zero =>
    intro i s events h e he
    simp only [parseSSTLoop, Option.some.injEq] at h
    rw [← h] at he
    exact absurd he (List.not_mem_nil _)
  | succ n ih =>
    intro i s events h e he
    simp only [parseSSTLoop, Option.bind_eq_bind, Option.bind_eq_some, Option.pure_def,
      Option.some.injEq] at h
    obtain ⟨⟨value, s1⟩, -, rest, hrest, rfl⟩ := h
    rw [List.mem_cons] at he
    rcases he with he | he
    · exact ⟨i, value, he, le_refl _, by push_cast; omega⟩
    · obtain ⟨idx, v, hv, h1, h2⟩ := ih _ _ _ hrest e he
      exact ⟨idx, v, hv, by omega, by push_cast; omega⟩

theorem parseSST_events (record : Record) (events : List Event)
    (h : parseSST record = some events) :
    ∀ e ∈ events, ∃ (idx : Int) (value : List Nat),
      e = Event.onSharedString (toInt32 (leAt record.data 4 4)) idx value ∧ 0 ≤ idx ∧
        idx < toInt32 (leAt record.data 4 4) := by
  unfold parseSST Record.dataStream at h
  simp only [Option.bind_eq_bind, Option.bind_eq_some] at h
  obtain ⟨⟨total, s1⟩, h1, ⟨unique, s2⟩, h2, h⟩ := h
  unfold Stream.read at h1
  split_ifs at h1
  simp only [Option.some.injEq, Prod.mk.injEq] at h1
  obtain ⟨-, hs1⟩ := h1
  rw [← hs1] at h2
  unfold Stream.read at h2
  split_ifs at h2
  simp only [Option.some.injEq, Prod.mk.injEq] at h2
  obtain ⟨hu, -⟩ := h2
  simp only [Nat.zero_add] at hu
  rw [hu]
  simp only at h
  split_ifs at h with hneg
  intro e he
  obtain ⟨idx, v, hv, h1, h2⟩ := parseSSTLoop_events _ _ _ _ _ _ h e he
  refine ⟨idx, v, hv, h1, ?_⟩
  rw [Int.toNat_of_nonneg (by omega)] at h2
  omega

end Parser

end Excel

/-! ## Lemmas on the end of the loops -/

namespace Excel

namespace Parser

/-- More fuel does not change the run of the loop of `loadSheet`. -/
theorem loadSheetLoop_fuel_add (sheetIdx : Nat) :
    ∀ (fuel k : Nat) (stream : Stream),
      stream.pos ≤ stream.data.length → stream.data.length < stream.pos + 4 * fuel →
      loadSheetLoop sheetIdx (fuel + k) stream = loadSheetLoop sheetIdx fuel stream := by
  intro fuel
  induction fuel with
  | zero =>
    intro k stream h1 h2
    omega
  | succ fuel ih =>
    intro k stream hpos hfuel
    obtain ⟨hd, -, hle, hadv⟩ := Record.read_stream stream hpos
    have hnext : (Record.read stream).1.code ≠ XL_UNKNOWN →
        loadSheetLoop sheetIdx (fuel + k) (Record.read stream).2 =
          loadSheetLoop sheetIdx fuel (Record.read stream).2 := by
      intro hc
      have := hadv hc
      exact ih k _ (by rw [hd]; exact hle) (by rw [hd]; omega)
    have hk : fuel + 1 + k = (fuel + k) + 1 := by omega
    rw [hk, loadSheetLoop, loadSheetLoop]
    split_ifs with c1 c2 c3 c4 c5 c6 c7 c8
    · cases handleLabelSST (Record.read stream).1 sheetIdx with
      | none => rfl
      | some events =>
        simp only
        rw [hnext (by rw [c1]; decide)]
    · cases handleLabel (Record.read stream).1 sheetIdx with
      | none => rfl
      | some events =>
        simp only
        rw [hnext (by rw [c2]; decide)]
    · cases handleRK (Record.read stream).1 sheetIdx with
      | none => rfl
      | some events =>
        simp only
        rw [hnext (by rcases c3 with c3 | c3 <;> rw [c3] <;> decide)]
    · cases handleMULRK (Record.read stream).1 sheetIdx with
      | none => rfl
      | some events =>
        simp only
        rw [hnext (by rw [c4]; decide)]
    · cases handleNUMBER (Record.read stream).1 sheetIdx with
      | none => rfl
      | some events =>
        simp only
        rw [hnext (by rw [c5]; decide)]
    · cases hf : handleFORMULA (Record.read stream).1 (Record.read stream).2 sheetIdx with
      | none => rfl
      | some out =>
        obtain ⟨fd, fge, fle⟩ := handleFORMULA_stream _ _ _ out (by rw [hd]; exact hle) hf
        have := hadv (by rw [c6]; decide)
        simp only
        rw [ih k out.2 (by rw [fd, hd]; rw [hd] at fle; exact fle) (by rw [fd, hd]; omega)]
    · rfl
    · rfl
    · exact hnext c8

/-- The run of `loadSheet` on a sheet that begins with a BOF record of BIFF8 is
the run of its loop from the record after it. -/
theorem loadSheet_eq_loop (sheetIdx : Nat) (boundSheet : BoundSheet) (stream : Stream)
    (pos : Nat) (hpos : boundSheet.BOFPosition = (pos : Int)) (hin : pos ≤ stream.data.length)
    (hlen : 2 ≤ (Record.read ⟨stream.data, pos⟩).1.data.length)
    (hver : leAt (Record.read ⟨stream.data, pos⟩).1.data 0 2 = 0x0600) :
    loadSheet sheetIdx boundSheet stream =
      loadSheetLoop sheetIdx (stream.data.length + 1) (Record.read ⟨stream.data, pos⟩).2 := by
  unfold loadSheet
  rw [hpos, Stream.seek_beginning_ok stream.data stream.pos pos hin]
  simp only
  unfold BOF.parse Record.dataStream
  rw [Stream.read_ok _ 0 2 (by omega)]
  simp only
  rw [hver]
  rfl

end Parser

end Excel

/-! ## Lemmas on records for which the loop of a sheet has no case -/

namespace Excel

theorem Stream.SameRest.length_eq {s t : Stream} (h : s.SameRest t) :
    s.data.length - s.pos = t.data.length - t.pos := by
  have := congrArg List.length h.2.2
  rw [List.length_drop, List.length_drop] at this
  exact this

theorem Stream.SameRest.symm {s t : Stream} (h : s.SameRest t) : t.SameRest s :=
  ⟨h.2.1, h.1, h.2.2.symm⟩

theorem Stream.SameRest.advance {s t : Stream} (h : s.SameRest t) (n : Nat)
    (hn : s.pos + n ≤ s.data.length) :
    Stream.SameRest ⟨s.data, s.pos + n⟩ ⟨t.data, t.pos + n⟩ := by
  have hl := h.length_eq
  refine ⟨hn, ?_, ?_⟩
  · have := h.1
    have := h.2.1
    show t.pos + n ≤ t.data.length
    omega
  · show s.data.drop (s.pos + n) = t.data.drop (t.pos + n)
    rw [← List.drop_drop, ← List.drop_drop, h.2.2]

theorem Stream.read_sameRest {s t : Stream} (h : s.SameRest t) (n : Nat) :
    (s.read n = none ∧ t.read n = none) ∨
      ∃ (v : Nat) (s1 t1 : Stream), s.read n = some (v, s1) ∧ t.read n = some (v, t1) ∧
        s1.SameRest t1 ∧ s1.data = s.data ∧ t1.data = t.data ∧ s1.pos = s.pos + n ∧
        t1.pos = t.pos + n := by
  have hl := h.length_eq
  have h1 := h.1
  have h2 := h.2.1
  unfold Stream.read
  by_cases hc : s.pos + n ≤ s.data.length
  · right
    have hc2 : t.pos + n ≤ t.data.length := by omega
    rw [if_pos hc, if_pos hc2]
    refine ⟨leAt s.data s.pos n, _, _, rfl, ?_, h.advance n hc, rfl, rfl, rfl, rfl⟩
    unfold leAt
    rw [h.2.2]
  · left
    rw [if_neg hc, if_neg (by omega)]
    exact ⟨rfl, rfl⟩

theorem Stream.readBytes_sameRest {s t : Stream} (h : s.SameRest t) (n : Nat) :
    (s.readBytes n = none ∧ t.readBytes n = none) ∨
      ∃ (v : List Nat) (s1 t1 : Stream), s.readBytes n = some (v, s1) ∧
        t.readBytes n = some (v, t1) ∧ s1.SameRest t1 ∧ s1.data = s.data ∧
        t1.data = t.data ∧ s1.pos = s.pos + n ∧ t1.pos = t.pos + n := by
  have hl := h.length_eq
  have h1 := h.1
  have h2 := h.2.1
  unfold Stream.readBytes
  by_cases hc : s.pos + n ≤ s.data.length
  · right
    have hc2 : t.pos + n ≤ t.data.length := by omega
    rw [if_pos hc, if_pos hc2]
    refine ⟨_, _, _, rfl, ?_, h.advance n hc, rfl, rfl, rfl, rfl⟩
    rw [h.2.2]
  · left
    rw [if_neg hc, if_neg (by omega)]
    exact ⟨rfl, rfl⟩

/-- The gluing of CONTINUE records depends on the bytes left only. -/
theorem Record.readContinues_sameRest :
    ∀ (fuel : Nat) (r : Record) (s t : Stream), s.SameRest t →
      (Record.readContinues fuel r s).1 = (Record.readContinues fuel r t).1 ∧
      (Record.readContinues fuel r s).2.SameRest (Record.readContinues fuel r t).2 := by
  intro fuel
  induction fuel with
  | zero =>
    intro r s t h
    exact ⟨rfl, h⟩
  | succ fuel ih =>
    intro r s t h
    rw [Record.readContinues, Record.readContinues]
    rcases Stream.read_sameRest h 2 with ⟨e1, e2⟩ | ⟨code, s1, t1, e1, e2, h1, -⟩
    · rw [e1, e2]
      exact ⟨rfl, h⟩
    · rw [e1, e2]
      simp only
      split_ifs with hc
      · exact ⟨rfl, h⟩
      · rcases Stream.read_sameRest h1 2 with ⟨e3, e4⟩ | ⟨len, s2, t2, e3, e4, h2, -⟩
        · rw [e3, e4]
          exact ⟨rfl, h1⟩
        · rw [e3, e4]
          simp only
          rcases Stream.readBytes_sameRest h2 len with ⟨e5, e6⟩ | ⟨pl, s3, t3, e5, e6, h3, -⟩
          · rw [e5, e6]
            exact ⟨rfl, h2⟩
          · rw [e5, e6]
            exact ih _ s3 t3 h3

/-- The record read depends on the bytes left only. -/
theorem Record.read_sameRecord (s t : Stream) (h : s.SameRest t) :
    (Record.read s).1 = (Record.read t).1 ∧ (Record.read s).2.SameRest (Record.read t).2 := by
  unfold Record.read
  rcases Stream.read_sameRest h 2 with ⟨e1, e2⟩ | ⟨code, s1, t1, e1, e2, h1, ds1, dt1, ps1, pt1⟩
  · rw [e1, e2]
    exact ⟨rfl, h⟩
  · rw [e1, e2]
    simp only
    rcases Stream.read_sameRest h1 2 with
      ⟨e3, e4⟩ | ⟨len, s2, t2, e3, e4, h2, ds2, dt2, ps2, pt2⟩
    · rw [e3, e4]
      exact ⟨rfl, h1⟩
    · rw [e3, e4]
      simp only
      rcases Stream.readBytes_sameRest h2 len with
        ⟨e5, e6⟩ | ⟨pl, s3, t3, e5, e6, h3, ds3, dt3, ps3, pt3⟩
      · rw [e5, e6]
        exact ⟨rfl, h2⟩
      · rw [e5, e6]
        simp only
        have hs : s3.data = s.data := by rw [ds3, ds2, ds1]
        have ht : t3.data = t.data := by rw [dt3, dt2, dt1]
        have hl := h3.length_eq
        have b1 := h3.1
        have b2 := h3.2.1
        rw [hs] at hl b1
        rw [ht] at hl b2
        have f1 : s.data.length = (s.data.length - s3.pos + 1) + (s3.pos - 1) := by omega
        have f2 : t.data.length = (s.data.length - s3.pos + 1) + (t3.pos - 1) := by omega
        have g1 := Record.readContinues_fuel (s.data.length - s3.pos + 1) (s3.pos - 1)
          { code := code, data := pl, borders := [] } s3 (by rw [hs]; omega)
        have g2 := Record.readContinues_fuel (s.data.length - s3.pos + 1) (t3.pos - 1)
          { code := code, data := pl, borders := [] } t3 (by rw [ht]; omega)
        rw [← f1] at g1
        rw [← f2] at g2
        rw [g1, g2]
        exact Record.readContinues_sameRest _ _ s3 t3 h3

namespace Parser

theorem handleFORMULA_sameRest (record : Record) (s t : Stream) (sheetIdx : Nat)
    (h : s.SameRest t) :
    (handleFORMULA record s sheetIdx = none ∧ handleFORMULA record t sheetIdx = none) ∨
      ∃ (events : List Event) (s1 t1 : Stream),
        handleFORMULA record s sheetIdx = some (events, s1) ∧
        handleFORMULA record t sheetIdx = some (events, t1) ∧ s1.SameRest t1 := by
  obtain ⟨hr, hs⟩ := Record.read_sameRecord s t h
  unfold handleFORMULA
  cases Formula.parse record with
  | none => exact Or.inl ⟨rfl, rfl⟩
  | some formula =>
    simp only
    split_ifs
    · rw [← hr]
      cases loadString (Record.read s).1.dataStream [] 2 BiffVersion.BIFF8 with
      | none => exact Or.inl ⟨rfl, rfl⟩
      | some r => exact Or.inr ⟨_, _, _, rfl, rfl, hs⟩
    · exact Or.inr ⟨_, _, _, rfl, rfl, h⟩

/-- The run of the loop of `loadSheet` depends on the bytes left only. -/
theorem loadSheetLoop_sameRest (sheetIdx : Nat) :
    ∀ (fuel : Nat) (s t : Stream), s.SameRest t →
      loadSheetLoop sheetIdx fuel s = loadSheetLoop sheetIdx fuel t := by
  intro fuel
  induction fuel with
  | zero =>
    intro s t _
    rfl
  | succ fuel ih =>
    intro s t h
    obtain ⟨hr, hs⟩ := Record.read_sameRecord s t h
    rw [loadSheetLoop, loadSheetLoop, ← hr, ih _ _ hs]
    rcases handleFORMULA_sameRest (Record.read s).1 _ _ sheetIdx hs with
      ⟨e1, e2⟩ | ⟨events, s1, t1, e1, e2, h1⟩
    · rw [e1, e2]
    · rw [e1, e2]
      simp only
      rw [ih _ _ h1]

/-- The run of `loadSheet` from its loop on depends on the bytes left only,
whatever the length of the two streams. -/
theorem loadSheetLoop_sameRest_length (sheetIdx : Nat) (s t : Stream) (h : s.SameRest t) :
    loadSheetLoop sheetIdx (s.data.length + 1) s =
      loadSheetLoop sheetIdx (t.data.length + 1) t := by
  have hl := h.length_eq
  have b1 := h.1
  have b2 := h.2.1
  have f1 : s.data.length + 1 = (s.data.length - s.pos + 1) + s.pos := by omega
  have f2 : t.data.length + 1 = (s.data.length - s.pos + 1) + t.pos := by omega
  rw [f1, f2, loadSheetLoop_fuel_add sheetIdx _ s.pos s b1 (by omega),
    loadSheetLoop_fuel_add sheetIdx _ t.pos t b2 (by omega)]
  exact loadSheetLoop_sameRest sheetIdx _ s t h

end Parser

theorem drop_take_mid (pre xs post : List Nat) :
    ((pre ++ xs ++ post).drop pre.length).take xs.length = xs := by
  rw [List.append_assoc, List.drop_left, List.take_left]

/-- Reading the bytes of a record that no CONTINUE record follows gives the
record and leaves the stream behind it. -/
theorem Record.read_bytes (a b : List Nat) (code : Nat) (payload : List Nat)
    (hnext : b.length < 2 ∨ leAt b 0 2 ≠ XL_CONTINUE) :
    Record.read ⟨a ++ Record.bytes code payload ++ b, a.length⟩ =
      (⟨code, payload, []⟩,
        ⟨a ++ Record.bytes code payload ++ b, a.length + (Record.bytes code payload).length⟩) := by
  have hbytes : (Record.bytes code payload).length = 4 + payload.length := by
    unfold Record.bytes
    rw [List.length_append]
    rfl
  generalize hD : a ++ Record.bytes code payload ++ b = D
  have hD1 : D = a ++ [code % 256, code / 256] ++
      ([payload.length % 256, payload.length / 256] ++ payload ++ b) := by
    rw [← hD]
    simp only [Record.bytes, List.append_assoc, List.cons_append, List.nil_append]
  have hD2 : D = (a ++ [code % 256, code / 256]) ++
      [payload.length % 256, payload.length / 256] ++ (payload ++ b) := by
    rw [hD1]
    simp only [List.append_assoc]
  have hD3 : D = (a ++ [code % 256, code / 256] ++
      [payload.length % 256, payload.length / 256]) ++ payload ++ b := by
    rw [hD1]
    simp only [List.append_assoc]
  have hp2 : (a ++ [code % 256, code / 256]).length = a.length + 2 := by
    rw [List.length_append]
    rfl
  have hp3 : (a ++ [code % 256, code / 256] ++
      [payload.length % 256, payload.length / 256]).length = a.length + 2 + 2 := by
    rw [List.length_append, hp2]
    rfl
  have hlen : D.length = a.length + 2 + 2 + payload.length + b.length := by
    rw [hD3, List.length_append, List.length_append, hp3]
  have hcode : leAt D a.length 2 = code := by
    have := leAt_append_mid a [code % 256, code / 256]
      ([payload.length % 256, payload.length / 256] ++ payload ++ b)
    rw [← hD1] at this
    have h2 : ([code % 256, code / 256] : List Nat).length = 2 := rfl
    rw [h2] at this
    rw [this]
    simp only [leValue]
    omega
  have hlength : leAt D (a.length + 2) 2 = payload.length := by
    have := leAt_append_mid (a ++ [code % 256, code / 256])
      [payload.length % 256, payload.length / 256] (payload ++ b)
    rw [← hD2, hp2] at this
    have h2 : ([payload.length % 256, payload.length / 256] : List Nat).length = 2 := rfl
    rw [h2] at this
    rw [this]
    simp only [leValue]
    omega
  have hpayload : (D.drop (a.length + 2 + 2)).take payload.length = payload := by
    have := drop_take_mid (a ++ [code % 256, code / 256] ++
      [payload.length % 256, payload.length / 256]) payload b
    rw [hp3, ← hD3] at this
    exact this
  have hrest : D.drop (a.length + 2 + 2 + payload.length) = b := by
    have : D = (a ++ [code % 256, code / 256] ++
        [payload.length % 256, payload.length / 256] ++ payload) ++ b := hD3
    rw [this]
    have hl : (a ++ [code % 256, code / 256] ++
        [payload.length % 256, payload.length / 256] ++ payload).length =
        a.length + 2 + 2 + payload.length := by
      rw [List.length_append, hp3]
    rw [← hl, List.drop_left]
  unfold Record.read
  rw [Stream.read_ok D a.length 2 (by omega), hcode]
  simp only
  rw [Stream.read_ok D (a.length + 2) 2 (by omega), hlength]
  simp only
  have hrb : Stream.readBytes ⟨D, a.length + 2 + 2⟩ payload.length =
      some (payload, ⟨D, a.length + 2 + 2 + payload.length⟩) := by
    unfold Stream.readBytes
    rw [if_pos (by simp only; omega)]
    simp only [hpayload]
  rw [hrb]
  simp only
  have hfuel : D.length = (D.length - 1) + 1 := by omega
  rw [hfuel, Record.readContinues, hbytes]
  have hpos : a.length + (4 + payload.length) = a.length + 2 + 2 + payload.length := by omega
  rw [hpos]
  rcases hnext with hb | hb
  · have : Stream.read ⟨D, a.length + 2 + 2 + payload.length⟩ 2 = none := by
      unfold Stream.read
      rw [if_neg (by simp only; omega)]
    rw [this]
  · by_cases hb2 : b.length < 2
    · have : Stream.read ⟨D, a.length + 2 + 2 + payload.length⟩ 2 = none := by
        unfold Stream.read
        rw [if_neg (by simp only; omega)]
      rw [this]
    · rw [Stream.read_ok D _ 2 (by omega)]
      simp only
      have : leAt D (a.length + 2 + 2 + payload.length) 2 = leAt b 0 2 := by
        unfold leAt
        rw [hrest, List.drop_zero]
      rw [this, if_pos hb]

namespace Parser

/-- The loop of `loadSheet` that stands in front of a record for which it has
no case, which no CONTINUE record follows, runs as it does on the stream
without that record. -/
theorem loadSheetLoop_insert (sheetIdx : Nat) (a b : List Nat) (code : Nat)
    (payload : List Nat) (hnext : b.length < 2 ∨ leAt b 0 2 ≠ XL_CONTINUE)
    (h1 : code ≠ XL_LABELSST) (h2 : code ≠ XL_LABEL) (h3 : code ≠ XL_RK) (h4 : code ≠ XL_RK2)
    (h5 : code ≠ XL_MULRK) (h6 : code ≠ XL_NUMBER) (h7 : code ≠ XL_FORMULA)
    (h8 : code ≠ XL_EOF) (h9 : code ≠ XL_UNKNOWN) :
    loadSheetLoop sheetIdx ((a ++ Record.bytes code payload ++ b).length + 1)
        ⟨a ++ Record.bytes code payload ++ b, a.length⟩ =
      loadSheetLoop sheetIdx ((a ++ b).length + 1) ⟨a ++ b, a.length⟩ := by
  have hbytes : (Record.bytes code payload).length = 4 + payload.length := by
    unfold Record.bytes
    rw [List.length_append]
    rfl
  have hread := Record.read_bytes a b code payload hnext
  have hlen : (a ++ Record.bytes code payload ++ b).length =
      a.length + (4 + payload.length) + b.length := by
    rw [List.length_append, List.length_append, hbytes]
  have hsame : Stream.SameRest
      ⟨a ++ Record.bytes code payload ++ b, a.length + (Record.bytes code payload).length⟩
      ⟨a ++ b, a.length⟩ := by
    refine ⟨by simp only; rw [hlen, hbytes]; omega, by simp only [List.length_append]; omega, ?_⟩
    simp only
    have : (a ++ Record.bytes code payload).length =
        a.length + (Record.bytes code payload).length := List.length_append _ _
    rw [← this, List.drop_left, List.drop_left]
  rw [loadSheetLoop, hread]
  simp only
  rw [if_neg h1, if_neg h2, if_neg (by rintro (h | h); exact h3 h; exact h4 h), if_neg h5,
    if_neg h6, if_neg h7, if_neg h8, if_neg h9]
  have hadd := loadSheetLoop_fuel_add sheetIdx (a ++ Record.bytes code payload ++ b).length 1
    ⟨a ++ Record.bytes code payload ++ b, a.length + (Record.bytes code payload).length⟩
    hsame.1 (by simp only; rw [hlen, hbytes]; omega)
  rw [← hadd]
  exact loadSheetLoop_sameRest_length sheetIdx _ _ hsame

end Parser

end Excel

/-! ## Lemmas on a record put in among plain records -/

namespace Excel

theorem leAt_bytes_head (code : Nat) (payload rest : List Nat) :
    leAt (Record.bytes code payload ++ rest) 0 2 = code := by
  unfold leAt Record.bytes
  simp only [List.drop_zero, List.cons_append, List.take_succ_cons, List.take_zero, leValue]
  omega

theorem length_bytes (code : Nat) (payload : List Nat) :
    (Record.bytes code payload).length = 4 + payload.length := by
  unfold Record.bytes
  rw [List.length_append]
  rfl

theorem next_not_continue (rs : List (Nat × List Nat)) (rest : List Nat)
    (hrs : ∀ r ∈ rs, r.1 ≠ XL_CONTINUE)
    (hrest : rest.length < 2 ∨ leAt rest 0 2 ≠ XL_CONTINUE) :
    (encodeRecords rs ++ rest).length < 2 ∨ leAt (encodeRecords rs ++ rest) 0 2 ≠ XL_CONTINUE := by
  cases rs with
  | nil => exact hrest
  | cons r rs =>
    right
    rw [encodeRecords, List.append_assoc, leAt_bytes_head]
    exact hrs r (List.mem_cons_self _ _)

namespace Parser

/-- The loop of `loadSheet` with enough fuel, in front of a record for which it
has no case: it runs as on the stream without that record. -/
theorem loadSheetLoop_insert_fuel (sheetIdx : Nat) (a b : List Nat) (code : Nat)
    (payload : List Nat) (hnext : b.length < 2 ∨ leAt b 0 2 ≠ XL_CONTINUE)
    (h1 : code ≠ XL_LABELSST) (h2 : code ≠ XL_LABEL) (h3 : code ≠ XL_RK) (h4 : code ≠ XL_RK2)
    (h5 : code ≠ XL_MULRK) (h6 : code ≠ XL_NUMBER) (h7 : code ≠ XL_FORMULA)
    (h8 : code ≠ XL_EOF) (h9 : code ≠ XL_UNKNOWN) (f1 f2 : Nat)
    (hf1 : (a ++ Record.bytes code payload ++ b).length < a.length + 4 * f1)
    (hf2 : (a ++ b).length < a.length + 4 * f2) :
    loadSheetLoop sheetIdx f1 ⟨a ++ Record.bytes code payload ++ b, a.length⟩ =
      loadSheetLoop sheetIdx f2 ⟨a ++ b, a.length⟩ := by
  have hb := length_bytes code payload
  have hl1 : (a ++ Record.bytes code payload ++ b).length =
      a.length + (4 + payload.length) + b.length := by
    rw [List.length_append, List.length_append, hb]
  have hl2 : (a ++ b).length = a.length + b.length := List.length_append _ _
  have e1 := loadSheetLoop_fuel_add sheetIdx f1
    ((a ++ Record.bytes code payload ++ b).length + 1)
    ⟨a ++ Record.bytes code payload ++ b, a.length⟩ (by simp only; omega) hf1
  have e2 := loadSheetLoop_fuel_add sheetIdx ((a ++ Record.bytes code payload ++ b).length + 1)
    f1 ⟨a ++ Record.bytes code payload ++ b, a.length⟩ (by simp only; omega)
    (by simp only; omega)
  have e3 := loadSheetLoop_fuel_add sheetIdx f2 ((a ++ b).length + 1) ⟨a ++ b, a.length⟩
    (by simp only; omega) hf2
  have e4 := loadSheetLoop_fuel_add sheetIdx ((a ++ b).length + 1) f2 ⟨a ++ b, a.length⟩
    (by simp only; omega) (by simp only; omega)
  rw [← e1, Nat.add_comm f1, e2, ← e3, Nat.add_comm f2, e4]
  exact loadSheetLoop_insert sheetIdx a b code payload hnext h1 h2 h3 h4 h5 h6 h7 h8 h9

/-- A record for which the loop of `loadSheet` has no case, put in behind the
records `rs`, of which the last is no formula with a string to come: the loop
with enough fuel runs as on the stream without it. -/
theorem loadSheetLoop_insert_behind (sheetIdx : Nat) (code : Nat) (payload rest : List Nat)
    (hrest : rest.length < 2 ∨ leAt rest 0 2 ≠ XL_CONTINUE)
    (h0 : code ≠ XL_CONTINUE)
    (h1 : code ≠ XL_LABELSST) (h2 : code ≠ XL_LABEL) (h3 : code ≠ XL_RK) (h4 : code ≠ XL_RK2)
    (h5 : code ≠ XL_MULRK) (h6 : code ≠ XL_NUMBER) (h7 : code ≠ XL_FORMULA)
    (h8 : code ≠ XL_EOF) (h9 : code ≠ XL_UNKNOWN) :
    ∀ (n : Nat) (rs : List (Nat × List Nat)), rs.length ≤ n →
      (∀ r ∈ rs, r.1 ≠ XL_CONTINUE) →
      (∀ r, rs.getLast? = some r → ¬ StringFormula r) →
      ∀ (a : List Nat) (f1 f2 : Nat),
        (a ++ encodeRecords rs ++ Record.bytes code payload ++ rest).length <
          a.length + 4 * f1 →
        (a ++ encodeRecords rs ++ rest).length < a.length + 4 * f2 →
        loadSheetLoop sheetIdx f1
            ⟨a ++ encodeRecords rs ++ Record.bytes code payload ++ rest, a.length⟩ =
          loadSheetLoop sheetIdx f2 ⟨a ++ encodeRecords rs ++ rest, a.length⟩ := by
  have hxrest : ∀ q : List Nat, (Record.bytes code payload ++ q).length < 2 ∨
      leAt (Record.bytes code payload ++ q) 0 2 ≠ XL_CONTINUE := by
    intro q
    right
    rw [leAt_bytes_head]
    exact h0
  intro n
  induction n with
  | zero =>
    intro rs hn _ _ a f1 f2 hf1 hf2
    have hrs : rs = [] := List.length_eq_zero.mp (Nat.le_zero.mp hn)
    subst hrs
    simp only [encodeRecords, List.append_nil] at hf1 hf2 ⊢
    exact loadSheetLoop_insert_fuel sheetIdx a rest code payload hrest h1 h2 h3 h4 h5 h6 h7 h8
      h9 f1 f2 hf1 hf2
  | succ n ih =>
    intro rs hn hcont hlast a f1 f2 hf1 hf2
    cases rs with
    | nil =>
      simp only [encodeRecords, List.append_nil] at hf1 hf2 ⊢
      exact loadSheetLoop_insert_fuel sheetIdx a rest code payload hrest h1 h2 h3 h4 h5 h6 h7
        h8 h9 f1 f2 hf1 hf2
    | cons r rs =>
      obtain ⟨c, pl⟩ := r
      have hlen : rs.length ≤ n := by
        rw [List.length_cons] at hn
        omega
      have hcont2 : ∀ r ∈ rs, r.1 ≠ XL_CONTINUE := fun r hr => hcont r (List.mem_cons_of_mem _ hr)
      have hb := length_bytes c pl
      -- the two streams, with the first record set apart
      have hD : a ++ encodeRecords ((c, pl) :: rs) ++ Record.bytes code payload ++ rest =
          a ++ Record.bytes c pl ++ (encodeRecords rs ++ Record.bytes code payload ++ rest) := by
        simp only [encodeRecords, List.append_assoc]
      have hD' : a ++ encodeRecords ((c, pl) :: rs) ++ rest =
          a ++ Record.bytes c pl ++ (encodeRecords rs ++ rest) := by
        simp only [encodeRecords, List.append_assoc]
      rw [hD] at hf1 ⊢
      rw [hD'] at hf2 ⊢
      have hnD : (encodeRecords rs ++ Record.bytes code payload ++ rest).length < 2 ∨
          leAt (encodeRecords rs ++ Record.bytes code payload ++ rest) 0 2 ≠ XL_CONTINUE := by
        rw [List.append_assoc]
        exact next_not_continue rs _ hcont2 (hxrest rest)
      have hnD' := next_not_continue rs rest hcont2 hrest
      have hr1 := Record.read_bytes a _ c pl hnD
      have hr2 := Record.read_bytes a _ c pl hnD'
      -- the streams behind the first record, as the induction takes them
      have hE : a ++ Record.bytes c pl ++
            (encodeRecords rs ++ Record.bytes code payload ++ rest) =
          (a ++ Record.bytes c pl) ++ encodeRecords rs ++ Record.bytes code payload ++ rest := by
        simp only [List.append_assoc]
      have hE' : a ++ Record.bytes c pl ++ (encodeRecords rs ++ rest) =
          (a ++ Record.bytes c pl) ++ encodeRecords rs ++ rest := by
        simp only [List.append_assoc]
      have hpa : (a ++ Record.bytes c pl).length = a.length + (Record.bytes c pl).length :=
        List.length_append _ _
      obtain ⟨g1, rfl⟩ : ∃ g, f1 = g + 1 := ⟨f1 - 1, by
        have : (a ++ Record.bytes c pl ++
          (encodeRecords rs ++ Record.bytes code payload ++ rest)).length ≥ a.length := by
          rw [List.length_append, List.length_append]; omega
        omega⟩
      obtain ⟨g2, rfl⟩ : ∃ g, f2 = g + 1 := ⟨f2 - 1, by
        have : (a ++ Record.bytes c pl ++ (encodeRecords rs ++ rest)).length ≥ a.length := by
          rw [List.length_append, List.length_append]; omega
        omega⟩
      have hnext : (∀ r, rs.getLast? = some r → ¬ StringFormula r) →
          loadSheetLoop sheetIdx g1
              ⟨a ++ Record.bytes c pl ++ (encodeRecords rs ++ Record.bytes code payload ++ rest),
                a.length + (Record.bytes c pl).length⟩ =
            loadSheetLoop sheetIdx g2 ⟨a ++ Record.bytes c pl ++ (encodeRecords rs ++ rest),
              a.length + (Record.bytes c pl).length⟩ := by
        intro hl
        rw [hE, hE', ← hpa]
        apply ih rs hlen hcont2 hl (a ++ Record.bytes c pl) g1 g2
        · rw [← hE, hpa, hb]; omega
        · rw [← hE', hpa, hb]; omega
      have hlastnil : rs = [] → ¬ StringFormula (c, pl) := by
        intro hnil
        apply hlast
        rw [hnil]
        rfl
      have hl : ∀ r, rs.getLast? = some r → ¬ StringFormula r := by
        intro r hr
        cases rs with
        | nil => exact absurd hr (by simp)
        | cons q rs =>
          apply hlast r
          rw [List.getLast?_cons_cons]
          exact hr
      have hgo := hnext hl
      have hform : c = XL_FORMULA →
          (match handleFORMULA ⟨c, pl, []⟩
              ⟨a ++ Record.bytes c pl ++ (encodeRecords rs ++ Record.bytes code payload ++ rest),
                a.length + (Record.bytes c pl).length⟩ sheetIdx with
            | none => (([], Outcome.unspecified) : List Event × Outcome)
            | some (events, stream) => Outcome.after events (loadSheetLoop sheetIdx g1 stream)) =
          (match handleFORMULA ⟨c, pl, []⟩
              ⟨a ++ Record.bytes c pl ++ (encodeRecords rs ++ rest),
                a.length + (Record.bytes c pl).length⟩ sheetIdx with
            | none => (([], Outcome.unspecified) : List Event × Outcome)
            | some (events, stream) => Outcome.after events (loadSheetLoop sheetIdx g2 stream)) := by
        intro c6
        unfold handleFORMULA
        cases hf : Formula.parse ⟨c, pl, []⟩ with
        | none => rfl
        | some f =>
          simp only
          by_cases hs : f.valueType = Formula.ValueType.StringValue
          · rw [if_pos hs, if_pos hs]
            cases rs with
            | nil => exact absurd ⟨c6, f, hf, hs⟩ (hlastnil rfl)
            | cons q rs =>
              obtain ⟨c2', pl2⟩ := q
              have hlen2 : rs.length ≤ n := by
                rw [List.length_cons] at hlen
                omega
              have hcont3 : ∀ r ∈ rs, r.1 ≠ XL_CONTINUE :=
                fun r hr => hcont2 r (List.mem_cons_of_mem _ hr)
              have hb2 := length_bytes c2' pl2
              have hF : a ++ Record.bytes c pl ++
                    (encodeRecords ((c2', pl2) :: rs) ++ Record.bytes code payload ++ rest) =
                  (a ++ Record.bytes c pl) ++ Record.bytes c2' pl2 ++
                    (encodeRecords rs ++ Record.bytes code payload ++ rest) := by
                simp only [encodeRecords, List.append_assoc]
              have hF' : a ++ Record.bytes c pl ++ (encodeRecords ((c2', pl2) :: rs) ++ rest) =
                  (a ++ Record.bytes c pl) ++ Record.bytes c2' pl2 ++
                    (encodeRecords rs ++ rest) := by
                simp only [encodeRecords, List.append_assoc]
              have hmD : (encodeRecords rs ++ Record.bytes code payload ++ rest).length < 2 ∨
                  leAt (encodeRecords rs ++ Record.bytes code payload ++ rest) 0 2 ≠
                    XL_CONTINUE := by
                rw [List.append_assoc]
                exact next_not_continue rs _ hcont3 (hxrest rest)
              have hmD' := next_not_continue rs rest hcont3 hrest
              have hq1 := Record.read_bytes (a ++ Record.bytes c pl) _ c2' pl2 hmD
              have hq2 := Record.read_bytes (a ++ Record.bytes c pl) _ c2' pl2 hmD'
              rw [← hF, hpa] at hq1
              rw [← hF', hpa] at hq2
              rw [hq1, hq2]
              simp only
              cases loadString (Record.dataStream ⟨c2', pl2, []⟩) [] 2 BiffVersion.BIFF8 with
              | none => rfl
              | some out =>
                simp only
                have hG : a ++ Record.bytes c pl ++
                      (encodeRecords ((c2', pl2) :: rs) ++ Record.bytes code payload ++ rest) =
                    (a ++ Record.bytes c pl ++ Record.bytes c2' pl2) ++ encodeRecords rs ++
                      Record.bytes code payload ++ rest := by
                  simp only [encodeRecords, List.append_assoc]
                have hG' : a ++ Record.bytes c pl ++
                      (encodeRecords ((c2', pl2) :: rs) ++ rest) =
                    (a ++ Record.bytes c pl ++ Record.bytes c2' pl2) ++ encodeRecords rs ++
                      rest := by
                  simp only [encodeRecords, List.append_assoc]
                have hpb : (a ++ Record.bytes c pl ++ Record.bytes c2' pl2).length =
                    a.length + (Record.bytes c pl).length + (Record.bytes c2' pl2).length := by
                  rw [List.length_append, hpa]
                have hl3 : ∀ r, rs.getLast? = some r → ¬ StringFormula r := by
                  intro r hr
                  cases rs with
                  | nil => exact absurd hr (by simp)
                  | cons q2 rs =>
                    apply hl r
                    rw [List.getLast?_cons_cons]
                    exact hr
                have hgo2 : loadSheetLoop sheetIdx g1
                      ⟨a ++ Record.bytes c pl ++
                        (encodeRecords ((c2', pl2) :: rs) ++ Record.bytes code payload ++ rest),
                        a.length + (Record.bytes c pl).length +
                          (Record.bytes c2' pl2).length⟩ =
                    loadSheetLoop sheetIdx g2
                      ⟨a ++ Record.bytes c pl ++ (encodeRecords ((c2', pl2) :: rs) ++ rest),
                        a.length + (Record.bytes c pl).length +
                          (Record.bytes c2' pl2).length⟩ := by
                  rw [hG, hG', ← hpb]
                  apply ih rs hlen2 hcont3 hl3 _ g1 g2
                  · rw [← hG, hpb, hb, hb2]; omega
                  · rw [← hG', hpb, hb, hb2]; omega
                rw [hgo2]
          · rw [if_neg hs, if_neg hs]
            simp only
            rw [hgo]
      rw [loadSheetLoop, loadSheetLoop, hr1, hr2]
      simp only
      rw [hgo]
      by_cases hc : c = XL_FORMULA
      · have n1 : c ≠ XL_LABELSST := by rw [hc]; decide
        have n2 : c ≠ XL_LABEL := by rw [hc]; decide
        have n3 : ¬ (c = XL_RK ∨ c = XL_RK2) := by rw [hc]; decide
        have n4 : c ≠ XL_MULRK := by rw [hc]; decide
        have n5 : c ≠ XL_NUMBER := by rw [hc]; decide
        simp only [if_neg n1, if_neg n2, if_neg n3, if_neg n4, if_neg n5, if_pos hc]
        exact hform hc
      · simp only [if_neg hc]

/-- A sheet of plain records behind its BOF record of BIFF8: a record for
which the loop of `loadSheet` has no case, put in behind the records `rs`, of
which the last is no formula with a string to come, leaves the callbacks and
the outcome of `loadSheet` as they are. -/
theorem loadSheet_insert_behind (sheetIdx : Nat) (boundSheet : BoundSheet)
    (pre bof : List Nat) (rs : List (Nat × List Nat)) (code : Nat) (payload rest : List Nat)
    (p1 p2 : Nat)
    (hpos : boundSheet.BOFPosition = (pre.length : Int))
    (hbof : 2 ≤ bof.length) (hver : leAt bof 0 2 = 0x0600)
    (hrest : rest.length < 2 ∨ leAt rest 0 2 ≠ XL_CONTINUE)
    (hcont : ∀ r ∈ rs, r.1 ≠ XL_CONTINUE)
    (hlast : ∀ r, rs.getLast? = some r → ¬ StringFormula r)
    (h0 : code ≠ XL_CONTINUE)
    (h1 : code ≠ XL_LABELSST) (h2 : code ≠ XL_LABEL) (h3 : code ≠ XL_RK) (h4 : code ≠ XL_RK2)
    (h5 : code ≠ XL_MULRK) (h6 : code ≠ XL_NUMBER) (h7 : code ≠ XL_FORMULA)
    (h8 : code ≠ XL_EOF) (h9 : code ≠ XL_UNKNOWN) :
    loadSheet sheetIdx boundSheet
        ⟨pre ++ Record.bytes XL_BOF bof ++ encodeRecords rs ++ Record.bytes code payload ++ rest,
          p1⟩ =
      loadSheet sheetIdx boundSheet
        ⟨pre ++ Record.bytes XL_BOF bof ++ encodeRecords rs ++ rest, p2⟩ := by
  have hxrest : (Record.bytes code payload ++ rest).length < 2 ∨
      leAt (Record.bytes code payload ++ rest) 0 2 ≠ XL_CONTINUE := by
    right
    rw [leAt_bytes_head]
    exact h0
  have hb := length_bytes XL_BOF bof
  have hD : pre ++ Record.bytes XL_BOF bof ++ encodeRecords rs ++ Record.bytes code payload ++
        rest =
      pre ++ Record.bytes XL_BOF bof ++ (encodeRecords rs ++ (Record.bytes code payload ++ rest)) := by
    simp only [List.append_assoc]
  have hD' : pre ++ Record.bytes XL_BOF bof ++ encodeRecords rs ++ rest =
      pre ++ Record.bytes XL_BOF bof ++ (encodeRecords rs ++ rest) := by
    simp only [List.append_assoc]
  have hr1 := Record.read_bytes pre _ XL_BOF bof (next_not_continue rs _ hcont hxrest)
  have hr2 := Record.read_bytes pre _ XL_BOF bof (next_not_continue rs rest hcont hrest)
  rw [← hD] at hr1
  rw [← hD'] at hr2
  have hpa : (pre ++ Record.bytes XL_BOF bof).length =
      pre.length + (Record.bytes XL_BOF bof).length := List.length_append _ _
  have hl1 : pre.length ≤ (pre ++ Record.bytes XL_BOF bof ++ encodeRecords rs ++
      Record.bytes code payload ++ rest).length := by
    simp only [List.length_append]
    omega
  have hl2 : pre.length ≤ (pre ++ Record.bytes XL_BOF bof ++ encodeRecords rs ++ rest).length := by
    simp only [List.length_append]
    omega
  rw [loadSheet_eq_loop sheetIdx boundSheet _ pre.length hpos hl1
      (by simp only; rw [hr1]; exact hbof) (by simp only; rw [hr1]; exact hver),
    loadSheet_eq_loop sheetIdx boundSheet _ pre.length hpos hl2
      (by simp only; rw [hr2]; exact hbof) (by simp only; rw [hr2]; exact hver)]
  simp only
  rw [hr1, hr2]
  simp only
  rw [← hpa]
  apply loadSheetLoop_insert_behind sheetIdx code payload rest hrest h0 h1 h2 h3 h4 h5 h6 h7 h8 h9
    rs.length rs (Nat.le_refl _) hcont hlast
  · have : (pre ++ Record.bytes XL_BOF bof).length ≤ (pre ++ Record.bytes XL_BOF bof ++
        encodeRecords rs ++ Record.bytes code payload ++ rest).length := by
      simp only [List.length_append]
      omega
    omega
  · have : (pre ++ Record.bytes XL_BOF bof).length ≤ (pre ++ Record.bytes XL_BOF bof ++
        encodeRecords rs ++ rest).length := by
      simp only [List.length_append]
      omega
    omega

end Parser

end Excel

/-! ## Lemmas on the sheet at which `loadWorkSheets` ends -/

namespace Excel

namespace Parser

/-- The loop of `loadWorkSheets` returns on bound sheets of which every
worksheet loads. -/
theorem loadWorkSheetsFrom_returns (stream : Stream) :
    ∀ (pre : List BoundSheet) (k : Nat),
      (∀ j x, pre[j]? = some x → x.sheetType = SheetType.WorkSheet →
        (loadSheet (k + j) x stream).2 = Outcome.returned) →
      (loadWorkSheetsFrom stream k pre).2 = Outcome.returned := by
  intro pre
  induction pre with
  | nil =>
    intro k _
    rfl
  | cons x pre ih =>
    intro k h
    have hrest : ∀ j y, pre[j]? = some y → y.sheetType = SheetType.WorkSheet →
        (loadSheet (k + 1 + j) y stream).2 = Outcome.returned := by
      intro j y hj hy
      have := h (j + 1) y (by rw [List.getElem?_cons_succ]; exact hj) hy
      rw [show k + 1 + j = k + (j + 1) by omega]
      exact this
    rw [loadWorkSheetsFrom]
    split_ifs with hw hr
    · rw [after_outcome]
      exact ih (k + 1) hrest
    · exact absurd (h 0 x List.getElem?_cons_zero hw) hr
    · exact ih (k + 1) hrest

/-- The loop of `loadWorkSheets` ends at the first worksheet that does not
load: the callbacks are those of the bound sheets before it, its `onSheet` and
the callbacks of its `loadSheet`, and the run ends as that `loadSheet` does;
the bound sheets behind it are not looked at. -/
theorem loadWorkSheetsFrom_stops (stream : Stream) :
    ∀ (pre : List BoundSheet) (k : Nat) (b : BoundSheet) (post : List BoundSheet),
      b.sheetType = SheetType.WorkSheet →
      (loadSheet (k + pre.length) b stream).2 ≠ Outcome.returned →
      (∀ j x, pre[j]? = some x → x.sheetType = SheetType.WorkSheet →
        (loadSheet (k + j) x stream).2 = Outcome.returned) →
      loadWorkSheetsFrom stream k (pre ++ b :: post) =
        ((loadWorkSheetsFrom stream k pre).1 ++
            Event.onSheet (k + pre.length) b.sheetName ::
              (loadSheet (k + pre.length) b stream).1,
          (loadSheet (k + pre.length) b stream).2) := by
  intro pre
  induction pre with
  | nil =>
    intro k b post hw hr _
    have hr2 : (loadSheet k b stream).2 ≠ Outcome.returned := hr
    have e : loadWorkSheetsFrom stream k (b :: post) =
        (Event.onSheet k b.sheetName :: (loadSheet k b stream).1, (loadSheet k b stream).2) := by
      rw [loadWorkSheetsFrom, if_pos hw, if_neg hr2]
    rw [List.nil_append, e]
    rfl
  | cons x pre ih =>
    intro k b post hw hr h
    have hrest : ∀ j y, pre[j]? = some y → y.sheetType = SheetType.WorkSheet →
        (loadSheet (k + 1 + j) y stream).2 = Outcome.returned := by
      intro j y hj hy
      have := h (j + 1) y (by rw [List.getElem?_cons_succ]; exact hj) hy
      rw [show k + 1 + j = k + (j + 1) by omega]
      exact this
    have hidx : k + (x :: pre).length = k + 1 + pre.length := by
      rw [List.length_cons]
      omega
    rw [hidx] at hr ⊢
    have hgo := ih (k + 1) b post hw hr hrest
    rw [List.cons_append, loadWorkSheetsFrom, loadWorkSheetsFrom, hgo]
    split_ifs with hx hxr
    · simp only [Outcome.after, List.cons_append, List.append_assoc]
    · exact absurd (h 0 x List.getElem?_cons_zero hx) hxr
    · rfl

theorem workSheets_index_lt (boundSheets : List BoundSheet) (i : Nat) (name : List Nat)
    (h : (i, name) ∈ workSheets boundSheets) : i < boundSheets.length := by
  unfold workSheets at h
  rw [List.mem_map] at h
  obtain ⟨p, hp, he⟩ := h
  have hp2 := (List.mem_filter.mp hp).1
  obtain ⟨j, x⟩ := p
  have := List.fst_lt_of_mem_enum hp2
  simp only [Prod.mk.injEq] at he
  rw [← he.1]
  exact this

theorem workSheets_append_workSheet (pre : List BoundSheet) (b : BoundSheet)
    (hw : b.sheetType = SheetType.WorkSheet) :
    workSheets (pre ++ [b]) = workSheets pre ++ [(pre.length, b.sheetName)] := by
  unfold workSheets
  rw [List.enum, List.enumFrom_append, List.filter_append, List.map_append]
  simp only [List.enumFrom_cons, List.enumFrom_nil, List.filter_cons, List.filter_nil,
    decide_eq_true hw, if_true, List.map_cons, List.map_nil, Nat.zero_add]

/-- The run of `loadWorkSheets` on bound sheets of which the worksheet `b`,
behind the bound sheets `pre`, is the first that does not load. -/
theorem loadWorkSheets_stops (stream : Stream) (pre post : List BoundSheet) (b : BoundSheet)
    (hw : b.sheetType = SheetType.WorkSheet)
    (hr : (loadSheet pre.length b stream).2 ≠ Outcome.returned)
    (hpre : ∀ j x, pre[j]? = some x → x.sheetType = SheetType.WorkSheet →
      (loadSheet j x stream).2 = Outcome.returned) :
    (loadWorkSheets (pre ++ b :: post) stream).2 = (loadSheet pre.length b stream).2 ∧
    (loadWorkSheets (pre ++ b :: post) stream).1 =
      (loadWorkSheets pre stream).1 ++
        Event.onSheet pre.length b.sheetName :: (loadSheet pre.length b stream).1 ∧
    (loadWorkSheets (pre ++ b :: post) stream).1.filterMap Event.sheetCall =
      workSheets (pre ++ [b]) ∧
    ∀ j name, pre.length < j →
      Event.onSheet j name ∉ (loadWorkSheets (pre ++ b :: post) stream).1 := by
  have hr0 : (loadSheet (0 + pre.length) b stream).2 ≠ Outcome.returned := by
    rw [Nat.zero_add]
    exact hr
  have hpre0 : ∀ j x, pre[j]? = some x → x.sheetType = SheetType.WorkSheet →
      (loadSheet (0 + j) x stream).2 = Outcome.returned := by
    intro j x hj hx
    rw [Nat.zero_add]
    exact hpre j x hj hx
  have hrun := loadWorkSheetsFrom_stops stream pre 0 b post hw hr0 hpre0
  rw [Nat.zero_add] at hrun
  have hret := loadWorkSheetsFrom_returns stream pre 0 hpre0
  have hcalls : (loadWorkSheets (pre ++ b :: post) stream).1.filterMap Event.sheetCall =
      workSheets (pre ++ [b]) := by
    unfold loadWorkSheets
    rw [hrun, workSheets_append_workSheet pre b hw]
    simp only [List.filterMap_append, List.filterMap_cons, Event.sheetCall]
    rw [(sheetCalls_loadWorkSheetsFrom stream pre 0).2 hret,
      filterMap_sheetCall_cells pre.length _ (loadSheet_cellSheet pre.length b stream)]
    rfl
  refine ⟨?_, ?_, hcalls, ?_⟩
  · unfold loadWorkSheets
    rw [hrun]
  · unfold loadWorkSheets
    rw [hrun]
  · intro j name hj hmem
    have hin : (j, name) ∈
        (loadWorkSheets (pre ++ b :: post) stream).1.filterMap Event.sheetCall :=
      List.mem_filterMap.mpr ⟨_, hmem, rfl⟩
    rw [hcalls] at hin
    have := workSheets_index_lt _ j name hin
    rw [List.length_append] at this
    simp only [List.length_cons, List.length_nil] at this
    omega

end Parser

end Excel

/-! ## Theorems on the specification -/

theorem and_two_of_and_three (rk v : Nat) (h : rk &&& 3 = v) : rk &&& 2 = v &&& 2 := by
  have : rk &&& 2 = (rk &&& 3) &&& 2 := by
    rw [Nat.and_assoc, show (3 &&& 2 : Nat) = 2 by decide]
  rw [this, h]

theorem and_one_of_and_three (rk v : Nat) (h : rk &&& 3 = v) : rk &&& 1 = v &&& 1 := by
  have : rk &&& 1 = (rk &&& 3) &&& 1 := by
    rw [Nat.and_assoc, show (3 &&& 1 : Nat) = 1 by decide]
  rw [this, h]

/-- C1: a 32-bit word `rk` with the integer flag set and the divide flag clear
decodes to the integer `rk >> 2` converted, exactly, to a double; the word 2
gives +0.0 and `(100 << 2) | 2` gives 100.0. -/
theorem C1_doubleFromRK_integer :
    (∀ rk : Nat, rk < 2 ^ 32 → rk &&& 3 = 2 →
      doubleFromRK rk = F64.ofNat (rk >>> 2) ∧
      F64.toRat (doubleFromRK rk) = some ((rk >>> 2 : Nat) : ℚ)) ∧
    doubleFromRK 0x00000002 = 0 ∧
    doubleFromRK ((100 <<< 2) ||| 0x02) = 0x4059000000000000 ∧
    F64.toRat 0 = some 0 ∧ F64.toRat 0x4059000000000000 = some 100 := by
  refine ⟨?_, by decide, by decide, ?_, ?_⟩
  · intro rk hrk hf
    have h2 : rk &&& 2 = 2 := and_two_of_and_three rk 2 hf
    have h1 : rk &&& 1 = 0 := and_one_of_and_three rk 2 hf
    have hd : doubleFromRK rk = F64.ofNat (rk >>> 2) := by
      unfold doubleFromRK
      simp [h1, h2]
    refine ⟨hd, ?_⟩
    rw [hd]
    apply F64.toRat_ofNat
    rw [Nat.shiftRight_eq_div_pow]
    omega
  · norm_num [F64.toRat, F64.expField, F64.sign, F64.sig, F64.frac]
  · norm_num [F64.toRat, F64.expField, F64.sign, F64.sig, F64.frac, F64.exp2]

theorem C1_doubleFromRK_integer_witness :
    doubleFromRK 30 = F64.ofNat (30 >>> 2) ∧
      F64.toRat (doubleFromRK 30) = some ((30 >>> 2 : Nat) : ℚ) :=
  C1_doubleFromRK_integer.1 30 (by decide) (by decide)

/-- C2: a 32-bit word `rk` with both flags set decodes to the double quotient of
`rk >> 2` by 100, a finite double within a relative error of `2 ^ -53` of the
rational `(rk >> 2) / 100`; when `rk >> 2` is a multiple of 100 it is exactly
the integer `(rk >> 2) / 100`; `(100 << 2) | 3` gives 1.0 and 3 gives +0.0. -/
theorem C2_doubleFromRK_integer_div100 :
    (∀ rk : Nat, rk < 2 ^ 32 → rk &&& 3 = 3 →
      doubleFromRK rk = F64.div (F64.ofNat (rk >>> 2)) (F64.ofNat 100) ∧
      (∃ v : ℚ, F64.toRat (doubleFromRK rk) = some v ∧
        |v - ((rk >>> 2 : Nat) : ℚ) / 100| ≤ ((rk >>> 2 : Nat) : ℚ) / 100 / 2 ^ 53) ∧
      (100 ∣ rk >>> 2 →
        doubleFromRK rk = F64.ofNat ((rk >>> 2) / 100) ∧
        F64.toRat (doubleFromRK rk) = some (((rk >>> 2) / 100 : Nat) : ℚ))) ∧
    doubleFromRK ((100 <<< 2) ||| 0x03) = 0x3FF0000000000000 ∧
    doubleFromRK 0x00000003 = 0 ∧
    F64.toRat 0x3FF0000000000000 = some 1 := by
  refine ⟨?_, by decide, by decide, ?_⟩
  · intro rk hrk hf
    have h2 : rk &&& 2 = 2 := and_two_of_and_three rk 3 hf
    have h1 : rk &&& 1 = 1 := and_one_of_and_three rk 3 hf
    have hd : doubleFromRK rk = F64.div (F64.ofNat (rk >>> 2)) (F64.ofNat 100) := by
      unfold doubleFromRK
      simp [h1, h2]
    have hlt : rk >>> 2 < 2 ^ 30 := by
      rw [Nat.shiftRight_eq_div_pow]; omega
    refine ⟨hd, ?_, ?_⟩
    · rw [hd]
      exact F64.div_ofNat_hundred_accurate (rk >>> 2) (by omega)
    · intro hdvd
      obtain ⟨k, hk⟩ := hdvd
      have hq : F64.div (F64.ofNat (rk >>> 2)) (F64.ofNat 100) = F64.ofNat k := by
        rw [hk]; exact F64.div_ofNat_hundred k (by omega)
      have hk2 : (rk >>> 2) / 100 = k := by omega
      rw [hd, hq, hk2]
      exact ⟨rfl, F64.toRat_ofNat k (by omega)⟩
  · norm_num [F64.toRat, F64.expField, F64.sign, F64.sig, F64.frac, F64.exp2]

theorem C2_doubleFromRK_integer_div100_witness :
    doubleFromRK 1203 = F64.div (F64.ofNat (1203 >>> 2)) (F64.ofNat 100) ∧
      (∃ v : ℚ, F64.toRat (doubleFromRK 1203) = some v ∧
        |v - ((1203 >>> 2 : Nat) : ℚ) / 100| ≤ ((1203 >>> 2 : Nat) : ℚ) / 100 / 2 ^ 53) ∧
      (100 ∣ 1203 >>> 2 →
        doubleFromRK 1203 = F64.ofNat ((1203 >>> 2) / 100) ∧
        F64.toRat (doubleFromRK 1203) = some (((1203 >>> 2) / 100 : Nat) : ℚ)) :=
  C2_doubleFromRK_integer_div100.1 1203 (by decide) (by decide)

/-- C3: a 32-bit word `rk` with both flags clear decodes to the double whose
high 32 bits are `rk & 0xFFFFFFFC` and whose low 32 bits are 0; `0x3FF00000`
gives 1.0. -/
theorem C3_doubleFromRK_ieee :
    (∀ rk : Nat, rk < 2 ^ 32 → rk &&& 3 = 0 →
      doubleFromRK rk = (rk &&& 0xFFFFFFFC) * 2 ^ 32 ∧
      doubleFromRK rk / 2 ^ 32 = rk &&& 0xFFFFFFFC ∧
      doubleFromRK rk % 2 ^ 32 = 0 ∧
      doubleFromRK rk < 2 ^ 64) ∧
    doubleFromRK 0x3FF00000 = 0x3FF0000000000000 ∧
    F64.toRat 0x3FF0000000000000 = some 1 := by
  refine ⟨?_, by decide, ?_⟩
  · intro rk hrk hf
    have h2 : rk &&& 2 = 0 := and_two_of_and_three rk 0 hf
    have h1 : rk &&& 1 = 0 := and_one_of_and_three rk 0 hf
    have hd : doubleFromRK rk = (rk &&& 0xFFFFFFFC) * 2 ^ 32 := by
      unfold doubleFromRK F64.ofWords
      simp [h1, h2]
    have hle : rk &&& 0xFFFFFFFC ≤ 0xFFFFFFFC := Nat.and_le_right
    rw [hd]
    refine ⟨rfl, ?_, ?_, ?_⟩
    · exact Nat.mul_div_cancel _ (by norm_num)
    · exact Nat.mul_mod_left _ _
    · omega
  · norm_num [F64.toRat, F64.expField, F64.sign, F64.sig, F64.frac, F64.exp2]

theorem C3_doubleFromRK_ieee_witness :
    doubleFromRK 8 = (8 &&& 0xFFFFFFFC) * 2 ^ 32 ∧
      doubleFromRK 8 / 2 ^ 32 = 8 &&& 0xFFFFFFFC ∧
      doubleFromRK 8 % 2 ^ 32 = 0 ∧
      doubleFromRK 8 < 2 ^ 64 :=
  C3_doubleFromRK_ieee.1 8 (by decide) (by decide)

/-- C4, at a failing input: the MULRK payload `00 80 | 00 00 | 00 00 02 00 00 00 |
00 00` holds row 32768, columns 0 to 0 and one RK word, 2. `handleMULRK` reads
the row into an `int16_t` and passes -32768, which a `size_t` parameter
receives as `2 ^ 64 - 32768`; the cell is not reported at row 32768. The count
is an `int16_t` as well: of the 32768 cells of `wideMULRK`, columns 0 to 32767
of row 0, none is reported. -/
theorem C4_handleMULRK_row_32768 :
    leAt [0x00, 0x80, 0x00, 0x00, 0x00, 0x00, 0x02, 0x00, 0x00, 0x00, 0x00, 0x00] 0 2 = 32768 ∧
    Excel.Parser.handleMULRK
        ⟨0x00BD, [0x00, 0x80, 0x00, 0x00, 0x00, 0x00, 0x02, 0x00, 0x00, 0x00, 0x00, 0x00], []⟩ 0
      = some [Excel.Event.onCellDouble 0 (-32768) 0 (doubleFromRK 2)] ∧
    toSizeT (-32768) = 2 ^ 64 - 32768 ∧
    wideMULRK.length = 6 + 6 * 32768 ∧ leAt wideMULRK 2 2 = 0 ∧
    leAt wideMULRK (4 + 6 * 32768) 2 = 0 + 32768 - 1 ∧
    Excel.Parser.handleMULRK ⟨0x00BD, wideMULRK, []⟩ 0 = some [] := by
  refine ⟨by decide, by decide, by decide, wideMULRK_fields.1, wideMULRK_fields.2.1,
    wideMULRK_fields.2.2, ?_⟩
  exact Excel.Parser.handleMULRK_count_overflow _ _ _ _ wideMULRK_fields.1
    wideMULRK_fields.2.1 wideMULRK_fields.2.2

/-- C5, at a failing input: the LABELSST payload `00 80 | 00 00 | 00 00 |
07 00 00 00` holds row 32768, column 0 and string 7. `handleLabelSST` reads the
row into an `int16_t` and passes -32768, which a `size_t` parameter receives as
`2 ^ 64 - 32768`, not the unsigned 32768. -/
theorem C5_handleLabelSST_row_32768 :
    leAt [0x00, 0x80, 0x00, 0x00, 0x00, 0x00, 0x07, 0x00, 0x00, 0x00] 0 2 = 32768 ∧
    Excel.Parser.handleLabelSST
        ⟨0x00FD, [0x00, 0x80, 0x00, 0x00, 0x00, 0x00, 0x07, 0x00, 0x00, 0x00], []⟩ 0
      = some [Excel.Event.onCellSharedString 0 (-32768) 0 7] ∧
    toSizeT (-32768) = 2 ^ 64 - 32768 := by
  decide

/-- C6: `Header::load` throws the wrong-identifier exception exactly when the
first 8 bytes of the input are not `D0 CF 11 E0 A1 B1 1A E1`; an input of fewer
than 8 bytes is among those it rejects. -/
theorem C6_load_bad_magic (input : List Nat) :
    (CompoundFile.Header.load (IStream.ofBytes input)
        = some (.error CompoundFile.wrongFileIdentifier) ↔
      input.take 8 ≠ [0xD0, 0xCF, 0x11, 0xE0, 0xA1, 0xB1, 0x1A, 0xE1]) ∧
    (input.length < 8 →
      CompoundFile.Header.load (IStream.ofBytes input)
        = some (.error CompoundFile.wrongFileIdentifier)) := by
  have key := CompoundFile.load_error_iff input
  refine ⟨key, ?_⟩
  intro hlen
  apply key.2
  intro h
  have : (input.take 8).length = 8 := by rw [h]; rfl
  simp only [List.length_take] at this
  omega

theorem C6_load_bad_magic_witness :
    CompoundFile.Header.load (IStream.ofBytes [0xD0, 0xCF, 0x11]) =
      some (.error CompoundFile.wrongFileIdentifier) :=
  (C6_load_bad_magic [0xD0, 0xCF, 0x11]).2 (by decide)

/-- C7: on an input of at least 76 bytes that starts with the identifier,
`Header::load` returns with the sector size `2 ^ p` and the short-sector size
`2 ^ q`, for `p` and `q` the 16-bit values at offsets 30 and 32 when these are
at most 30, and with the seven 32-bit members equal to the signed values at
offsets 44, 48, 56, 60, 64, 68 and 72. -/
theorem C7_load_fields (input : List Nat) (hlen : 76 ≤ input.length)
    (hm : input.take 8 = [0xD0, 0xCF, 0x11, 0xE0, 0xA1, 0xB1, 0x1A, 0xE1]) :
    ∃ h : CompoundFile.Header,
      CompoundFile.Header.load (IStream.ofBytes input) = some (.ok h) ∧
      (∀ p : Nat, p ≤ 30 → leAt input 30 2 = p → h.m_sectorSize = some (2 ^ p)) ∧
      (∀ q : Nat, q ≤ 30 → leAt input 32 2 = q → h.m_shortSectorSize = some (2 ^ q)) ∧
      h.m_sectorsInSAT = toInt32 (leAt input 44 4) ∧
      h.m_dirStreamSecID = toInt32 (leAt input 48 4) ∧
      h.m_streamMinSize = toInt32 (leAt input 56 4) ∧
      h.m_ssatFirstSecID = toInt32 (leAt input 60 4) ∧
      h.m_sectorsInSSAT = toInt32 (leAt input 64 4) ∧
      h.m_msatFirstSecID = toInt32 (leAt input 68 4) ∧
      h.m_sectorsInMSAT = toInt32 (leAt input 72 4) := by
  refine ⟨_, CompoundFile.load_of_identifier input hlen hm, ?_, ?_,
    rfl, rfl, rfl, rfl, rfl, rfl, rfl⟩
  · intro p hp he
    simp only [he]
    exact CompoundFile.shiftLeftOne_small p hp
  · intro q hq he
    simp only [he]
    exact CompoundFile.shiftLeftOne_small q hq

theorem C7_load_fields_witness :
    ∃ h : CompoundFile.Header,
      CompoundFile.Header.load (IStream.ofBytes sampleHeader) = some (.ok h) ∧
      (∀ p : Nat, p ≤ 30 → leAt sampleHeader 30 2 = p → h.m_sectorSize = some (2 ^ p)) ∧
      (∀ q : Nat, q ≤ 30 → leAt sampleHeader 32 2 = q → h.m_shortSectorSize = some (2 ^ q)) ∧
      h.m_sectorsInSAT = toInt32 (leAt sampleHeader 44 4) ∧
      h.m_dirStreamSecID = toInt32 (leAt sampleHeader 48 4) ∧
      h.m_streamMinSize = toInt32 (leAt sampleHeader 56 4) ∧
      h.m_ssatFirstSecID = toInt32 (leAt sampleHeader 60 4) ∧
      h.m_sectorsInSSAT = toInt32 (leAt sampleHeader 64 4) ∧
      h.m_msatFirstSecID = toInt32 (leAt sampleHeader 68 4) ∧
      h.m_sectorsInMSAT = toInt32 (leAt sampleHeader 72 4) :=
  C7_load_fields sampleHeader (by decide) (by decide)

/-- C8, refuted: on a 76-byte header that starts with the identifier and has
`FF FE` at offset 28, `Header::load` throws nothing: it returns, with the byte
order recorded as big-endian. -/
theorem C8_load_accepts_big_endian :
    (bigEndianHeader.drop 28).take 2 = [0xFF, 0xFE] ∧
    CompoundFile.Header.load (IStream.ofBytes bigEndianHeader) = some (.ok {
      m_byteOrder := CompoundFile.ByteOrder.BigEndian
      m_sectorSize := some 512
      m_shortSectorSize := some 64
      m_sectorsInSAT := 1
      m_dirStreamSecID := 2
      m_streamMinSize := 4096
      m_ssatFirstSecID := -2
      m_sectorsInSSAT := 0
      m_msatFirstSecID := -2
      m_sectorsInMSAT := 0 }) := by
  constructor
  · decide
  · rfl

/-- C8, amended: on an input of at least 76 bytes that starts with the
identifier and whose two bytes at offset 28 are not `FE FF`, `Header::load`
does not fail: it returns with the byte order set to big-endian. On no input
does it throw anything but the wrong-identifier exception. -/
theorem C8_load_flags_big_endian (input : List Nat) (hlen : 76 ≤ input.length)
    (hm : input.take 8 = [0xD0, 0xCF, 0x11, 0xE0, 0xA1, 0xB1, 0x1A, 0xE1])
    (hbo : (input.drop 28).take 2 ≠ [0xFE, 0xFF]) :
    (∃ h : CompoundFile.Header,
      CompoundFile.Header.load (IStream.ofBytes input) = some (.ok h) ∧
      h.m_byteOrder = CompoundFile.ByteOrder.BigEndian) ∧
    (∀ (other : List Nat) (x : CompoundFile.Exception),
      CompoundFile.Header.load (IStream.ofBytes other) = some (.error x) →
      x = CompoundFile.wrongFileIdentifier) := by
  constructor
  · refine ⟨_, CompoundFile.load_of_identifier input hlen hm, ?_⟩
    have h2 : ((input.drop 28).take 2).length = 2 := by
      simp only [List.length_take, List.length_drop]; omega
    have hs := CompoundFile.strcmp_cLittleEndian _ h2
    simp only [hs, hbo, if_false]
  · intro other x hx
    exact CompoundFile.load_error_eq other x hx

theorem C8_load_flags_big_endian_witness :
    (∃ h : CompoundFile.Header,
      CompoundFile.Header.load (IStream.ofBytes bigEndianHeader) = some (.ok h) ∧
      h.m_byteOrder = CompoundFile.ByteOrder.BigEndian) ∧
    (∀ (other : List Nat) (x : CompoundFile.Exception),
      CompoundFile.Header.load (IStream.ofBytes other) = some (.error x) →
      x = CompoundFile.wrongFileIdentifier) :=
  C8_load_flags_big_endian bigEndianHeader (by decide) (by decide) (by decide)

/-- C9, at a failing input: after `setCell( 0, 1, 10 )` and `setCell( 2, 0, 20 )`
on a fresh sheet, row 1 of the grid is an empty vector (`initCell` resized only
the last row), and `cell( 1, 0 )`, which should be the empty cell, reads
`m_cells[ 1 ][ 0 ]` outside that vector. -/
theorem C9_cell_reads_outside_skipped_row :
    (Excel.Sheet.new "Sheet1" : Excel.Sheet Nat).setCells [(0, 1, 10), (2, 0, 20)] =
      some skippedRowSheet ∧
    skippedRowSheet.m_cells = [[.empty, .data 10], [], [.data 20, .empty]] ∧
    skippedRowSheet.cell 1 0 = none := by
  decide

/-- C10, at a failing input: of the calls `setCell( 0, 1, 10 )`,
`setCell( 2, 0, 20 )`, `setCell( 1, 0, 30 )` on a fresh sheet the third writes
`m_cells[ 1 ][ 0 ]` outside the empty row 1, so that no state with
`rowsCount() = 3` and `columnsCount() = 2` is reached. -/
theorem C10_setCell_writes_outside_skipped_row :
    (Excel.Sheet.new "Sheet1" : Excel.Sheet Nat).setCells [(0, 1, 10), (2, 0, 20), (1, 0, 30)]
      = none := by
  decide

/-- C11: for every sheet that `setCell` calls make of a fresh one, the fresh one
among them, and every `( r, c )` with `r >= rowsCount()` or
`c >= columnsCount()`, `cell( r, c )` refers to the empty `m_dummyCell` and not to
an element `m_cells[ r ][ c ]` of the grid. -/
theorem C11_cell_outside_is_dummy {Value : Type} (s : Excel.Sheet Value) (r c : Nat)
    (hreach : s.Reachable) (hout : s.rowsCount ≤ r ∨ s.columnsCount ≤ c) :
    s.cellRef r c = Excel.Sheet.CellRef.dummyCell ∧ s.cell r c = some Excel.Cell.empty := by
  obtain ⟨name, calls, hcalls, hs⟩ := hreach
  have hinv := Excel.Sheet.setCells_gridInv calls (Excel.Sheet.new name) s
    (Excel.Sheet.new_gridInv name) hcalls hs
  have href := Excel.Sheet.cellRef_outside s r c hinv hout
  exact ⟨href, Excel.Sheet.cell_of_cellRef_dummy s r c href⟩

theorem C11_cell_outside_is_dummy_witness :
    skippedRowSheet.cellRef 1 2 = Excel.Sheet.CellRef.dummyCell ∧
      skippedRowSheet.cell 1 2 = some Excel.Cell.empty :=
  C11_cell_outside_is_dummy skippedRowSheet 1 2
    ⟨"Sheet1", [(0, 1, 10), (2, 0, 20)], by decide, by decide⟩ (Or.inr (by decide))

/-- C12: a BIFF8 string laid out as §4.H says, its first run of characters after
the header and each later run begun by a flags byte of its own at a seam of
`borders`, narrow or wide as that byte says, is decoded by `loadString` to the
characters of its runs, as many as its header declares, a narrow byte being the
character of that code. In particular a string `w` cut at any `k` with
`1 ≤ k < L`, with any flag before and any after the cut, decodes to `w`. From the
glued payload of the records of the test, `loadString` reads
"STSTSTSTSTSTSTST", "QRQRQRQRQRQRQRQR" and "QRQRQRQRQRQRQRQR". -/
theorem C12_loadString_round_trip :
    (∀ (borders : List Int) (first : Excel.Segment) (rest : List Excel.Segment)
        (pre post : List Nat),
      (∀ g ∈ rest, g.chars ≠ []) →
      (∀ q ∈ List.range' (pre.length + 3) first.bytes.length, (q : Int) ∉ borders) →
      Excel.SeamsAt borders (pre.length + 3 + first.bytes.length) rest →
      (Excel.loadString ⟨pre ++ Excel.encodeString first rest ++ post, pre.length⟩ borders 2
        Excel.BiffVersion.BIFF8).map Prod.fst = some (first.chars ++ Excel.segmentsChars rest) ∧
      leAt (pre ++ Excel.encodeString first rest ++ post) pre.length 2 =
        (first.chars ++ Excel.segmentsChars rest).length) ∧
    (∀ (w pre post : List Nat) (k : Nat) (f0 f1 : Bool), 1 ≤ k → k < w.length →
      (Excel.loadString
        ⟨pre ++ Excel.encodeString ⟨f0, w.take k⟩ [⟨f1, w.drop k⟩] ++ post, pre.length⟩
        [((pre.length + 3 + (Excel.charBytes f0 (w.take k)).length : Nat) : Int)] 2
        Excel.BiffVersion.BIFF8).map Prod.fst = some w) ∧
    (Excel.Record.read ⟨sstTestData, 0⟩).1.borders = [19, 36, 55] ∧
    (Excel.loadString ⟨(Excel.Record.read ⟨sstTestData, 0⟩).1.data, 8⟩
      (Excel.Record.read ⟨sstTestData, 0⟩).1.borders 2 Excel.BiffVersion.BIFF8).map
        (fun r => (r.1, r.2.pos)) = some (stst ++ stst, 36) ∧
    (Excel.loadString ⟨(Excel.Record.read ⟨sstTestData, 0⟩).1.data, 36⟩
      (Excel.Record.read ⟨sstTestData, 0⟩).1.borders 2 Excel.BiffVersion.BIFF8).map
        (fun r => (r.1, r.2.pos)) = some (qrqr, 55) ∧
    (Excel.loadString ⟨(Excel.Record.read ⟨sstTestData, 0⟩).1.data, 55⟩
      (Excel.Record.read ⟨sstTestData, 0⟩).1.borders 2 Excel.BiffVersion.BIFF8).map
        (fun r => (r.1, r.2.pos)) = some (qrqr, 90) := by
  refine ⟨?_, ?_, by decide, by decide, by decide, by decide⟩
  · intro borders first rest pre post hne hfirst hseams
    rw [Excel.loadString_encodeString borders first rest pre post hne hfirst hseams]
    refine ⟨rfl, ?_⟩
    have h := Excel.leAt_append_mid pre
      [(first.chars ++ Excel.segmentsChars rest).length % 256,
        (first.chars ++ Excel.segmentsChars rest).length / 256]
      ([first.flags] ++ first.bytes ++ Excel.encodeContinued rest ++ post)
    have hD : pre ++ Excel.encodeString first rest ++ post =
        pre ++ [(first.chars ++ Excel.segmentsChars rest).length % 256,
          (first.chars ++ Excel.segmentsChars rest).length / 256] ++
          ([first.flags] ++ first.bytes ++ Excel.encodeContinued rest ++ post) := by
      simp only [Excel.encodeString, List.append_assoc, List.cons_append, List.nil_append]
    rw [hD]
    have h2 : ([(first.chars ++ Excel.segmentsChars rest).length % 256,
        (first.chars ++ Excel.segmentsChars rest).length / 256] : List Nat).length = 2 := rfl
    rw [h2] at h
    rw [h]
    simp only [leValue]
    omega
  · intro w pre post k f0 f1 hk1 hk2
    have hdrop : w.drop k ≠ [] := by
      intro hc
      have := congrArg List.length hc
      rw [List.length_drop, List.length_nil] at this
      omega
    rw [Excel.loadString_encodeString _ ⟨f0, w.take k⟩ [⟨f1, w.drop k⟩] pre post]
    · simp only [Option.map_some', Excel.segmentsChars, List.append_nil, List.take_append_drop]
    · intro g hg
      rw [List.mem_singleton] at hg
      rw [hg]
      exact hdrop
    · intro q hq hc
      rw [List.mem_singleton] at hc
      rw [List.mem_range'] at hq
      obtain ⟨i, hi, rfl⟩ := hq
      have hi2 : i < (Excel.charBytes f0 (w.take k)).length := hi
      omega
    · refine ⟨List.mem_singleton.mpr rfl, ?_, trivial⟩
      intro q hq hc
      rw [List.mem_singleton] at hc
      rw [List.mem_range'] at hq
      obtain ⟨i, hi, rfl⟩ := hq
      have hb : (Excel.Segment.bytes ⟨f0, w.take k⟩).length =
          (Excel.charBytes f0 (w.take k)).length := rfl
      omega

theorem C12_loadString_round_trip_witness :
    (Excel.loadString
      ⟨[3, 0, 0, 0, 3, 0, 0, 0] ++ Excel.encodeString ⟨false, stst⟩ [⟨true, stst⟩] ++
        [0x10, 0x00, 0x00], ([3, 0, 0, 0, 3, 0, 0, 0] : List Nat).length⟩ [19, 36, 55] 2
      Excel.BiffVersion.BIFF8).map Prod.fst =
        some ((⟨false, stst⟩ : Excel.Segment).chars ++ Excel.segmentsChars [⟨true, stst⟩]) ∧
      leAt ([3, 0, 0, 0, 3, 0, 0, 0] ++ Excel.encodeString ⟨false, stst⟩ [⟨true, stst⟩] ++
        [0x10, 0x00, 0x00]) ([3, 0, 0, 0, 3, 0, 0, 0] : List Nat).length 2 =
        ((⟨false, stst⟩ : Excel.Segment).chars ++ Excel.segmentsChars [⟨true, stst⟩]).length :=
  C12_loadString_round_trip.1 [19, 36, 55] ⟨false, stst⟩ [⟨true, stst⟩] [3, 0, 0, 0, 3, 0, 0, 0]
    [0x10, 0x00, 0x00] (by decide) (by decide) ⟨by decide, by decide, trivial⟩

/-- C13: for an SST record whose header says `n` unique strings, `0 ≤ n`, and
whose payload holds `n` strings laid out as §4.H says, back to back,
`Parser::parseSST` calls `onSharedString` `n` times, the call number `i` with
the index `i` and the characters of string number `i`; for the records of the
test these are three calls with "STSTSTSTSTSTSTST", "QRQRQRQRQRQRQRQR" and
"QRQRQRQRQRQRQRQR". -/
theorem C13_parseSST_in_order :
    (∀ (code : Nat) (borders : List Int) (pre post : List Nat)
        (es : List Excel.EncodedString),
      pre.length = 8 → leAt pre 4 4 = es.length → es.length < 2 ^ 31 →
      Excel.StringsAt borders 8 es →
      ∃ events : List Excel.Event,
        Excel.Parser.parseSST ⟨code, pre ++ Excel.encodeStrings es ++ post, borders⟩ =
          some events ∧
        events.length = es.length ∧
        ∀ i : Nat, events[i]? =
          (es[i]?).map (fun e => Excel.Event.onSharedString (es.length : Int) (i : Int) e.chars)) ∧
    (Excel.Record.read ⟨sstTestData, 0⟩).1.data =
      [3, 0, 0, 0, 3, 0, 0, 0] ++ Excel.encodeStrings sstTestStrings ∧
    Excel.Parser.parseSST (Excel.Record.read ⟨sstTestData, 0⟩).1 =
      some [Excel.Event.onSharedString 3 0 (stst ++ stst), Excel.Event.onSharedString 3 1 qrqr,
        Excel.Event.onSharedString 3 2 qrqr] := by
  refine ⟨?_, by decide, by decide⟩
  intro code borders pre post es hpre hunique hn hs
  refine ⟨_, Excel.Parser.parseSST_strings code borders pre post es hpre hunique hn hs,
    Excel.length_sharedStringEvents _ es 0, ?_⟩
  intro i
  rw [Excel.getElem?_sharedStringEvents, Nat.zero_add]

theorem C13_parseSST_in_order_witness :
    ∃ events : List Excel.Event,
      Excel.Parser.parseSST
          ⟨Excel.XL_SST, [3, 0, 0, 0, 3, 0, 0, 0] ++ Excel.encodeStrings sstTestStrings ++ [],
            [19, 36, 55]⟩ = some events ∧
        events.length = sstTestStrings.length ∧
        ∀ i : Nat, events[i]? =
          (sstTestStrings[i]?).map
            (fun e => Excel.Event.onSharedString (sstTestStrings.length : Int) (i : Int) e.chars) :=
  C13_parseSST_in_order.1 Excel.XL_SST [19, 36, 55] [3, 0, 0, 0, 3, 0, 0, 0] [] sstTestStrings
    (by decide) (by decide) (by decide)
    ⟨by decide, by decide, ⟨by decide, by decide, trivial⟩,
      ⟨by decide, by decide, trivial, ⟨by decide, by decide, trivial, trivial⟩⟩⟩

/-- C14: for a FORMULA record whose payload has the 14 bytes up to the end of
the result and whose result does not end in the two bytes `FF FF`, the formula
is of type `DoubleValue`, its row and column are the little-endian 16-bit
numbers at offsets 0 and 2 of the payload, and `getDouble()` is the double whose
bit pattern is the little-endian 64-bit number at offsets 6 to 13; for the
record of the test, with the result `08 07 06 05 04 03 02 01`, that pattern is
`0x0102030405060708`, in row 1 and column 2. -/
theorem C14_formula_double :
    (∀ r : Excel.Record, 14 ≤ r.data.length → (∀ b ∈ r.data, b < 256) →
      ¬ (r.data[12]? = some 0xFF ∧ r.data[13]? = some 0xFF) →
      ∃ f : Excel.Formula, Excel.Formula.parse r = some f ∧
        f.valueType = Excel.Formula.ValueType.DoubleValue ∧
        f.getRow = leAt r.data 0 2 ∧ f.getColumn = leAt r.data 2 2 ∧
        f.getDouble = leAt r.data 6 8) ∧
    (Excel.Formula.parse (Excel.Record.read ⟨formulaData1, 0⟩).1).map
        (fun f => (f.valueType, f.getRow, f.getColumn, f.getDouble)) =
      some (Excel.Formula.ValueType.DoubleValue, 1, 2, 0x0102030405060708) := by
  refine ⟨?_, by decide⟩
  intro r hlen hbytes hnot
  obtain ⟨-, -, h3⟩ := Excel.Formula.result_bytes r.data hlen hbytes
  have h12 : r.data[12]? = some (r.data[12]) := List.getElem?_eq_getElem (by omega)
  have h13 : r.data[13]? = some (r.data[13]) := List.getElem?_eq_getElem (by omega)
  have hdouble : ¬ leAt r.data 6 8 / 2 ^ 48 % 2 ^ 16 = 0xFFFF := by
    rw [h3, leAt_one r.data 12 _ h12, leAt_one r.data 13 _ h13]
    intro hc
    have b12 : r.data[12] < 256 := hbytes _ (List.getElem_mem _)
    have b13 : r.data[13] < 256 := hbytes _ (List.getElem_mem _)
    apply hnot
    rw [h12, h13]
    constructor <;> congr 1 <;> omega
  rw [Excel.Formula.parse_eq r hlen, if_neg hdouble]
  exact ⟨_, rfl, rfl, rfl, rfl, rfl⟩

theorem C14_formula_double_witness :
    ∃ f : Excel.Formula,
      Excel.Formula.parse (Excel.Record.read ⟨formulaData1, 0⟩).1 = some f ∧
        f.valueType = Excel.Formula.ValueType.DoubleValue ∧
        f.getRow = leAt (Excel.Record.read ⟨formulaData1, 0⟩).1.data 0 2 ∧
        f.getColumn = leAt (Excel.Record.read ⟨formulaData1, 0⟩).1.data 2 2 ∧
        f.getDouble = leAt (Excel.Record.read ⟨formulaData1, 0⟩).1.data 6 8 :=
  C14_formula_double.1 (Excel.Record.read ⟨formulaData1, 0⟩).1 (by decide) (by decide)
    (by decide)

/-- C15: for a FORMULA record whose result ends in the two bytes `FF FF`, byte 0
of the result tells the type: 1 makes the formula a `BooleanValue` whose
`getBoolean()` is true exactly when byte 2 of the result is not zero, 2 makes it
an `ErrorValue` whose code is byte 2, and 0 makes it a `StringValue`; the code
`0x2A` is `NA`, and the records of the test give `true`, `false`, `NA` and a
string. -/
theorem C15_formula_boolean_error_string :
    (∀ (r : Excel.Record) (b0 b2 : Nat), 14 ≤ r.data.length → (∀ b ∈ r.data, b < 256) →
      r.data[12]? = some 0xFF → r.data[13]? = some 0xFF →
      r.data[6]? = some b0 → r.data[8]? = some b2 →
      ∃ f : Excel.Formula, Excel.Formula.parse r = some f ∧
        (b0 = 1 → f.valueType = Excel.Formula.ValueType.BooleanValue ∧
          (f.getBoolean = true ↔ b2 ≠ 0)) ∧
        (b0 = 2 → f.valueType = Excel.Formula.ValueType.ErrorValue ∧ f.getErrorValue = b2) ∧
        (b0 = 0 → f.valueType = Excel.Formula.ValueType.StringValue)) ∧
    Excel.Formula.NA = 0x2A ∧
    (Excel.Formula.parse (Excel.Record.read ⟨formulaData2, 0⟩).1).map
        (fun f => (f.valueType, f.getBoolean)) =
      some (Excel.Formula.ValueType.BooleanValue, true) ∧
    (Excel.Formula.parse (Excel.Record.read ⟨formulaData5, 0⟩).1).map
        (fun f => (f.valueType, f.getBoolean)) =
      some (Excel.Formula.ValueType.BooleanValue, false) ∧
    (Excel.Formula.parse (Excel.Record.read ⟨formulaData3, 0⟩).1).map
        (fun f => (f.valueType, f.getErrorValue)) =
      some (Excel.Formula.ValueType.ErrorValue, Excel.Formula.NA) ∧
    (Excel.Formula.parse (Excel.Record.read ⟨formulaData4, 0⟩).1).map
        (fun f => f.valueType) = some Excel.Formula.ValueType.StringValue := by
  refine ⟨?_, by decide, by decide, by decide, by decide, by decide⟩
  intro r b0 b2 hlen hbytes h12 h13 h6 h8
  obtain ⟨h1, h2, h3⟩ := Excel.Formula.result_bytes r.data hlen hbytes
  rw [leAt_one r.data 6 b0 h6] at h1
  rw [leAt_one r.data 8 b2 h8] at h2
  rw [leAt_one r.data 12 _ h12, leAt_one r.data 13 _ h13] at h3
  rw [Excel.Formula.parse_eq r hlen, h1, h2, h3, if_pos (by decide)]
  refine ⟨_, rfl, ?_, ?_, ?_⟩
  · intro hb
    subst hb
    rw [if_neg (by decide), if_pos rfl]
    refine ⟨rfl, ?_⟩
    simp [Excel.Formula.getBoolean]
  · intro hb
    subst hb
    rw [if_neg (by decide), if_neg (by decide), if_pos rfl]
    exact ⟨rfl, rfl⟩
  · intro hb
    subst hb
    rw [if_pos rfl]
    rfl

theorem C15_formula_boolean_error_string_witness :
    ∃ f : Excel.Formula,
      Excel.Formula.parse (Excel.Record.read ⟨formulaData3, 0⟩).1 = some f ∧
        (2 = 1 → f.valueType = Excel.Formula.ValueType.BooleanValue ∧
          (f.getBoolean = true ↔ 0x2A ≠ 0)) ∧
        (2 = 2 → f.valueType = Excel.Formula.ValueType.ErrorValue ∧ f.getErrorValue = 0x2A) ∧
        (2 = 0 → f.valueType = Excel.Formula.ValueType.StringValue) :=
  C15_formula_boolean_error_string.1 (Excel.Record.read ⟨formulaData3, 0⟩).1 2 0x2A
    (by decide) (by decide) (by decide) (by decide) (by decide) (by decide)

/-- C16, refuted: in the record `data2` of the test the result ends in `FF FF`
and its byte 0 is 1, and the formula is a `BooleanValue`, not an `ErrorValue`;
in `data4` byte 0 is 0 and the formula is a `StringValue`, not a `BooleanValue`;
in `data3` byte 0 is 2 and the formula is an `ErrorValue`, not a `StringValue`. -/
theorem C16_formula_byte0_one_is_boolean :
    (Excel.Record.read ⟨formulaData2, 0⟩).1.data[6]? = some 1 ∧
    (Excel.Formula.parse (Excel.Record.read ⟨formulaData2, 0⟩).1).map
        (fun f => f.valueType) = some Excel.Formula.ValueType.BooleanValue ∧
    (Excel.Record.read ⟨formulaData4, 0⟩).1.data[6]? = some 0 ∧
    (Excel.Formula.parse (Excel.Record.read ⟨formulaData4, 0⟩).1).map
        (fun f => f.valueType) = some Excel.Formula.ValueType.StringValue ∧
    (Excel.Record.read ⟨formulaData3, 0⟩).1.data[6]? = some 2 ∧
    (Excel.Formula.parse (Excel.Record.read ⟨formulaData3, 0⟩).1).map
        (fun f => f.valueType) = some Excel.Formula.ValueType.ErrorValue := by
  decide

/-- C16, amended: for a FORMULA record whose result ends in the two bytes
`FF FF`, byte 0 of the result tells the type: 0 a `StringValue`, whose string is
still to come, 1 a `BooleanValue` with the value of byte 2, 2 an `ErrorValue`
with the code of byte 2, and any other byte an `UnknownValue`. -/
theorem C16_formula_byte0_table (r : Excel.Record) (b0 b2 : Nat)
    (hlen : 14 ≤ r.data.length) (hbytes : ∀ b ∈ r.data, b < 256)
    (h12 : r.data[12]? = some 0xFF) (h13 : r.data[13]? = some 0xFF)
    (h6 : r.data[6]? = some b0) (h8 : r.data[8]? = some b2) :
    ∃ f : Excel.Formula, Excel.Formula.parse r = some f ∧
      f.valueType =
        (if b0 = 0 then Excel.Formula.ValueType.StringValue
        else if b0 = 1 then Excel.Formula.ValueType.BooleanValue
        else if b0 = 2 then Excel.Formula.ValueType.ErrorValue
        else Excel.Formula.ValueType.UnknownValue) ∧
      (b0 = 0 → f.getString = []) ∧
      (b0 = 1 → f.getBoolean = (b2 != 0)) ∧
      (b0 = 2 → f.getErrorValue = b2) := by
  obtain ⟨h1, h2, h3⟩ := Excel.Formula.result_bytes r.data hlen hbytes
  rw [leAt_one r.data 6 b0 h6] at h1
  rw [leAt_one r.data 8 b2 h8] at h2
  rw [leAt_one r.data 12 _ h12, leAt_one r.data 13 _ h13] at h3
  rw [Excel.Formula.parse_eq r hlen, h1, h2, h3, if_pos (by decide)]
  refine ⟨_, rfl, ?_, ?_, ?_, ?_⟩
  · split_ifs <;> rfl
  · intro hb
    subst hb
    rw [if_pos rfl]
    rfl
  · intro hb
    subst hb
    rw [if_neg (by decide), if_pos rfl]
    rfl
  · intro hb
    subst hb
    rw [if_neg (by decide), if_neg (by decide), if_pos rfl]
    rfl

theorem C16_formula_byte0_table_witness :
    ∃ f : Excel.Formula,
      Excel.Formula.parse (Excel.Record.read ⟨formulaData2, 0⟩).1 = some f ∧
      f.valueType =
        (if 1 = 0 then Excel.Formula.ValueType.StringValue
        else if 1 = 1 then Excel.Formula.ValueType.BooleanValue
        else if 1 = 2 then Excel.Formula.ValueType.ErrorValue
        else Excel.Formula.ValueType.UnknownValue) ∧
      (1 = 0 → f.getString = []) ∧
      (1 = 1 → f.getBoolean = (1 != 0)) ∧
      (1 = 2 → f.getErrorValue = 1) :=
  C16_formula_byte0_table (Excel.Record.read ⟨formulaData2, 0⟩).1 1 1
    (by decide) (by decide) (by decide) (by decide) (by decide) (by decide)

/-- C17, at a failing input: for a FORMULA record with a string to come, then a
SHRFMLA record (`0x04BC`), then a STRING record with "this is red ink",
`Parser::handleFORMULA` takes the SHRFMLA record for the string record: the
formula it reports has the empty string which that payload decodes to, and the
stream is left in front of the STRING record, byte 40, which the loop of
`loadSheet` then passes over. It does the same when the record in between has
the code `0x0221`. When the STRING record comes right after the formula, as in
the test, the formula reported has its string. -/
theorem C17_handleFORMULA_reads_SHRFMLA_as_string :
    (Excel.Record.read ⟨formulaSharedThenString, 0⟩).1.code = Excel.XL_FORMULA ∧
    (Excel.Record.read ⟨formulaSharedThenString, 26⟩).1.code = 0x04BC ∧
    (Excel.Record.read ⟨formulaSharedThenString, 40⟩).1.code = Excel.XL_STRING ∧
    (Excel.loadString (Excel.Record.read ⟨formulaSharedThenString, 40⟩).1.dataStream [] 2
      Excel.BiffVersion.BIFF8).map Prod.fst = some thisIsRedInk ∧
    Excel.Parser.handleFORMULA (Excel.Record.read ⟨formulaSharedThenString, 0⟩).1
        (Excel.Record.read ⟨formulaSharedThenString, 0⟩).2 0 =
      some ([Excel.Event.onCellFormula 0
          ⟨0, 5, Excel.Formula.ValueType.StringValue, 0, false, 0, []⟩],
        ⟨formulaSharedThenString, 40⟩) ∧
    Excel.Parser.loadSheetLoop 0 3 ⟨formulaSharedThenString ++ [0x0A, 0x00, 0x00, 0x00], 0⟩ =
      ([Excel.Event.onCellFormula 0
          ⟨0, 5, Excel.Formula.ValueType.StringValue, 0, false, 0, []⟩],
        Excel.Outcome.returned) ∧
    (Excel.Record.read ⟨formulaArrayThenString, 26⟩).1.code = 0x0221 ∧
    Excel.Parser.handleFORMULA (Excel.Record.read ⟨formulaArrayThenString, 0⟩).1
        (Excel.Record.read ⟨formulaArrayThenString, 0⟩).2 0 =
      some ([Excel.Event.onCellFormula 0
          ⟨0, 5, Excel.Formula.ValueType.StringValue, 0, false, 0, []⟩],
        ⟨formulaArrayThenString, 40⟩) ∧
    (Excel.Parser.handleFORMULA (Excel.Record.read ⟨formulaData4, 0⟩).1
        (Excel.Record.read ⟨formulaData4, 0⟩).2 0).map Prod.fst =
      some [Excel.Event.onCellFormula 0
          ⟨4, 5, Excel.Formula.ValueType.StringValue, 0, false, 0, thisIsRedInk⟩] := by
  refine ⟨by decide, by decide, by decide, by decide, by decide, by decide, by decide,
    by decide, by decide⟩

/-- C18: for a globals stream whose records have a FILEPASS record (`0x002F`)
with no EOF record before it and no malformed record before it,
`Parser::loadGlobals` throws the exception "This file is protected. Decryption
is not implemented yet."; it does not return. -/
theorem C18_loadGlobals_filepass (stream : Excel.Stream) (pre post : List Excel.Record)
    (fp : Excel.Record)
    (hrec : Excel.Stream.records (stream.data.length + 1) stream = pre ++ fp :: post)
    (hfp : fp.code = 0x002F) (hpre : ∀ r ∈ pre, r.code ≠ Excel.XL_EOF)
    (hwf : Excel.WellFormedGlobals Excel.BOF.new pre) :
    (Excel.Parser.loadGlobals stream).2.2 =
        Excel.Outcome.thrown ⟨"This file is protected. Decryption is not implemented yet."⟩ ∧
      (Excel.Parser.loadGlobals stream).2.2 ≠ Excel.Outcome.returned := by
  have h := Excel.Parser.loadGlobalsLoop_filepass (stream.data.length + 1) stream Excel.BOF.new []
    pre post fp hrec hfp hpre hwf
  unfold Excel.Parser.loadGlobals
  rw [h]
  exact ⟨rfl, by simp⟩

theorem C18_loadGlobals_filepass_witness :
    (Excel.Parser.loadGlobals ⟨protectedGlobals, 0⟩).2.2 =
        Excel.Outcome.thrown ⟨"This file is protected. Decryption is not implemented yet."⟩ ∧
      (Excel.Parser.loadGlobals ⟨protectedGlobals, 0⟩).2.2 ≠ Excel.Outcome.returned :=
  C18_loadGlobals_filepass ⟨protectedGlobals, 0⟩ [⟨0x0809, [0x00, 0x06], []⟩]
    [⟨0x000A, [], []⟩, ⟨0xFFFF, [], []⟩] ⟨0x002F, [], []⟩ (by decide) (by decide) (by decide)
    ⟨by decide, by decide, by decide, by decide, trivial⟩

/-- C19: for a bound sheet at whose `BOFPosition` the stream has a record that
starts with a version word other than `0x0600`, `Parser::loadSheet` throws the
exception "Unsupported BIFF version. BIFF8 is supported only." and makes no
callback at all, so none for a cell. -/
theorem C19_loadSheet_not_BIFF8 (sheetIdx : Nat) (boundSheet : Excel.BoundSheet)
    (stream : Excel.Stream) (pos : Nat) (hpos : boundSheet.BOFPosition = (pos : Int))
    (hin : pos ≤ stream.data.length)
    (hlen : 2 ≤ (Excel.Record.read ⟨stream.data, pos⟩).1.data.length)
    (hver : leAt (Excel.Record.read ⟨stream.data, pos⟩).1.data 0 2 ≠ 0x0600) :
    Excel.Parser.loadSheet sheetIdx boundSheet stream =
      ([], Excel.Outcome.thrown ⟨"Unsupported BIFF version. BIFF8 is supported only."⟩) :=
  Excel.Parser.loadSheet_not_BIFF8 sheetIdx boundSheet stream pos hpos hin hlen hver

theorem C19_loadSheet_not_BIFF8_witness :
    Excel.Parser.loadSheet 0 ⟨0, Excel.SheetType.WorkSheet, [0x41]⟩ ⟨oldAndNewSheet, 0⟩ =
      ([], Excel.Outcome.thrown ⟨"Unsupported BIFF version. BIFF8 is supported only."⟩) :=
  C19_loadSheet_not_BIFF8 0 ⟨0, Excel.SheetType.WorkSheet, [0x41]⟩ ⟨oldAndNewSheet, 0⟩ 0
    (by decide) (by decide) (by decide) (by decide)

/-- C20, refuted: of two bound sheets, both worksheets, the first lies at a
BOF record of version `0x0500`; `Parser::loadWorkSheets` calls `onSheet( 0, "A" )`,
`loadSheet` throws, and `onSheet` is never called for the worksheet with index
1, whose records would load. -/
theorem C20_loadWorkSheets_stops_at_failing_sheet :
    Excel.workSheets twoWorkSheets = [(0, [0x41]), (1, [0x42])] ∧
    Excel.Parser.loadWorkSheets twoWorkSheets ⟨oldAndNewSheet, 0⟩ =
      ([Excel.Event.onSheet 0 [0x41]], Excel.Outcome.thrown Excel.Parser.unsupportedBiff) ∧
    Excel.Parser.loadSheet 1 ⟨10, Excel.SheetType.WorkSheet, [0x42]⟩ ⟨oldAndNewSheet, 0⟩ =
      ([Excel.Event.onCellDouble 1 1 2 0x3FF0000000000000], Excel.Outcome.returned) := by
  refine ⟨by decide, by decide, by decide⟩

/-- C20, amended: in every run of `Parser::loadWorkSheets` the `onSheet` calls
are for increasing indices and every cell callback is for the sheet of the last
`onSheet` call before it, so it comes after `onSheet( i, ... )` for its own
index `i` and before `onSheet( j, ... )` for any greater `j`; the `onSheet`
calls are, in order, those for the indices whose sheet type is `WorkSheet`, with
their names, up to the sheet at which the run ends: all of them when
`loadWorkSheets` returns, which it does when `loadSheet` returns for every
worksheet. When the worksheet `b`, behind the bound sheets `pre`, is the first
for which `loadSheet` does not return (it throws), `loadWorkSheets` ends as that
`loadSheet` does, with the same exception; its callbacks are those of the run on
`pre`, then `onSheet` for `b` and the callbacks of its `loadSheet`, and nothing
more: `onSheet` is called for the worksheets up to `b` and for no index behind
it. The bound sheets with which `loadGlobals` returns are, in order, those of
the BOUNDSHEET records before the EOF record. -/
theorem C20_loadWorkSheets_order (boundSheets : List Excel.BoundSheet)
    (stream globals : Excel.Stream) :
    Excel.sheetOrder none (Excel.Parser.loadWorkSheets boundSheets stream).1 = true ∧
    (Excel.Parser.loadWorkSheets boundSheets stream).1.filterMap Excel.Event.sheetCall <+:
      Excel.workSheets boundSheets ∧
    ((Excel.Parser.loadWorkSheets boundSheets stream).2 = Excel.Outcome.returned →
      (Excel.Parser.loadWorkSheets boundSheets stream).1.filterMap Excel.Event.sheetCall =
        Excel.workSheets boundSheets) ∧
    ((Excel.Parser.loadGlobals globals).2.2 = Excel.Outcome.returned →
      (Excel.Parser.loadGlobals globals).2.1.map some =
        (Excel.boundSheetRecords (Excel.Stream.records (globals.data.length + 1) globals)).map
          (fun r => Excel.Parser.parseBoundSheet r Excel.BiffVersion.BIFF8)) ∧
    ((∀ j x, boundSheets[j]? = some x → x.sheetType = Excel.SheetType.WorkSheet →
        (Excel.Parser.loadSheet j x stream).2 = Excel.Outcome.returned) →
      (Excel.Parser.loadWorkSheets boundSheets stream).2 = Excel.Outcome.returned) ∧
    (∀ (pre post : List Excel.BoundSheet) (b : Excel.BoundSheet),
      boundSheets = pre ++ b :: post →
      b.sheetType = Excel.SheetType.WorkSheet →
      (Excel.Parser.loadSheet pre.length b stream).2 ≠ Excel.Outcome.returned →
      (∀ j x, pre[j]? = some x → x.sheetType = Excel.SheetType.WorkSheet →
        (Excel.Parser.loadSheet j x stream).2 = Excel.Outcome.returned) →
      (Excel.Parser.loadWorkSheets boundSheets stream).2 =
        (Excel.Parser.loadSheet pre.length b stream).2 ∧
      (Excel.Parser.loadWorkSheets boundSheets stream).1 =
        (Excel.Parser.loadWorkSheets pre stream).1 ++
          Excel.Event.onSheet pre.length b.sheetName ::
            (Excel.Parser.loadSheet pre.length b stream).1 ∧
      (Excel.Parser.loadWorkSheets boundSheets stream).1.filterMap Excel.Event.sheetCall =
        Excel.workSheets (pre ++ [b]) ∧
      ∀ j name, pre.length < j →
        Excel.Event.onSheet j name ∉ (Excel.Parser.loadWorkSheets boundSheets stream).1) := by
  refine ⟨Excel.Parser.sheetOrder_loadWorkSheetsFrom stream boundSheets 0 none
      (fun c hc => absurd hc (by simp)),
    (Excel.Parser.sheetCalls_loadWorkSheetsFrom stream boundSheets 0).1,
    (Excel.Parser.sheetCalls_loadWorkSheetsFrom stream boundSheets 0).2, ?_, ?_, ?_⟩
  · intro h
    have := Excel.Parser.loadGlobalsLoop_boundSheets (globals.data.length + 1) globals
      Excel.BOF.new [] h
    rw [List.map_nil, List.nil_append] at this
    exact this
  · intro h
    apply Excel.Parser.loadWorkSheetsFrom_returns stream boundSheets 0
    intro j x hj hx
    rw [Nat.zero_add]
    exact h j x hj hx
  · intro pre post b hbs hw hr hpre
    rw [hbs]
    exact Excel.Parser.loadWorkSheets_stops stream pre post b hw hr hpre

theorem C20_loadWorkSheets_order_witness :
    (Excel.Parser.loadWorkSheets [⟨10, Excel.SheetType.WorkSheet, [0x42]⟩]
        ⟨oldAndNewSheet, 0⟩).1.filterMap Excel.Event.sheetCall =
      Excel.workSheets [⟨10, Excel.SheetType.WorkSheet, [0x42]⟩] ∧
    (Excel.Parser.loadGlobals ⟨boundSheetGlobals, 0⟩).2.1.map some =
      (Excel.boundSheetRecords (Excel.Stream.records (boundSheetGlobals.length + 1)
        ⟨boundSheetGlobals, 0⟩)).map
          (fun r => Excel.Parser.parseBoundSheet r Excel.BiffVersion.BIFF8) ∧
    (Excel.Parser.loadWorkSheets [⟨0, Excel.SheetType.WorkSheet, [0x4C]⟩]
        ⟨sheetWithLabel, 0⟩).2 = Excel.Outcome.returned ∧
    ((Excel.Parser.loadWorkSheets threeWorkSheets ⟨oldAndNewSheet, 0⟩).2 =
        (Excel.Parser.loadSheet 1 ⟨0, Excel.SheetType.WorkSheet, [0x41]⟩
          ⟨oldAndNewSheet, 0⟩).2 ∧
      (Excel.Parser.loadWorkSheets threeWorkSheets ⟨oldAndNewSheet, 0⟩).1 =
        (Excel.Parser.loadWorkSheets [⟨10, Excel.SheetType.WorkSheet, [0x42]⟩]
            ⟨oldAndNewSheet, 0⟩).1 ++
          Excel.Event.onSheet 1 [0x41] ::
            (Excel.Parser.loadSheet 1 ⟨0, Excel.SheetType.WorkSheet, [0x41]⟩
              ⟨oldAndNewSheet, 0⟩).1 ∧
      (Excel.Parser.loadWorkSheets threeWorkSheets
          ⟨oldAndNewSheet, 0⟩).1.filterMap Excel.Event.sheetCall =
        Excel.workSheets ([⟨10, Excel.SheetType.WorkSheet, [0x42]⟩] ++
          [⟨0, Excel.SheetType.WorkSheet, [0x41]⟩]) ∧
      Excel.Event.onSheet 2 [0x43] ∉
        (Excel.Parser.loadWorkSheets threeWorkSheets ⟨oldAndNewSheet, 0⟩).1) :=
  ⟨(C20_loadWorkSheets_order [⟨10, Excel.SheetType.WorkSheet, [0x42]⟩] ⟨oldAndNewSheet, 0⟩
      ⟨boundSheetGlobals, 0⟩).2.2.1 (by decide),
    (C20_loadWorkSheets_order [⟨10, Excel.SheetType.WorkSheet, [0x42]⟩] ⟨oldAndNewSheet, 0⟩
      ⟨boundSheetGlobals, 0⟩).2.2.2.1 (by decide),
    (C20_loadWorkSheets_order [⟨0, Excel.SheetType.WorkSheet, [0x4C]⟩] ⟨sheetWithLabel, 0⟩
      ⟨boundSheetGlobals, 0⟩).2.2.2.2.1 (fun j x hj _ =>
        match j, hj with
        | 0, hj => by
          rw [← Option.some.inj hj]
          decide
        | n + 1, hj => absurd hj (by simp)),
    have h := (C20_loadWorkSheets_order threeWorkSheets ⟨oldAndNewSheet, 0⟩
      ⟨boundSheetGlobals, 0⟩).2.2.2.2.2 [⟨10, Excel.SheetType.WorkSheet, [0x42]⟩]
        [⟨10, Excel.SheetType.WorkSheet, [0x43]⟩] ⟨0, Excel.SheetType.WorkSheet, [0x41]⟩
        (by decide) (by decide) (by decide) (fun j x hj _ =>
          match j, hj with
          | 0, hj => by
            rw [← Option.some.inj hj]
            decide
          | n + 1, hj => absurd hj (by simp))
    ⟨h.1, h.2.1, h.2.2.1, h.2.2.2 2 [0x43] (by decide)⟩⟩

/-- C21, at a failing input: with three shared strings, a LABELSST record for
row 0, column 0 with the `sstIndex` 3 makes `Sheet::handleLabelSST` of sheet.cpp
read `m_sst[ 3 ]` outside the vector, after an `initCell` that has its result,
and one with the `sstIndex` -1 makes it read `m_sst[ 2 ^ 64 - 1 ]`; no exception
is thrown on the way. `Parser::loadSheet` of parser.hpp hands the index 3 to the
callback and returns. With the index 2 the cell gets the third string. -/
theorem C21_handleLabelSST_index_not_checked :
    ([[0x41], [0x42], [0x43]] : List (List Nat)).length = 3 ∧
    (Excel.Sheet.new "" : Excel.Sheet (List Nat)).initCellOld 0 0 =
      some ⟨[[Excel.Cell.empty]], 1, ""⟩ ∧
    toSizeT (toInt32 (leAt labelSSTIndex3 6 4)) = 3 ∧
    ([[0x41], [0x42], [0x43]] : List (List Nat))[3]? = none ∧
    Excel.Sheet.handleLabelSST [[0x41], [0x42], [0x43]] (Excel.Sheet.new "")
      ⟨Excel.XL_LABELSST, labelSSTIndex3, []⟩ = none ∧
    toInt32 (leAt labelSSTIndexMinus1 6 4) = -1 ∧
    toSizeT (toInt32 (leAt labelSSTIndexMinus1 6 4)) = 2 ^ 64 - 1 ∧
    Excel.Sheet.handleLabelSST [[0x41], [0x42], [0x43]] (Excel.Sheet.new "")
      ⟨Excel.XL_LABELSST, labelSSTIndexMinus1, []⟩ = none ∧
    Excel.Parser.loadSheet 0 ⟨0, Excel.SheetType.WorkSheet, [0x41]⟩ ⟨sheetWithIndex3, 0⟩ =
      ([Excel.Event.onCellSharedString 0 0 0 3], Excel.Outcome.returned) ∧
    Excel.Sheet.handleLabelSST [[0x41], [0x42], [0x43]] (Excel.Sheet.new "")
      ⟨Excel.XL_LABELSST, [0x00, 0x00, 0x00, 0x00, 0x00, 0x00, 0x02, 0x00, 0x00, 0x00], []⟩ =
      some ⟨[[Excel.Cell.data [0x43]]], 1, ""⟩ := by
  refine ⟨by decide, by decide, by decide, by decide, by decide, by decide, by decide,
    by decide, by decide, by decide⟩

/-- C22, at a failing input: in a sheet stream of a BOF record, a FORMULA record
with a string to come, its STRING record "this is red ink" and an EOF record,
a BLANK record (`0x0201`, for which the loop has no case) put in between the
FORMULA record and the STRING record changes the callback of `Parser::loadSheet`:
`handleFORMULA` reads the BLANK record for the string and reports the formula
with the empty string. Put in before the FORMULA record or behind the STRING
record it changes nothing. -/
theorem C22_record_after_FORMULA_changes_callback :
    (Excel.Record.read ⟨blankRecord, 0⟩).1 = ⟨0x0201, [0, 0, 0, 0, 0, 0], []⟩ ∧
    (Excel.Record.read ⟨sheetBlankAfterFormula, 6⟩).1.code = Excel.XL_FORMULA ∧
    (Excel.Record.read ⟨sheetBlankAfterFormula, 32⟩).1.code = 0x0201 ∧
    (Excel.Record.read ⟨sheetBlankAfterFormula, 42⟩).1.code = Excel.XL_STRING ∧
    Excel.Parser.loadSheet 0 ⟨0, Excel.SheetType.WorkSheet, [0x41]⟩ ⟨sheetFormulaString, 0⟩ =
      ([Excel.Event.onCellFormula 0
          ⟨4, 5, Excel.Formula.ValueType.StringValue, 0, false, 0, thisIsRedInk⟩],
        Excel.Outcome.returned) ∧
    Excel.Parser.loadSheet 0 ⟨0, Excel.SheetType.WorkSheet, [0x41]⟩
        ⟨sheetBlankAfterFormula, 0⟩ =
      ([Excel.Event.onCellFormula 0
          ⟨4, 5, Excel.Formula.ValueType.StringValue, 0, false, 0, []⟩],
        Excel.Outcome.returned) ∧
    Excel.Parser.loadSheet 0 ⟨0, Excel.SheetType.WorkSheet, [0x41]⟩
        ⟨sheetBlankBeforeFormula, 0⟩ =
      ([Excel.Event.onCellFormula 0
          ⟨4, 5, Excel.Formula.ValueType.StringValue, 0, false, 0, thisIsRedInk⟩],
        Excel.Outcome.returned) ∧
    Excel.Parser.loadSheet 0 ⟨0, Excel.SheetType.WorkSheet, [0x41]⟩
        ⟨sheetBlankBeforeEOF, 0⟩ =
      ([Excel.Event.onCellFormula 0
          ⟨4, 5, Excel.Formula.ValueType.StringValue, 0, false, 0, thisIsRedInk⟩],
        Excel.Outcome.returned) := by
  refine ⟨by decide, by decide, by decide, by decide, by decide, by decide, by decide,
    by decide⟩

/-- C23: for every 16-bit type word, with the high byte `hi` and the low byte
`lo`, `BoundSheet::convertSheetType` returns `hi * 256`, which is `t & 0xFF00`,
whatever `lo` is: `WorkSheet` exactly when `hi` is `0x00`, `MacroSheet` exactly
when it is `0x01`, `Chart` when `0x02`, `VisualBasicModule` when `0x06`; the
functions of sheet.cpp and of sheet.hpp return the same on every `int16_t`. -/
theorem C23_convertSheetType_high_byte :
    (∀ hi lo : Nat, hi < 256 → lo < 256 →
      Excel.BoundSheet.convertSheetType (toInt16 (hi * 256 + lo)) = hi * 256 ∧
      Excel.BoundSheet.convertSheetType (toInt16 (hi * 256 + lo)) =
        (hi * 256 + lo) &&& 0xFF00 ∧
      (Excel.BoundSheet.convertSheetType (toInt16 (hi * 256 + lo)) =
        Excel.SheetType.WorkSheet ↔ hi = 0x00) ∧
      (Excel.BoundSheet.convertSheetType (toInt16 (hi * 256 + lo)) =
        Excel.SheetType.MacroSheet ↔ hi = 0x01) ∧
      (Excel.BoundSheet.convertSheetType (toInt16 (hi * 256 + lo)) =
        Excel.SheetType.Chart ↔ hi = 0x02) ∧
      (Excel.BoundSheet.convertSheetType (toInt16 (hi * 256 + lo)) =
        Excel.SheetType.VisualBasicModule ↔ hi = 0x06)) ∧
    (∀ type : Int, Excel.BoundSheet.convertSheetTypeOld type =
      Excel.BoundSheet.convertSheetType type) := by
  refine ⟨?_, fun _ => rfl⟩
  intro hi lo hhi hlo
  have hw : hi * 256 + lo < 2 ^ 16 := by omega
  have h : Excel.BoundSheet.convertSheetType (toInt16 (hi * 256 + lo)) = hi * 256 := by
    rw [Excel.BoundSheet.convertSheetType_eq, toInt16_pattern _ hw]
    have : (hi * 256 + lo) / 256 = hi := by omega
    rw [this, Nat.mod_eq_of_lt hhi]
  have h2 : (hi * 256 + lo) &&& 0xFF00 = hi * 256 := by
    rw [and_FF00]
    have : (hi * 256 + lo) / 256 = hi := by omega
    rw [this, Nat.mod_eq_of_lt hhi]
  rw [h, h2]
  refine ⟨rfl, rfl, ?_, ?_, ?_, ?_⟩
  · show (hi * 256 : Nat) = (0x0000 : Nat) ↔ hi = 0x00
    omega
  · show (hi * 256 : Nat) = (0x0100 : Nat) ↔ hi = 0x01
    omega
  · show (hi * 256 : Nat) = (0x0200 : Nat) ↔ hi = 0x02
    omega
  · show (hi * 256 : Nat) = (0x0600 : Nat) ↔ hi = 0x06
    omega

theorem C23_convertSheetType_high_byte_witness :
    Excel.BoundSheet.convertSheetType (toInt16 (0x02 * 256 + 0x01)) = 0x02 * 256 ∧
      Excel.BoundSheet.convertSheetType (toInt16 (0x02 * 256 + 0x01)) =
        (0x02 * 256 + 0x01) &&& 0xFF00 ∧
      (Excel.BoundSheet.convertSheetType (toInt16 (0x02 * 256 + 0x01)) =
        Excel.SheetType.WorkSheet ↔ 0x02 = 0x00) ∧
      (Excel.BoundSheet.convertSheetType (toInt16 (0x02 * 256 + 0x01)) =
        Excel.SheetType.MacroSheet ↔ 0x02 = 0x01) ∧
      (Excel.BoundSheet.convertSheetType (toInt16 (0x02 * 256 + 0x01)) =
        Excel.SheetType.Chart ↔ 0x02 = 0x02) ∧
      (Excel.BoundSheet.convertSheetType (toInt16 (0x02 * 256 + 0x01)) =
        Excel.SheetType.VisualBasicModule ↔ 0x02 = 0x06) :=
  C23_convertSheetType_high_byte.1 0x02 0x01 (by decide) (by decide)

/-- C25, at a failing input: the sheet that `setCell( 0, 1, 10 )` and
`setCell( 2, 0, 20 )` make of a fresh one has 3 rows and `columnsCount()` 2, and
its row 1 has no cell; `cell( 1, 0 )` and `setCell( 1, 0, 30 )`, inside both
counts, index that row outside its bounds. -/
theorem C25_reachable_grid_not_rectangular :
    (Excel.Sheet.new "Sheet1" : Excel.Sheet Nat).setCells [(0, 1, 10), (2, 0, 20)] =
      some skippedRowSheet ∧
    skippedRowSheet.rowsCount = 3 ∧ skippedRowSheet.columnsCount = 2 ∧
    skippedRowSheet.m_cells.map List.length = [2, 0, 2] ∧
    skippedRowSheet.cellRef 1 0 = Excel.Sheet.CellRef.gridCell 1 0 ∧
    skippedRowSheet.cell 1 0 = none ∧
    skippedRowSheet.setCell 1 0 30 = none := by
  refine ⟨by decide, by decide, by decide, by decide, by decide, by decide, by decide⟩

/-- C26, at a failing input: after `initCell( 0, 1 )` and `initCell( 2, 0 )` on an
empty grid the rows of sheet.hpp have 2, 0 and 2 cells and those of sheet.cpp
have 2, 2 and 2; the number of rows and `m_columnsCount` are the same. -/
theorem C26_initCell_shapes_differ :
    ((Excel.Sheet.new "" : Excel.Sheet Nat).initCellSeq [(0, 1), (2, 0)]).map
      Excel.Sheet.shape = some ([2, 0, 2], 2) ∧
    ((Excel.Sheet.new "" : Excel.Sheet Nat).initCellOldSeq [(0, 1), (2, 0)]).map
      Excel.Sheet.shape = some ([2, 2, 2], 2) := by
  refine ⟨by decide, by decide⟩

/-- C27: for every 32-bit word `rk` with the integer flag set, the number
converted before the optional division by 100 is `rk >> 2`, an integer from 0 to
`2 ^ 30 - 1` that the conversion keeps as it is, and `doubleFromRK( rk )` has the
sign bit clear and a value that is not negative; the word `0xFFFFFFFE`, with its
top bit set, gives 1073741823. -/
theorem C27_doubleFromRK_integer_not_negative :
    (∀ rk : Nat, rk < 2 ^ 32 → rk &&& 0x02 ≠ 0 →
      rk >>> 2 ≤ 2 ^ 30 - 1 ∧
      F64.toRat (F64.ofNat (rk >>> 2)) = some ((rk >>> 2 : Nat) : ℚ) ∧
      doubleFromRK rk =
        (if rk &&& 0x01 ≠ 0 then F64.div (F64.ofNat (rk >>> 2)) (F64.ofNat 100)
        else F64.ofNat (rk >>> 2)) ∧
      F64.sign (doubleFromRK rk) = 0 ∧
      ∃ v : ℚ, F64.toRat (doubleFromRK rk) = some v ∧ 0 ≤ v) ∧
    0xFFFFFFFE >>> 2 = 1073741823 ∧
    doubleFromRK 0xFFFFFFFE = 0x41CFFFFFFF800000 ∧
    F64.toRat 0x41CFFFFFFF800000 = some 1073741823 := by
  refine ⟨?_, by decide, by decide, ?_⟩
  · intro rk hrk h2
    have hlt := shiftRight_two_lt rk hrk
    have h53 : rk >>> 2 < 2 ^ 53 := lt_trans hlt (by norm_num)
    have hval := F64.toRat_ofNat (rk >>> 2) h53
    have heq := doubleFromRK_integer_flag rk h2
    refine ⟨by omega, hval, heq, ?_, ?_⟩
    · rw [heq]
      split_ifs
      · exact F64.sign_div_ofNat_hundred _ h53
      · exact F64.sign_roundPos _ _
    · rw [heq]
      split_ifs
      · exact F64.div_ofNat_hundred_nonneg _ h53
      · exact ⟨_, hval, by positivity⟩
  · norm_num [F64.toRat, F64.expField, F64.sign, F64.sig, F64.frac, F64.exp2]

theorem C27_doubleFromRK_integer_not_negative_witness :
    0xFFFFFFFF >>> 2 ≤ 2 ^ 30 - 1 ∧
      F64.toRat (F64.ofNat (0xFFFFFFFF >>> 2)) = some ((0xFFFFFFFF >>> 2 : Nat) : ℚ) ∧
      doubleFromRK 0xFFFFFFFF =
        (if 0xFFFFFFFF &&& 0x01 ≠ 0 then
          F64.div (F64.ofNat (0xFFFFFFFF >>> 2)) (F64.ofNat 100)
        else F64.ofNat (0xFFFFFFFF >>> 2)) ∧
      F64.sign (doubleFromRK 0xFFFFFFFF) = 0 ∧
      ∃ v : ℚ, F64.toRat (doubleFromRK 0xFFFFFFFF) = some v ∧ 0 ≤ v :=
  C27_doubleFromRK_integer_not_negative.1 0xFFFFFFFF (by decide) (by decide)

/-- C28: for every SST record, each callback `onSharedString( size, index, value )`
that `Parser::parseSST` makes has for `size` the count of unique strings, the
second 32-bit number of the payload, and `0 <= index < size`; so have the
callbacks of every shorter run of its loop, those made before a string that
cannot be read. A record that says 7 strings, 1 of them unique, gives the one
callback with the size 1. -/
theorem C28_onSharedString_size_and_index :
    (∀ (record : Excel.Record) (events : List Excel.Event),
      Excel.Parser.parseSST record = some events →
      ∀ e ∈ events, ∃ (idx : Int) (value : List Nat),
        e = Excel.Event.onSharedString (toInt32 (leAt record.data 4 4)) idx value ∧
          0 ≤ idx ∧ idx < toInt32 (leAt record.data 4 4)) ∧
    (∀ (borders : List Int) (uniqueStrings : Int) (turns : Nat) (s : Excel.Stream)
        (events : List Excel.Event), (turns : Int) ≤ uniqueStrings →
      Excel.Parser.parseSSTLoop borders uniqueStrings turns 0 s = some events →
      ∀ e ∈ events, ∃ (idx : Int) (value : List Nat),
        e = Excel.Event.onSharedString uniqueStrings idx value ∧
          0 ≤ idx ∧ idx < uniqueStrings) ∧
    Excel.Parser.parseSST ⟨Excel.XL_SST, [7, 0, 0, 0, 1, 0, 0, 0, 1, 0, 0, 0x41], []⟩ =
      some [Excel.Event.onSharedString 1 0 [0x41]] := by
  refine ⟨Excel.Parser.parseSST_events, ?_, by decide⟩
  intro borders uniqueStrings turns s events hturns h e he
  obtain ⟨idx, v, hv, h1, h2⟩ := Excel.Parser.parseSSTLoop_events _ _ _ _ _ _ h e he
  exact ⟨idx, v, hv, h1, by omega⟩

theorem C28_onSharedString_size_and_index_witness :
    ∃ (idx : Int) (value : List Nat),
      Excel.Event.onSharedString 3 1 qrqr =
          Excel.Event.onSharedString
            (toInt32 (leAt (Excel.Record.read ⟨sstTestData, 0⟩).1.data 4 4)) idx value ∧
        0 ≤ idx ∧ idx < toInt32 (leAt (Excel.Record.read ⟨sstTestData, 0⟩).1.data 4 4) :=
  C28_onSharedString_size_and_index.1 (Excel.Record.read ⟨sstTestData, 0⟩).1
    [Excel.Event.onSharedString 3 0 (stst ++ stst), Excel.Event.onSharedString 3 1 qrqr,
      Excel.Event.onSharedString 3 2 qrqr] (by decide)
    (Excel.Event.onSharedString 3 1 qrqr) (by decide)
